import Mathlib

/-!
ChugWare: time codec, result store and participant store.

A shallow embedding of `internal/utils/utils.go`, `internal/models/types.go`,
`internal/data/manager.go` and of the contest logic of
`internal/ui/chug_manager.go` and `internal/ui/external_clock.go`, followed by
theorems about it.

Conventions of the embedding

* A Go `string` is a `GoString`, a list of Unicode code points (valid UTF-8
  text).  The only byte-level operations the code performs (`len(ms)`,
  `ms[:4]`) cut a fraction down to four bytes that are then handed to
  `strconv.Atoi`, which answers 0 whenever one of them is not an ASCII digit,
  so code points and bytes agree there.
* Go `int` and `int64` are 64-bit; they are embedded as `Int`.  Every place
  where the 64-bit range is observable (`strconv.Atoi` clamping) is written
  out explicitly.
* A method with a pointer receiver that returns `error` becomes a function
  from the manager to the pair of the manager afterwards and an optional error.
* What a method reads from outside (a setting, the outcome of writing a file)
  is an argument; a buffered channel is the list of its pending values, and a
  statement that would block has no result.
-/

namespace ChugWare

/-- Go `string`, as the list of its code points. -/
abbrev GoString := List Char

/-! ## Packages `strings`, `strconv`, `fmt`, `regexp` of the Go library -/

/-- ASCII decimal digit: the regexp class `\d` and the digit test of `strconv`. -/
def isDigit (c : Char) : Bool := decide (48 ≤ c.toNat) && decide (c.toNat ≤ 57)

/-- Value of a decimal digit character (`c - '0'`). -/
def digitVal (c : Char) : Nat := c.toNat - 48

/-- Character of a decimal digit value (`'0' + d`). -/
def digitChar (d : Nat) : Char := Char.ofNat (48 + d)

/-- Go `unicode.IsSpace`: the Latin-1 spaces and the `White_Space` code points
beyond Latin-1. -/
def isSpace (c : Char) : Bool :=
  let r := c.toNat
  r == 9 || r == 10 || r == 11 || r == 12 || r == 13 || r == 32 || r == 0x85 || r == 0xA0
    || r == 0x1680 || (decide (0x2000 ≤ r) && decide (r ≤ 0x200A))
    || r == 0x2028 || r == 0x2029 || r == 0x202F || r == 0x205F || r == 0x3000

/-- Go `strings.TrimSpace`: leading and trailing white space removed. -/
def TrimSpace (s : GoString) : GoString :=
  ((s.dropWhile isSpace).reverse.dropWhile isSpace).reverse

/-- Go `strings.Contains(s, sep)` for a one-character separator. -/
def Contains (s : GoString) (sep : Char) : Bool := s.any (fun c => c == sep)

/-- Go `strings.Split(s, sep)` for a one-character separator: the pieces
between the separators, a single empty piece for the empty string. -/
def Split (sep : Char) : GoString → List GoString
  | [] => [[]]
  | c :: cs =>
    if c = sep then [] :: Split sep cs
    else
      match Split sep cs with
      | [] => [[c]]
      | p :: ps => (c :: p) :: ps

/-- Go `strings.SplitN(s, sep, 2)` for a one-character separator: the text
before the first separator and the text after it, or `s` alone when there is
no separator. -/
def SplitN2 (sep : Char) (s : GoString) : List GoString :=
  if Contains s sep then
    [s.takeWhile (fun c => c != sep), (s.dropWhile (fun c => c != sep)).drop 1]
  else [s]

/-- Largest `int` (64-bit). -/
def maxInt : Int := 9223372036854775807

/-- Largest `uint64`. -/
def maxUint64 : Nat := 18446744073709551615

/-- Outcome of `strconv.ParseUint`: a value, a syntax error, or a range error. -/
inductive NumResult where
  | ok (n : Nat)
  | syntaxErr
  | rangeErr
  deriving DecidableEq, Repr

/-- The digit loop of `strconv.ParseUint(s, 10, 0)`: characters are consumed
left to right; a non-digit is a syntax error, and the first step that leaves
the `uint64` range is a range error reported at once. -/
def parseUintLoop : GoString → Nat → NumResult
  | [], n => NumResult.ok n
  | c :: cs, n =>
    if !isDigit c then NumResult.syntaxErr
    else if n ≥ maxUint64 / 10 + 1 then NumResult.rangeErr
    else if n * 10 + digitVal c > maxUint64 then NumResult.rangeErr
    else parseUintLoop cs (n * 10 + digitVal c)

/-- Go `strconv.ParseUint(s, 10, 0)`. -/
def ParseUint (s : GoString) : NumResult :=
  match s with
  | [] => NumResult.syntaxErr
  | _ => parseUintLoop s 0

/-- Go `strconv.Atoi` with its error dropped, as at every call site
(`n, _ := strconv.Atoi(s)`): an optional sign and decimal digits; 0 on a
syntax error; the nearest `int` bound on a range error.  (The short-input
fast path of `Atoi` returns the same values as this general path.) -/
def Atoi (s : GoString) : Int :=
  match s with
  | [] => 0
  | c :: cs =>
    let neg : Bool := c == '-'
    let body : GoString := if c = '+' ∨ c = '-' then cs else c :: cs
    match ParseUint body with
    | NumResult.syntaxErr => 0
    | NumResult.rangeErr => if neg then -(maxInt + 1) else maxInt
    | NumResult.ok un =>
      if !neg && decide ((un : Int) ≥ maxInt + 1) then maxInt
      else if neg && decide ((un : Int) > maxInt + 1) then -(maxInt + 1)
      else if neg then -(un : Int) else (un : Int)

/-- Decimal digits of `n`, least significant first (`fuel` bounds the number
of digits). -/
def decDigitsRev : Nat → Nat → GoString
  | 0, _ => []
  | fuel + 1, n =>
    digitChar (n % 10) :: (if n / 10 = 0 then [] else decDigitsRev fuel (n / 10))

/-- Decimal text of a natural number, without leading zeros. -/
def natToDec (n : Nat) : GoString := (decDigitsRev (n + 1) n).reverse

/-- Go `strconv.Itoa`. -/
def Itoa (n : Int) : GoString :=
  if n < 0 then '-' :: natToDec n.natAbs else natToDec n.natAbs

/-- The verb `%0wd` of `fmt.Sprintf`: decimal text padded with zeros on the
left to width `w`, the sign counting towards the width. -/
def fmtD0 (w : Nat) (n : Int) : GoString :=
  if n < 0 then
    '-' :: (List.replicate (w - 1 - (natToDec n.natAbs).length) '0' ++ natToDec n.natAbs)
  else List.replicate (w - (natToDec n.natAbs).length) '0' ++ natToDec n.natAbs

/-- A maximal run of digits at the head of `s` whose length lies in
`[lo, hi]`, with the rest of the text.  In every pattern below a digit group
is followed by `:`, `.` or the end of the text, so the group is the maximal
run. -/
def digitRun (lo hi : Nat) (s : GoString) : Option (GoString × GoString) :=
  let ds := s.takeWhile isDigit
  if lo ≤ ds.length ∧ ds.length ≤ hi then some (ds, s.dropWhile isDigit) else none

/-- One literal character at the head of the text. -/
def expect (c : Char) : GoString → Option GoString
  | [] => none
  | d :: r => if d = c then some r else none

/-- The text is a non-empty run of digits: `\d+$`. -/
def allDigits1 (s : GoString) : Bool := !s.isEmpty && s.all isDigit

/-- Submatches of `^(\d{1,2}):(\d{2}):(\d{2})(?:\.(\d+))?$`: hours, minutes,
seconds and the fraction (`none` when the optional group did not take part). -/
def matchHMS (s : GoString) : Option (GoString × GoString × GoString × Option GoString) :=
  match digitRun 1 2 s with
  | none => none
  | some (h, r1) =>
    match expect ':' r1 with
    | none => none
    | some r2 =>
      match digitRun 2 2 r2 with
      | none => none
      | some (m, r3) =>
        match expect ':' r3 with
        | none => none
        | some r4 =>
          match digitRun 2 2 r4 with
          | none => none
          | some (sec, r5) =>
            match r5 with
            | [] => some (h, m, sec, none)
            | d :: f =>
              if d = '.' ∧ allDigits1 f = true then some (h, m, sec, some f) else none

/-- Pattern `^\d{1,2}:\d{2}:\d{2}$`. -/
def reHMS (s : GoString) : Bool :=
  match matchHMS s with
  | some (_, _, _, none) => true
  | _ => false

/-- Pattern `^\d{1,2}:\d{2}:\d{2}\.\d+$`. -/
def reHMSFrac (s : GoString) : Bool :=
  match matchHMS s with
  | some (_, _, _, some _) => true
  | _ => false

/-- Pattern `^\d{1,2}:\d{2}$`. -/
def reHM (s : GoString) : Bool :=
  match digitRun 1 2 s with
  | none => false
  | some (_, r1) =>
    match expect ':' r1 with
    | none => false
    | some r2 =>
      match digitRun 2 2 r2 with
      | some (_, []) => true
      | _ => false

/-- Pattern `^\d{1,2}\.\d+$`. -/
def reSecFrac (s : GoString) : Bool :=
  match digitRun 1 2 s with
  | none => false
  | some (_, r1) =>
    match expect '.' r1 with
    | none => false
    | some f => allDigits1 f

/-- Pattern `^\d+$`. -/
def reDigits (s : GoString) : Bool := allDigits1 s

/-- Pattern `^\d{2}:\d{2}:\d{2}\.\d{4}$`. -/
def reFull (s : GoString) : Bool :=
  match matchHMS s with
  | some (h, _, _, some f) => decide (h.length = 2) && decide (f.length = 4)
  | _ => false

/-! ## `internal/config` and `internal/models` -/

/-- Constant `config.NoKey = "No"`, the Invalid sentinel of the time codec. -/
def NoKey : GoString := ['N', 'o']

/-- The sentinel text `"NaN"`. -/
def NaN : GoString := ['N', 'a', 'N']

/-- Constant `models.StatusPass`. -/
def StatusPass : GoString := ['P', 'a', 's', 's']

/-- Constant `models.StatusDisqualified`. -/
def StatusDisqualified : GoString :=
  ['D', 'i', 's', 'q', 'u', 'a', 'l', 'i', 'f', 'i', 'e', 'd']

/-- Constant `models.StatusFail`. -/
def StatusFail : GoString := ['F', 'a', 'i', 'l']

/-- Constant `models.DisciplineBottle`. -/
def DisciplineBottle : GoString := ['B', 'o', 't', 't', 'l', 'e']

/-- Constant `models.DisciplineHalfTankard`. -/
def DisciplineHalfTankard : GoString :=
  ['H', 'a', 'l', 'f', ' ', 'T', 'a', 'n', 'k', 'a', 'r', 'd']

/-- Constant `models.DisciplineFullTankard`. -/
def DisciplineFullTankard : GoString :=
  ['F', 'u', 'l', 'l', ' ', 'T', 'a', 'n', 'k', 'a', 'r', 'd']

/-- Struct `models.Participant`. -/
structure Participant where
  Name : GoString
  Program : GoString
  Team : GoString
  Bottle : GoString
  HalfTankard : GoString
  FullTankard : GoString
  deriving DecidableEq, Repr

/-- Struct `models.Result`. -/
structure Result where
  Name : GoString
  Discipline : GoString
  Time : GoString
  BaseTime : GoString
  AdditionalTime : GoString
  Status : GoString
  Comment : GoString
  deriving DecidableEq, Repr

/-! ## `internal/utils` -/

/-- Function `utils.IsNullString`. -/
def IsNullString (str : GoString) : Bool := decide (TrimSpace str = [])

/-- The fraction digits brought to at least four characters
(`for len(ms) < 4 { ms += "0" }`). -/
def padFraction (ms : GoString) : GoString := ms ++ List.replicate (4 - ms.length) '0'

/-- Function `utils.formatTimeString`. -/
def formatTimeString (timeStr : GoString) : GoString :=
  if reFull timeStr then timeStr
  else if Contains timeStr ':' then
    match Split ':' timeStr with
    | [_, _] => ['0', '0', ':'] ++ timeStr ++ ['.', '0', '0', '0', '0']
    | [p0, p1, p2] =>
      let h := Atoi p0
      let m := Atoi p1
      if Contains p2 '.' then
        match SplitN2 '.' p2 with
        | [sp0, sp1] =>
          let s := Atoi sp0
          let ms := padFraction sp1
          let ms := if ms.length > 4 then ms.take 4 else ms
          let msInt := Atoi ms
          fmtD0 2 h ++ [':'] ++ fmtD0 2 m ++ [':'] ++ fmtD0 2 s ++ ['.'] ++ fmtD0 4 msInt
        | _ => timeStr
      else
        let s := Atoi p2
        fmtD0 2 h ++ [':'] ++ fmtD0 2 m ++ [':'] ++ fmtD0 2 s ++ ['.', '0', '0', '0', '0']
    | _ => timeStr
  else if Contains timeStr '.' then
    match SplitN2 '.' timeStr with
    | [sp0, sp1] =>
      let s := Atoi sp0
      let ms := padFraction sp1
      let ms := if ms.length > 4 then ms.take 4 else ms
      let msInt := Atoi ms
      ['0', '0', ':', '0', '0', ':'] ++ fmtD0 2 s ++ ['.'] ++ fmtD0 4 msInt
    | _ => timeStr
  else
    let s := Atoi timeStr
    ['0', '0', ':', '0', '0', ':'] ++ fmtD0 2 s ++ ['.', '0', '0', '0', '0']

/-- The pattern list of `ParseAndPadTimeString`, in source order. -/
def patterns : List (GoString → Bool) := [reHMS, reHMSFrac, reHM, reSecFrac, reDigits]

/-- Function `utils.ParseAndPadTimeString`. -/
def ParseAndPadTimeString (timeStr : GoString) : GoString :=
  let timeStr := TrimSpace timeStr
  if timeStr = NaN then NaN
  else if patterns.any (fun pattern => pattern timeStr) then formatTimeString timeStr
  else NoKey

/-- Function `utils.ParseTimeForComparison`. -/
def ParseTimeForComparison (timeStr : GoString) : Int :=
  let timeStr := TrimSpace timeStr
  if timeStr = NaN then -1
  else
    match matchHMS timeStr with
    | some (g1, g2, g3, g4) =>
      let hours := Atoi g1
      let minutes := Atoi g2
      let seconds := Atoi g3
      let subms : Int :=
        match g4 with
        | some ms =>
          if ms ≠ [] then Atoi (if ms.length > 4 then ms.take 4 else padFraction ms) else 0
        | none => 0
      hours * 36000000 + minutes * 600000 + seconds * 10000 + subms
    | none => 0

/-- Constant `config.MaxStringLength`. -/
def MaxStringLength : Nat := 255

/-- Number of bytes of a code point in UTF-8. -/
def utf8Len (c : Char) : Nat :=
  if c.toNat < 0x80 then 1 else if c.toNat < 0x800 then 2 else if c.toNat < 0x10000 then 3 else 4

/-- Go `len(s)` of a string: its length in bytes. -/
def len (s : GoString) : Nat := (s.map utf8Len).sum

/-- Function `utils.IsStringValid`. -/
def IsStringValid (str : GoString) : Bool :=
  decide (len str ≤ MaxStringLength) && decide (len str > 0)

/-! ## `internal/data` -/

/-- The text `"00:00:00.0000"`. -/
def zeroTime : GoString :=
  ['0', '0', ':', '0', '0', ':', '0', '0', '.', '0', '0', '0', '0']

/-- The last four statements of `calcResultTime`: the tick total rendered
with `"%02d:%02d:%02d.%04d"`.  The total is never negative there, so Go's
truncated `/` and `%` are the ones of `Int`. -/
def formatTicks (totalTms : Int) : GoString :=
  let hours := totalTms / (60 * 60 * 10000)
  let minutes := (totalTms / (60 * 10000)) % 60
  let seconds := (totalTms / 10000) % 60
  let subms := totalTms % 10000
  fmtD0 2 hours ++ [':'] ++ fmtD0 2 minutes ++ [':'] ++ fmtD0 2 seconds ++ ['.'] ++ fmtD0 4 subms

/-- Function `data.calcResultTime`; the result passed by pointer is returned. -/
def calcResultTime (result : Result) : Result :=
  let normBase := ParseAndPadTimeString result.BaseTime
  let normAdditional :=
    if result.AdditionalTime = [] ∨ result.AdditionalTime = ['0'] then zeroTime
    else ParseAndPadTimeString result.AdditionalTime
  let baseMs := ParseTimeForComparison normBase
  let additionalMs := ParseTimeForComparison normAdditional
  if baseMs < 0 ∨ additionalMs < 0 then { result with Time := NaN }
  else { result with Time := formatTicks (baseMs + additionalMs) }

/-- The `error` values built by the two managers. -/
inductive GoError where
  /-- Message `participant '%s' not found`. -/
  | participantNotFound (name : GoString)
  /-- Message `participant name cannot be empty`. -/
  | participantNameEmpty
  /-- Message `participant data exceeds maximum length`. -/
  | participantTooLong
  /-- Message `participant with name '%s' already exists`. -/
  | participantExists (name : GoString)
  /-- Message `name and discipline are required`. -/
  | nameAndDisciplineRequired
  /-- Message `%s is already disqualified in %s and cannot be overwritten`. -/
  | alreadyDisqualified (name discipline : GoString)
  /-- Message `no result found to update for %s in %s`. -/
  | noResultFound (name discipline : GoString)
  deriving DecidableEq, Repr

/-- Struct `data.ParticipantManager`. -/
structure ParticipantManager where
  participants : List Participant
  filePath : GoString
  deriving DecidableEq, Repr

/-- Function `data.NewParticipantManager`. -/
def NewParticipantManager : ParticipantManager := { participants := [], filePath := [] }

/-- The loop of `DecrementTries` over `pm.participants`: the first participant
with the given name is the one acted on. -/
def decrementTriesLoop (name discipline : GoString) :
    List Participant → List Participant × Option GoError
  | [] => ([], some (GoError.participantNotFound name))
  | p :: rest =>
    if p.Name = name then
      if discipline = DisciplineBottle then
        let tries := Atoi p.Bottle
        if tries > 0 then ({ p with Bottle := Itoa (tries - 1) } :: rest, none)
        else (p :: rest, none)
      else if discipline = DisciplineHalfTankard then
        let tries := Atoi p.HalfTankard
        if tries > 0 then ({ p with HalfTankard := Itoa (tries - 1) } :: rest, none)
        else (p :: rest, none)
      else if discipline = DisciplineFullTankard then
        let tries := Atoi p.FullTankard
        if tries > 0 then ({ p with FullTankard := Itoa (tries - 1) } :: rest, none)
        else (p :: rest, none)
      else (p :: rest, none)
    else
      ((decrementTriesLoop name discipline rest).1.cons p,
        (decrementTriesLoop name discipline rest).2)

/-- Method `ParticipantManager.DecrementTries`. -/
def ParticipantManager.DecrementTries (pm : ParticipantManager) (name discipline : GoString) :
    ParticipantManager × Option GoError :=
  ({ pm with participants := (decrementTriesLoop name discipline pm.participants).1 },
    (decrementTriesLoop name discipline pm.participants).2)

/-- Method `ParticipantManager.AddParticipant`. -/
def ParticipantManager.AddParticipant (pm : ParticipantManager) (participant : Participant) :
    ParticipantManager × Option GoError :=
  if IsNullString participant.Name then (pm, some GoError.participantNameEmpty)
  else if !IsStringValid participant.Name || !IsStringValid participant.Program
      || !IsStringValid participant.Team then
    (pm, some GoError.participantTooLong)
  else if pm.participants.any (fun existing => decide (existing.Name = participant.Name)) then
    (pm, some (GoError.participantExists participant.Name))
  else ({ pm with participants := pm.participants ++ [participant] }, none)

/-- Method `ParticipantManager.GetParticipants`: a copy of the list. -/
def ParticipantManager.GetParticipants (pm : ParticipantManager) : List Participant :=
  pm.participants

/-- The loop of `RemoveParticipant`: the list without the first participant of
the given name (`append(participants[:i], participants[i+1:]...)`), or `none`
when the loop ends without a match. -/
def removeParticipantLoop (name : GoString) : List Participant → Option (List Participant)
  | [] => none
  | participant :: rest =>
    if participant.Name = name then some rest
    else
      match removeParticipantLoop name rest with
      | none => none
      | some rest1 => some (participant :: rest1)

/-- Method `ParticipantManager.RemoveParticipant`. -/
def ParticipantManager.RemoveParticipant (pm : ParticipantManager) (name : GoString) :
    ParticipantManager × Option GoError :=
  match removeParticipantLoop name pm.participants with
  | some participants => ({ pm with participants := participants }, none)
  | none => (pm, some (GoError.participantNotFound name))

/-- Struct `data.ResultManager`. -/
structure ResultManager where
  results : List Result
  filePath : GoString
  deriving DecidableEq, Repr

/-- Function `data.NewResultManager`. -/
def NewResultManager : ResultManager := { results := [], filePath := [] }

/-- The recomputation of `Time` shared by `AddResult` and `UpdateLastResult`. -/
def recalcTime (result : Result) : Result :=
  if result.Status ≠ StatusDisqualified then calcResultTime result
  else { result with Time := NaN }

/-- Method `ResultManager.AddResult`. -/
def ResultManager.AddResult (rm : ResultManager) (result : Result) :
    ResultManager × Option GoError :=
  if IsNullString result.Name || IsNullString result.Discipline then
    (rm, some GoError.nameAndDisciplineRequired)
  else
    ({ rm with results := rm.results ++ [recalcTime result] }, none)

/-- The loop `for i := len(rm.results) - 1; i >= 0; i--` of `UpdateLastResult`;
the argument `n` is `i + 1`. -/
def updateLastLoop (results : List Result) (result : Result) :
    Nat → List Result × Option GoError
  | 0 => (results, some (GoError.noResultFound result.Name result.Discipline))
  | i + 1 =>
    match results[i]? with
    | some e =>
      if e.Name = result.Name ∧ e.Discipline = result.Discipline then
        if e.Status = StatusDisqualified then
          (results, some (GoError.alreadyDisqualified result.Name result.Discipline))
        else (results.set i result, none)
      else updateLastLoop results result i
    | none => updateLastLoop results result i

/-- Method `ResultManager.UpdateLastResult`. -/
def ResultManager.UpdateLastResult (rm : ResultManager) (result : Result) :
    ResultManager × Option GoError :=
  ({ rm with results := (updateLastLoop rm.results (recalcTime result) rm.results.length).1 },
    (updateLastLoop rm.results (recalcTime result) rm.results.length).2)

/-- Method `ResultManager.GetResults`. -/
def ResultManager.GetResults (rm : ResultManager) : List Result := rm.results

/-! ## `internal/ui`: the external clock feed -/

/-- A buffered Go channel of strings with no receiver waiting: the values
pending in the buffer, oldest first, and the capacity of the buffer. -/
structure StringChan where
  pending : List GoString
  capacity : Nat
  deriving DecidableEq, Repr

/-- Field `TimeChan` as `NewExternalClockManager` makes it:
`make(chan string, 256)`. -/
def NewTimeChan : StringChan := { pending := [], capacity := 256 }

/-- The statement `select { case <-ch: default: }`: the oldest pending value
is taken out if there is one, and nothing happens otherwise. -/
def StringChan.drainOne (ch : StringChan) : StringChan :=
  match ch.pending with
  | [] => ch
  | _ :: rest => { ch with pending := rest }

/-- The statement `ch <- t`: the value joins the buffer when there is room;
`none` stands for a full buffer, on which the sender blocks. -/
def StringChan.send (ch : StringChan) (t : GoString) : Option StringChan :=
  if ch.pending.length < ch.capacity then some { ch with pending := ch.pending ++ [t] }
  else none

/-- The expression `<-ch` of a consumer: the oldest pending value and the
channel without it; `none` stands for an empty buffer, on which the receiver
waits. -/
def StringChan.receive (ch : StringChan) : Option (GoString × StringChan) :=
  match ch.pending with
  | [] => none
  | t :: rest => some (t, { ch with pending := rest })

/-- The last statement of the body of `readLoop`, given the result `t` of
`parseTime` on the line read: a non-empty `t` is sent after one old value has
been drained. -/
def readLoopDeliver (timeChan : StringChan) (t : GoString) : Option StringChan :=
  if t ≠ [] then timeChan.drainOne.send t else some timeChan

/-- Successive rounds of `readLoop` on the parse results `ts`, with no
consumer reading in between; `none` once a send blocks. -/
def readLoopDeliverAll : StringChan → List GoString → Option StringChan
  | timeChan, [] => some timeChan
  | timeChan, t :: ts =>
    match readLoopDeliver timeChan t with
    | none => none
    | some next => readLoopDeliverAll next ts

/-! ## `internal/ui`: the contest runner -/

/-- Struct `models.TimerState` without its `StartTime`; durations are
`time.Duration` values, in nanoseconds. -/
structure TimerState where
  Running : Bool
  Duration : Int
  Paused : Bool
  PausedTime : Int
  deriving DecidableEq, Repr

/-- The fields of `ui.ChugManager` that the contest logic reads and writes:
the two managers, the timer state, the selected discipline and status, the
text of the four entries of the result form, the external clock mode and the
participant on the clock.  Windows, buttons, labels and the lists on display
are left out. -/
structure ChugManager where
  participantMgr : ParticipantManager
  resultMgr : ResultManager
  timerState : TimerState
  disciplineSelected : GoString
  realTimeEntry : GoString
  baseTimeEntry : GoString
  additionalTimeEntry : GoString
  commentEntry : GoString
  statusSelected : GoString
  lockedTimeValue : GoString
  useExternalClock : Bool
  lastExternalTime : GoString
  currentChugger : Option Participant
  deriving DecidableEq, Repr

/-- What the runner reads from outside its own state: the setting
`config.Settings.ResultFile`, and whether writing the result file succeeds. -/
structure Env where
  resultFile : GoString
  writeOk : Bool
  deriving DecidableEq, Repr

/-- The errors of `SaveResults`. -/
inductive SaveError where
  /-- Message `no file path set`. -/
  | noFilePath
  /-- An error of `utils.SaveListToJSONFile`. -/
  | writeFailed
  deriving DecidableEq, Repr

/-- The `error` values built by `validateAndSaveResult`. -/
inductive UIError where
  /-- Message `no participant loaded`. -/
  | noParticipantLoaded
  /-- Message `invalid time format`. -/
  | invalidTimeFormat
  /-- Message `invalid base time format: %s`. -/
  | invalidBaseTimeFormat (baseTimeStr : GoString)
  /-- Message `invalid additional time format: %s`. -/
  | invalidAdditionalTimeFormat (additionalTimeStr : GoString)
  /-- Message `time is required: fill in Time or Base Time + Additional Time`. -/
  | timeRequired
  /-- Message `error adding result: %w`. -/
  | errorAddingResult (err : GoError)
  /-- Message `error saving results: %w`. -/
  | errorSavingResults (err : SaveError)
  deriving DecidableEq, Repr

/-- Method `ResultManager.SetFilePath`. -/
def ResultManager.SetFilePath (rm : ResultManager) (filePath : GoString) : ResultManager :=
  { rm with filePath := filePath }

/-- Method `ResultManager.SaveResults`, which leaves the manager as it is: an
error when no file path is set or when the file cannot be written. -/
def ResultManager.SaveResults (rm : ResultManager) (writeOk : Bool) : Option SaveError :=
  if rm.filePath = [] then some SaveError.noFilePath
  else if writeOk then none
  else some SaveError.writeFailed

/-- The text `"00:00:00.000"` that `validateAndSaveResult` takes for an empty
additional time. -/
def zeroAdditional : GoString := ['0', '0', ':', '0', '0', ':', '0', '0', '.', '0', '0', '0']

/-- The part "Determine final time" of `validateAndSaveResult`: from the
requested status and the trimmed texts of the Time, Base Time and Additional
Time entries, the final time and the effective status, or the error
returned. -/
def determineFinalTime (status realTime baseTimeStr additionalTimeStr : GoString) :
    Except UIError (GoString × GoString) :=
  if realTime ≠ [] then
    if realTime ≠ NaN ∧ ParseAndPadTimeString realTime = NoKey then
      Except.error UIError.invalidTimeFormat
    else Except.ok (realTime, status)
  else if baseTimeStr ≠ [] ∧ baseTimeStr ≠ NoKey then
    let normBase := ParseAndPadTimeString baseTimeStr
    if normBase = NoKey then Except.error (UIError.invalidBaseTimeFormat baseTimeStr)
    else if additionalTimeStr ≠ [] ∧ ParseAndPadTimeString additionalTimeStr = NoKey then
      Except.error (UIError.invalidAdditionalTimeFormat additionalTimeStr)
    else
      let normAdditional :=
        if additionalTimeStr ≠ [] then ParseAndPadTimeString additionalTimeStr
        else zeroAdditional
      let baseMs := ParseTimeForComparison normBase
      let additionalMs := ParseTimeForComparison normAdditional
      if baseMs < 0 ∨ additionalMs < 0 then
        Except.ok (NaN, if status = StatusPass then StatusDisqualified else status)
      else Except.ok (formatTicks (baseMs + additionalMs), status)
  else if status = StatusPass then Except.error UIError.timeRequired
  else Except.ok ([], status)

/-- Method `ChugManager.validateAndSaveResult`. -/
def ChugManager.validateAndSaveResult (cm : ChugManager) (env : Env) (status : GoString) :
    ChugManager × Option UIError :=
  match cm.currentChugger with
  | none => (cm, some UIError.noParticipantLoaded)
  | some chugger =>
    let rm0 :=
      if env.resultFile ≠ [] then cm.resultMgr.SetFilePath env.resultFile else cm.resultMgr
    let baseTimeStr := TrimSpace cm.baseTimeEntry
    let additionalTimeStr := TrimSpace cm.additionalTimeEntry
    let realTime := TrimSpace cm.realTimeEntry
    let discipline := cm.disciplineSelected
    match determineFinalTime status realTime baseTimeStr additionalTimeStr with
    | Except.error err => ({ cm with resultMgr := rm0 }, some err)
    | Except.ok (finalTime, status1) =>
      let result : Result :=
        { Name := chugger.Name
          Discipline := discipline
          Time := ParseAndPadTimeString finalTime
          BaseTime := ParseAndPadTimeString baseTimeStr
          AdditionalTime := additionalTimeStr
          Status := status1
          Comment := TrimSpace cm.commentEntry }
      match (rm0.AddResult result).2 with
      | some err => ({ cm with resultMgr := (rm0.AddResult result).1 },
          some (UIError.errorAddingResult err))
      | none =>
        match (rm0.AddResult result).1.SaveResults env.writeOk with
        | some err => ({ cm with resultMgr := (rm0.AddResult result).1 },
            some (UIError.errorSavingResults err))
        | none => ({ cm with resultMgr := (rm0.AddResult result).1 }, none)

/-- Method `ChugManager.formatDuration`: the duration in units of 100
microseconds, split and rendered with Go's `/` and `%`, which truncate toward
zero. -/
def formatDuration (d : Int) : GoString :=
  let totalTms := Int.tdiv d 100000
  let hours := Int.tdiv totalTms (60 * 60 * 10000)
  let minutes := Int.tmod (Int.tdiv totalTms (60 * 10000)) 60
  let seconds := Int.tmod (Int.tdiv totalTms 10000) 60
  let subms := Int.tmod totalTms 10000
  fmtD0 2 hours ++ [':'] ++ fmtD0 2 minutes ++ [':'] ++ fmtD0 2 seconds ++ ['.'] ++ fmtD0 4 subms

/-- Method `ChugManager.clearResultForm`. -/
def ChugManager.clearResultForm (cm : ChugManager) : ChugManager :=
  { cm with
    lockedTimeValue := []
    realTimeEntry := []
    baseTimeEntry := []
    additionalTimeEntry := []
    commentEntry := []
    statusSelected := StatusPass }

/-- Method `ChugManager.resetTimer`. -/
def ChugManager.resetTimer (cm : ChugManager) : ChugManager :=
  ChugManager.clearResultForm
    { cm with timerState := { Running := false, Duration := 0, Paused := false, PausedTime := 0 } }

/-- Method `ChugManager.moveToNextParticipant`, on the fields kept here. -/
def ChugManager.moveToNextParticipant (cm : ChugManager) : ChugManager :=
  ChugManager.resetTimer (ChugManager.clearResultForm { cm with currentChugger := none })

/-- Method `ChugManager.stopTimerFunc`.  The error of `DecrementTries` is
dropped there, and a failure of `SaveParticipants` only opens a dialog. -/
def ChugManager.stopTimerFunc (cm : ChugManager) : ChugManager :=
  let cm1 := { cm with timerState := { cm.timerState with Running := false } }
  let cm2 :=
    if cm1.useExternalClock = true ∧ cm1.lastExternalTime ≠ [] then
      { cm1 with
        baseTimeEntry := cm1.lastExternalTime
        timerState := { cm1.timerState with Duration := 1 } }
    else if cm1.timerState.Duration > 0 then
      { cm1 with baseTimeEntry := formatDuration cm1.timerState.Duration }
    else cm1
  match cm2.currentChugger with
  | none => cm2
  | some chugger =>
    if cm2.timerState.Duration > 0 then
      let pm := (cm2.participantMgr.DecrementTries chugger.Name cm2.disciplineSelected).1
      let refreshed :=
        match pm.participants.find? (fun p => decide (p.Name = chugger.Name)) with
        | some p => p
        | none => chugger
      { cm2 with participantMgr := pm, currentChugger := some refreshed }
    else cm2

/-- Method `ChugManager.enterResultManually`.  The error of `DecrementTries`
is dropped there, and a failure of `SaveParticipants` only opens a dialog. -/
def ChugManager.enterResultManually (cm : ChugManager) (env : Env) : ChugManager :=
  match cm.currentChugger with
  | none => cm
  | some chugger =>
    let selectedStatus :=
      if cm.statusSelected = StatusDisqualified then StatusDisqualified else StatusPass
    match (cm.validateAndSaveResult env selectedStatus).2 with
    | some _ => (cm.validateAndSaveResult env selectedStatus).1
    | none =>
      let cm1 := (cm.validateAndSaveResult env selectedStatus).1
      let cm2 :=
        if cm1.timerState.Duration = 0 then
          { cm1 with
            participantMgr :=
              (cm1.participantMgr.DecrementTries chugger.Name cm1.disciplineSelected).1 }
        else cm1
      ChugManager.moveToNextParticipant cm2

/-! ## `internal/ui`: the eligible list -/

/-- Go `a < b` on strings: lexicographic order on the bytes, which for UTF-8
text is the lexicographic order on the code points. -/
def strLess : GoString → GoString → Bool
  | [], [] => false
  | [], _ :: _ => true
  | _ :: _, [] => false
  | a :: as, b :: bs =>
    if a.toNat < b.toNat then true
    else if b.toNat < a.toNat then false
    else strLess as bs

/-- Go `sort.Slice(list, less)`.  For a `less` that is a strict weak ordering
the library leaves the list as one of its permutations in which no element is
less than an earlier one; which one, among elements that `less` does not tell
apart, is not specified.  The model takes the permutation of insertion sort. -/
def sortSlice {α : Type} (less : α → α → Bool) (list : List α) : List α :=
  List.insertionSort (fun a b => less b a = false) list

/-- The filter of `loadAvailableParticipants`: the variable `include`. -/
def includeParticipant (discipline : GoString) (p : Participant) : Bool :=
  if discipline = DisciplineBottle then decide (p.Bottle ≠ []) && decide (p.Bottle ≠ ['0'])
  else if discipline = DisciplineHalfTankard then
    decide (p.HalfTankard ≠ []) && decide (p.HalfTankard ≠ ['0'])
  else if discipline = DisciplineFullTankard then
    decide (p.FullTankard ≠ []) && decide (p.FullTankard ≠ ['0'])
  else false

/-- The variables `ti`, `tj` of the comparison in `loadAvailableParticipants`:
the counter of the discipline read by `strconv.Atoi`, 0 for a discipline
without counter. -/
def triesOf (discipline : GoString) (p : Participant) : Int :=
  if discipline = DisciplineBottle then Atoi p.Bottle
  else if discipline = DisciplineHalfTankard then Atoi p.HalfTankard
  else if discipline = DisciplineFullTankard then Atoi p.FullTankard
  else 0

/-- The comparison handed to `sort.Slice` in `loadAvailableParticipants`. -/
def lessAvailable (discipline : GoString) (pi pj : Participant) : Bool :=
  if triesOf discipline pi ≠ triesOf discipline pj then
    decide (triesOf discipline pi > triesOf discipline pj)
  else strLess pi.Name pj.Name

/-- Method `ChugManager.loadAvailableParticipants`, as the function from the
selected discipline and the field `allParticipants` to the field
`availableParticipants` that it sets.  The inner test `!hasResult` of the
source always passes, `hasResult` being the constant `false` there. -/
def loadAvailableParticipants (discipline : GoString) (allParticipants : List Participant) :
    List Participant :=
  sortSlice (lessAvailable discipline) (allParticipants.filter (includeParticipant discipline))

/-! ## Vocabulary of the properties -/

/-- Tick count of a time text as the codec reads it: the text is normalised
by `ParseAndPadTimeString` and then measured by `ParseTimeForComparison`. -/
def parseTicks (text : GoString) : Int := ParseTimeForComparison (ParseAndPadTimeString text)

/-- The result names the same participant and discipline as the stored entry. -/
def sameKey (e result : Result) : Prop :=
  e.Name = result.Name ∧ e.Discipline = result.Discipline

instance (e result : Result) : Decidable (sameKey e result) := by
  unfold sameKey; infer_instance

/-- Index `i` holds the most recent stored entry for the key of `result`:
entry `i` has that key and no entry after it has. -/
def isLastMatch (results : List Result) (result : Result) (i : Nat) : Prop :=
  (∃ e, results[i]? = some e ∧ sameKey e result) ∧
    ∀ j e, i < j → results[j]? = some e → ¬ sameKey e result

/-- Value of a digit string read left to right from the accumulator `n`. -/
def decFold (ds : GoString) (n : Nat) : Nat := ds.foldl (fun acc c => acc * 10 + digitVal c) n

/-- Canonical time text `HH:MM:SS.ffff`: thirteen characters, digits except
for the two colons and the dot. -/
def isCanonical : GoString → Bool
  | [h1, h2, c1, m1, m2, c2, s1, s2, d, f1, f2, f3, f4] =>
    isDigit h1 && isDigit h2 && (c1 == ':') && isDigit m1 && isDigit m2 && (c2 == ':')
      && isDigit s1 && isDigit s2 && (d == '.')
      && isDigit f1 && isDigit f2 && isDigit f3 && isDigit f4
  | _ => false

/-- Valid canonical time text: canonical form with minutes and seconds below 60. -/
def validCanonical : GoString → Bool
  | [h1, h2, c1, m1, m2, c2, s1, s2, d, f1, f2, f3, f4] =>
    isCanonical [h1, h2, c1, m1, m2, c2, s1, s2, d, f1, f2, f3, f4]
      && decide (digitVal m1 * 10 + digitVal m2 < 60)
      && decide (digitVal s1 * 10 + digitVal s2 < 60)
  | _ => false

/-- The counter that a discipline names in a participant record: Bottle, Half
Tankard and Full Tankard carry one, the other disciplines none. -/
def counter (p : Participant) (discipline : GoString) : Option GoString :=
  if discipline = DisciplineBottle then some p.Bottle
  else if discipline = DisciplineHalfTankard then some p.HalfTankard
  else if discipline = DisciplineFullTankard then some p.FullTankard
  else none

/-- The participant record with the counter of the discipline set to `v`, and
nothing else changed. -/
def setCounter (p : Participant) (discipline v : GoString) : Participant :=
  if discipline = DisciplineBottle then { p with Bottle := v }
  else if discipline = DisciplineHalfTankard then { p with HalfTankard := v }
  else if discipline = DisciplineFullTankard then { p with FullTankard := v }
  else p

/-- The text without its leading sign, if it has one. -/
def stripSign : GoString → GoString
  | [] => []
  | c :: cs => if c = '+' ∨ c = '-' then cs else c :: cs

/-- Numeric string: an optional sign followed by one or more decimal digits. -/
def isNumeric (s : GoString) : Bool := allDigits1 (stripSign s)

/-- A spelling of `NaN` in upper or lower case letters. -/
def isNaNSpelling : GoString → Bool
  | [a, b, c] => (a == 'n' || a == 'N') && (b == 'a' || b == 'A') && (c == 'n' || c == 'N')
  | _ => false

/-- Empty or white space only. -/
def isBlank (s : GoString) : Prop := ∀ c ∈ s, isSpace c = true

/-- The optional fraction of a time text: nothing, or a dot and the digits. -/
def fracText : Option GoString → GoString
  | none => []
  | some f => '.' :: f

/-- The text `h:m:s` or `h:m:s.f`. -/
def hmsText (h m s : GoString) (f : Option GoString) : GoString :=
  h ++ ':' :: (m ++ ':' :: (s ++ fracText f))

/-- A run of decimal digits whose length lies between `lo` and `hi`. -/
def isDigitRun (lo hi : Nat) (ds : GoString) : Prop :=
  (∀ c ∈ ds, isDigit c = true) ∧ lo ≤ ds.length ∧ ds.length ≤ hi

instance (lo hi : Nat) (ds : GoString) : Decidable (isDigitRun lo hi ds) := by
  unfold isDigitRun; infer_instance

/-- The fraction digits are digits, at least one of them. -/
def isFraction : Option GoString → Prop
  | none => True
  | some f => f ≠ [] ∧ ∀ c ∈ f, isDigit c = true

instance (f : Option GoString) : Decidable (isFraction f) := by
  cases f <;> unfold isFraction <;> infer_instance

/-- The shape `H:MM:SS` or `H:MM:SS.f+`: one or two hour digits, two minute
digits, two second digits, and optionally a dot and one or more digits. -/
def isHMSShape (t : GoString) : Prop :=
  ∃ (h m s : GoString) (f : Option GoString),
    t = hmsText h m s f ∧ isDigitRun 1 2 h ∧ isDigitRun 2 2 m ∧ isDigitRun 2 2 s ∧ isFraction f

/-- The fraction of a time text in ticks: the digits padded with zeros on the
right, or cut, to exactly four digits, read as a number; 0 without fraction. -/
def fractionTicks : Option GoString → Nat
  | none => 0
  | some f => decFold ((f ++ List.replicate (4 - f.length) '0').take 4) 0

/-- The tick count that the digits of a time text `h:m:s` or `h:m:s.f` stand
for: hours × 36,000,000 + minutes × 600,000 + seconds × 10,000 + fraction. -/
def hmsTicks (h m s : GoString) (f : Option GoString) : Nat :=
  decFold h 0 * 36000000 + decFold m 0 * 600000 + decFold s 0 * 10000 + fractionTicks f

/-- The value of the counter of a discipline as the runner reads it. -/
def counterValue (discipline : GoString) (p : Participant) : Int :=
  match counter p discipline with
  | some c => Atoi c
  | none => 0

/-- The counter of the discipline is present, non-empty and not `"0"`. -/
def hasTries (discipline : GoString) (p : Participant) : Bool :=
  match counter p discipline with
  | some c => decide (c ≠ []) && decide (c ≠ ['0'])
  | none => false

/-- The calls made on a participant store. -/
inductive StoreCall where
  | add (participant : Participant)
  | remove (name : GoString)
  | decrement (name discipline : GoString)

/-- The store after one call, whether the call succeeds or fails. -/
def applyCall (pm : ParticipantManager) : StoreCall → ParticipantManager
  | StoreCall.add participant => (pm.AddParticipant participant).1
  | StoreCall.remove name => (pm.RemoveParticipant name).1
  | StoreCall.decrement name discipline => (pm.DecrementTries name discipline).1

/-- The store after a sequence of calls. -/
def applyCalls (pm : ParticipantManager) (calls : List StoreCall) : ParticipantManager :=
  calls.foldl applyCall pm

/-! ## Example data -/

/-- A `Pass` result of Alice in Bottle: base 7 s, additional 2 s, and a `Time`
field that the store must not trust. -/
def exPass : Result :=
  { Name := "Alice".toList, Discipline := DisciplineBottle, Time := "12:34:56.7890".toList,
    BaseTime := "00:00:07.0000".toList, AdditionalTime := "00:00:02.0000".toList,
    Status := StatusPass, Comment := [] }

/-- A `Disqualified` result of Alice in Bottle with measured times filled in. -/
def exDisqualified : Result :=
  { Name := "Alice".toList, Discipline := DisciplineBottle, Time := "00:00:09.0000".toList,
    BaseTime := "00:00:07.0000".toList, AdditionalTime := "00:00:02.0000".toList,
    Status := StatusDisqualified, Comment := [] }

/-- A `Pass` result of Bob in Bottle. -/
def exBob : Result :=
  { Name := "Bob".toList, Discipline := DisciplineBottle, Time := [],
    BaseTime := "00:00:06.0000".toList, AdditionalTime := [],
    Status := StatusPass, Comment := [] }

/-- A store holding two results of Alice in Bottle with one of Bob in between. -/
def exStore : ResultManager :=
  { results :=
      [{ exPass with Time := "00:00:09.0000".toList }, exBob,
        { exPass with BaseTime := "00:00:06.0000".toList, Time := "00:00:08.0000".toList }],
    filePath := [] }

/-- A correction of the Bottle result of Alice: base time 4 s. -/
def exUpdate : Result := { exPass with BaseTime := "00:00:04.0000".toList }

/-- A result with base time 99 hours and additional time 1 hour. -/
def exOverflow : Result :=
  { exPass with BaseTime := "99:00:00.0000".toList, AdditionalTime := "01:00:00.0000".toList }

/-- Alice, with the try counters of a fresh registration. -/
def exAlice : Participant :=
  { Name := "Alice".toList, Program := "Engineering".toList, Team := "Alpha".toList,
    Bottle := "3".toList, HalfTankard := "2".toList, FullTankard := "1".toList }

/-- Bob, who has used all his Bottle tries. -/
def exBobP : Participant :=
  { Name := "Bob".toList, Program := "Physics".toList, Team := "Beta".toList,
    Bottle := "0".toList, HalfTankard := "2".toList, FullTankard := "1".toList }

/-- Carol, whose Bottle counter is twenty nines followed by a letter. -/
def exCarol : Participant :=
  { Name := "Carol".toList, Program := "Chemistry".toList, Team := "Gamma".toList,
    Bottle := "99999999999999999999x".toList, HalfTankard := "2".toList,
    FullTankard := "1".toList }

/-- Dave, whose Bottle counter is the decimal text of 2^63. -/
def exDave : Participant :=
  { Name := "Dave".toList, Program := "Biology".toList, Team := "Delta".toList,
    Bottle := "9223372036854775808".toList, HalfTankard := "2".toList,
    FullTankard := "1".toList }

/-- A participant store with the four of them. -/
def exRoster : ParticipantManager :=
  { participants := [exAlice, exBobP, exCarol, exDave], filePath := [] }

/-- The runner with Alice on the clock in Bottle, a timer that has not run, an
empty result form and an empty result store. -/
def exRunner : ChugManager :=
  { participantMgr := exRoster, resultMgr := NewResultManager,
    timerState := { Running := false, Duration := 0, Paused := false, PausedTime := 0 },
    disciplineSelected := DisciplineBottle, realTimeEntry := [], baseTimeEntry := [],
    additionalTimeEntry := [], commentEntry := [], statusSelected := StatusPass,
    lockedTimeValue := [], useExternalClock := false, lastExternalTime := [],
    currentChugger := some exAlice }

/-- The runner with only the Time entry filled in, with 5 seconds. -/
def exRunnerTimeOnly : ChugManager := { exRunner with realTimeEntry := "00:00:05.0000".toList }

/-- The runner with Time 5 seconds and Base Time 7 seconds. -/
def exRunnerTimeAndBase : ChugManager :=
  { exRunnerTimeOnly with baseTimeEntry := "00:00:07.0000".toList }

/-- The runner with Time 5 seconds and Base Time `NaN`. -/
def exRunnerTimeAndNaN : ChugManager := { exRunnerTimeOnly with baseTimeEntry := NaN }

/-- The runner with Base Time `NaN` and the Time entry empty. -/
def exRunnerNaNBase : ChugManager := { exRunner with baseTimeEntry := NaN }

/-- The runner after a timer run of 3.2 seconds. -/
def exRunnerTimed : ChugManager :=
  { exRunner with
    timerState := { Running := true, Duration := 3200000000, Paused := false, PausedTime := 0 } }

/-- The runner in external clock mode with the reading `00:00:00.0000` received
from the clock and a timer duration of zero. -/
def exRunnerExternalZero : ChugManager :=
  { exRunner with useExternalClock := true, lastExternalTime := "00:00:00.0000".toList }

/-- A result file is configured and can be written. -/
def exEnv : Env := { resultFile := "results.json".toList, writeOk := true }

/-- A result with the bare seconds `123` as base time and additional time `0`. -/
def exSeconds123 : Result :=
  { exPass with BaseTime := "123".toList, AdditionalTime := "0".toList }

/-- A participant of the given name, with the data of Alice otherwise. -/
def exNamed (name : GoString) : Participant := { exAlice with Name := name }

/-- A participant store with A, B, C and D, in this order. -/
def exLetters : ParticipantManager :=
  { participants := [exNamed ['A'], exNamed ['B'], exNamed ['C'], exNamed ['D']],
    filePath := [] }

/-- A `Pass` result with the base time `abc` and the additional time 2 s. -/
def exGarbageBase : Result :=
  { exPass with BaseTime := "abc".toList, AdditionalTime := "00:00:02.0000".toList }

/-- A `Pass` result with the base time 7 s and the additional time `abc`. -/
def exGarbageAdditional : Result :=
  { exPass with BaseTime := "00:00:07.0000".toList, AdditionalTime := "abc".toList }

/-- Eve, with a valid name and team and an empty program. -/
def exEve : Participant := { exAlice with Name := "Eve".toList, Program := [] }

/-- Frank, with a valid name and program and an empty team. -/
def exFrank : Participant := { exAlice with Name := "Frank".toList, Team := [] }

/-! ## Lemmas on the result store -/

theorem calcResultTime_eq (r : Result) :
    calcResultTime r =
      { r with Time :=
          if parseTicks r.BaseTime < 0 ∨ parseTicks r.AdditionalTime < 0 then NaN
          else formatTicks (parseTicks r.BaseTime + parseTicks r.AdditionalTime) } := by
  have hadd : ParseTimeForComparison
      (if r.AdditionalTime = [] ∨ r.AdditionalTime = ['0'] then zeroTime
        else ParseAndPadTimeString r.AdditionalTime) = parseTicks r.AdditionalTime := by
    split_ifs with h
    · rcases h with h | h <;> rw [h] <;> decide
    · rfl
  simp only [calcResultTime, hadd]
  simp only [parseTicks]
  split_ifs <;> rfl

theorem recalcTime_Name (r : Result) : (recalcTime r).Name = r.Name := by
  unfold recalcTime
  rw [calcResultTime_eq]
  split_ifs <;> rfl

theorem recalcTime_Discipline (r : Result) : (recalcTime r).Discipline = r.Discipline := by
  unfold recalcTime
  rw [calcResultTime_eq]
  split_ifs <;> rfl

theorem recalcTime_sameKey (e r : Result) : sameKey e (recalcTime r) ↔ sameKey e r := by
  simp only [sameKey, recalcTime_Name, recalcTime_Discipline]

theorem updateLastLoop_ok (results : List Result) (result : Result) :
    ∀ n, (updateLastLoop results result n).2 = none →
      ∃ i, i < n ∧ (∃ e, results[i]? = some e ∧ sameKey e result ∧ e.Status ≠ StatusDisqualified) ∧
        (∀ j e, i < j → j < n → results[j]? = some e → ¬ sameKey e result) ∧
        (updateLastLoop results result n).1 = results.set i result := by
  intro n
  induction n with
  | zero => intro h; simp [updateLastLoop] at h
  | succ k ih =>
    intro h
    unfold updateLastLoop at h ⊢
    cases hk : results[k]? with
    | none =>
      simp only [hk] at h ⊢
      obtain ⟨i, hi, he, hlater, hset⟩ := ih h
      refine ⟨i, Nat.lt_succ_of_lt hi, he, ?_, hset⟩
      intro j e hij hj hje
      rcases Nat.lt_succ_iff_lt_or_eq.mp hj with hj | hj
      · exact hlater j e hij hj hje
      · subst hj; rw [hk] at hje; cases hje
    | some e0 =>
      simp only [hk] at h ⊢
      by_cases hm : e0.Name = result.Name ∧ e0.Discipline = result.Discipline
      · simp only [hm, and_self, if_true] at h ⊢
        by_cases hd : e0.Status = StatusDisqualified
        · simp [hd] at h
        · simp only [hd, if_false] at h ⊢
          refine ⟨k, Nat.lt_succ_self k, ⟨e0, hk, hm, hd⟩, ?_, rfl⟩
          intro j e hkj hj _
          omega
      · simp only [hm, if_false] at h ⊢
        obtain ⟨i, hi, he, hlater, hset⟩ := ih h
        refine ⟨i, Nat.lt_succ_of_lt hi, he, ?_, hset⟩
        intro j e hij hj hje
        rcases Nat.lt_succ_iff_lt_or_eq.mp hj with hj | hj
        · exact hlater j e hij hj hje
        · subst hj; rw [hk] at hje; cases hje; exact hm

theorem updateLastLoop_err (results : List Result) (result : Result) :
    ∀ n, (updateLastLoop results result n).2 ≠ none →
      (updateLastLoop results result n).1 = results ∧
      ((∀ j e, j < n → results[j]? = some e → ¬ sameKey e result) ∨
        ∃ i, i < n ∧ (∃ e, results[i]? = some e ∧ sameKey e result ∧ e.Status = StatusDisqualified) ∧
          (∀ j e, i < j → j < n → results[j]? = some e → ¬ sameKey e result)) := by
  intro n
  induction n with
  | zero =>
    intro _
    refine ⟨rfl, Or.inl ?_⟩
    intro j e hj
    omega
  | succ k ih =>
    intro h
    unfold updateLastLoop at h ⊢
    cases hk : results[k]? with
    | none =>
      simp only [hk] at h ⊢
      obtain ⟨hsame, hcase⟩ := ih h
      refine ⟨hsame, ?_⟩
      rcases hcase with hno | ⟨i, hi, he, hlater⟩
      · left
        intro j e hj hje
        rcases Nat.lt_succ_iff_lt_or_eq.mp hj with hj | hj
        · exact hno j e hj hje
        · subst hj; rw [hk] at hje; cases hje
      · right
        refine ⟨i, Nat.lt_succ_of_lt hi, he, ?_⟩
        intro j e hij hj hje
        rcases Nat.lt_succ_iff_lt_or_eq.mp hj with hj | hj
        · exact hlater j e hij hj hje
        · subst hj; rw [hk] at hje; cases hje
    | some e0 =>
      simp only [hk] at h ⊢
      by_cases hm : e0.Name = result.Name ∧ e0.Discipline = result.Discipline
      · simp only [hm, and_self, if_true] at h ⊢
        by_cases hd : e0.Status = StatusDisqualified
        · rw [if_pos hd]
          refine ⟨rfl, Or.inr ⟨k, Nat.lt_succ_self k, ⟨e0, hk, hm, hd⟩, ?_⟩⟩
          intro j e hkj hj _
          omega
        · simp [hd] at h
      · simp only [hm, if_false] at h ⊢
        obtain ⟨hsame, hcase⟩ := ih h
        refine ⟨hsame, ?_⟩
        rcases hcase with hno | ⟨i, hi, he, hlater⟩
        · left
          intro j e hj hje
          rcases Nat.lt_succ_iff_lt_or_eq.mp hj with hj | hj
          · exact hno j e hj hje
          · subst hj; rw [hk] at hje; cases hje; exact hm
        · right
          refine ⟨i, Nat.lt_succ_of_lt hi, he, ?_⟩
          intro j e hij hj hje
          rcases Nat.lt_succ_iff_lt_or_eq.mp hj with hj | hj
          · exact hlater j e hij hj hje
          · subst hj; rw [hk] at hje; cases hje; exact hm

theorem recalcTime_of_disqualified (r : Result) (h : r.Status = StatusDisqualified) :
    recalcTime r = { r with Time := NaN } := by
  unfold recalcTime
  rw [if_neg (not_not.mpr h)]

theorem recalcTime_of_not_disqualified (r : Result) (h : r.Status ≠ StatusDisqualified) :
    recalcTime r =
      { r with Time :=
          if parseTicks r.BaseTime < 0 ∨ parseTicks r.AdditionalTime < 0 then NaN
          else formatTicks (parseTicks r.BaseTime + parseTicks r.AdditionalTime) } := by
  unfold recalcTime
  rw [if_pos h, calcResultTime_eq]

theorem recalcTime_ignores_Time (r : Result) (t : GoString) :
    recalcTime { r with Time := t } = recalcTime r := by
  unfold recalcTime
  rw [calcResultTime_eq, calcResultTime_eq]

theorem AddResult_ok_iff (rm : ResultManager) (r : Result) :
    (rm.AddResult r).2 = none ↔ IsNullString r.Name = false ∧ IsNullString r.Discipline = false := by
  unfold ResultManager.AddResult
  cases IsNullString r.Name <;> cases IsNullString r.Discipline <;> simp

theorem AddResult_results_of_ok (rm : ResultManager) (r : Result)
    (h : (rm.AddResult r).2 = none) :
    (rm.AddResult r).1.results = rm.results ++ [recalcTime r] := by
  have h2 := (AddResult_ok_iff rm r).mp h
  unfold ResultManager.AddResult
  simp [h2.1, h2.2]

theorem getElem?_lt_length_of_some {α : Type} (l : List α) (i : Nat) (a : α)
    (h : l[i]? = some a) : i < l.length := by
  by_contra hlt
  rw [List.getElem?_eq_none (Nat.le_of_not_lt hlt)] at h
  cases h

theorem UpdateLastResult_ok (rm : ResultManager) (r : Result)
    (h : (rm.UpdateLastResult r).2 = none) :
    ∃ i, i < rm.results.length ∧ isLastMatch rm.results r i ∧
      (∃ e, rm.results[i]? = some e ∧ e.Status ≠ StatusDisqualified) ∧
      (rm.UpdateLastResult r).1.results = rm.results.set i (recalcTime r) := by
  obtain ⟨i, hi, ⟨e, hie, hkey, hdq⟩, hlater, hset⟩ :=
    updateLastLoop_ok rm.results (recalcTime r) rm.results.length h
  refine ⟨i, hi, ⟨⟨e, hie, (recalcTime_sameKey e r).mp hkey⟩, ?_⟩, ⟨e, hie, hdq⟩, hset⟩
  intro j e2 hij hje hk
  exact hlater j e2 hij (getElem?_lt_length_of_some _ _ _ hje) hje ((recalcTime_sameKey e2 r).mpr hk)

theorem UpdateLastResult_err (rm : ResultManager) (r : Result)
    (h : (rm.UpdateLastResult r).2 ≠ none) :
    (rm.UpdateLastResult r).1 = rm ∧
      ((∀ e ∈ rm.results, ¬ sameKey e r) ∨
        ∃ i e, isLastMatch rm.results r i ∧ rm.results[i]? = some e ∧
          e.Status = StatusDisqualified) := by
  obtain ⟨hsame, hcase⟩ := updateLastLoop_err rm.results (recalcTime r) rm.results.length h
  constructor
  · unfold ResultManager.UpdateLastResult
    simp only [hsame]
  · rcases hcase with hno | ⟨i, _, ⟨e, hie, hkey, hdq⟩, hlater⟩
    · left
      intro e he hk
      obtain ⟨j, hj⟩ := List.mem_iff_getElem?.mp he
      exact hno j e (getElem?_lt_length_of_some _ _ _ hj) hj ((recalcTime_sameKey e r).mpr hk)
    · right
      refine ⟨i, e, ⟨⟨e, hie, (recalcTime_sameKey e r).mp hkey⟩, ?_⟩, hie, hdq⟩
      intro j e2 hij hje hk
      exact hlater j e2 hij (getElem?_lt_length_of_some _ _ _ hje) hje
        ((recalcTime_sameKey e2 r).mpr hk)

theorem isLastMatch_unique (results : List Result) (r : Result) (i j : Nat)
    (hi : isLastMatch results r i) (hj : isLastMatch results r j) : i = j := by
  obtain ⟨⟨ei, hei, hki⟩, hli⟩ := hi
  obtain ⟨⟨ej, hej, hkj⟩, hlj⟩ := hj
  rcases Nat.lt_trichotomy i j with h | h | h
  · exact absurd hkj (hli j ej h hej)
  · exact h
  · exact absurd hki (hlj i ei h hei)

/-! ## Result store: the properties -/

/-- C2: a result whose status is Disqualified is stored by `AddResult`
(which accepts it exactly when name and discipline are not blank) with time
`NaN`, and is written by a successful `UpdateLastResult` with time `NaN`, over
the most recent entry of its participant and discipline; base time,
additional time and the supplied time play no part. -/
theorem C2_Disqualified_time_is_NaN (rm : ResultManager) (r : Result)
    (hdq : r.Status = StatusDisqualified) :
    ((rm.AddResult r).2 = none ↔
        IsNullString r.Name = false ∧ IsNullString r.Discipline = false)
      ∧ ((rm.AddResult r).2 = none →
          (rm.AddResult r).1.results = rm.results ++ [{ r with Time := NaN }])
      ∧ ((rm.UpdateLastResult r).2 = none →
          ∃ i, i < rm.results.length ∧ isLastMatch rm.results r i ∧
            (rm.UpdateLastResult r).1.results = rm.results.set i { r with Time := NaN }) := by
  refine ⟨AddResult_ok_iff rm r, ?_, ?_⟩
  · intro h
    rw [AddResult_results_of_ok rm r h, recalcTime_of_disqualified r hdq]
  · intro h
    obtain ⟨i, hi, hlast, _, hset⟩ := UpdateLastResult_ok rm r h
    exact ⟨i, hi, hlast, by rw [hset, recalcTime_of_disqualified r hdq]⟩

/-- C2 on a store with three entries: the Disqualified result is accepted and
appended with time `NaN`, and the update succeeds and overwrites the most
recent entry of Alice in Bottle with time `NaN`. -/
theorem C2_Disqualified_time_is_NaN_witness :
    (exStore.AddResult exDisqualified).1.results
        = exStore.results ++ [{ exDisqualified with Time := NaN }]
      ∧ ∃ i, i < exStore.results.length ∧ isLastMatch exStore.results exDisqualified i ∧
          (exStore.UpdateLastResult exDisqualified).1.results
            = exStore.results.set i { exDisqualified with Time := NaN } :=
  ⟨(C2_Disqualified_time_is_NaN exStore exDisqualified (by decide)).2.1 (by decide),
    (C2_Disqualified_time_is_NaN exStore exDisqualified (by decide)).2.2 (by decide)⟩

/-- C3: `UpdateLastResult` fails exactly when no stored entry has the name and
discipline of the argument, or the most recent such entry is Disqualified; and
whenever it fails the manager, its result list included, is left unchanged. -/
theorem C3_UpdateLastResult_failure (rm : ResultManager) (r : Result) :
    ((rm.UpdateLastResult r).2 ≠ none ↔
        ((∀ e ∈ rm.results, ¬ sameKey e r) ∨
          ∃ i e, isLastMatch rm.results r i ∧ rm.results[i]? = some e ∧
            e.Status = StatusDisqualified))
      ∧ ((rm.UpdateLastResult r).2 ≠ none → (rm.UpdateLastResult r).1 = rm) := by
  refine ⟨⟨fun h => (UpdateLastResult_err rm r h).2, ?_⟩, fun h => (UpdateLastResult_err rm r h).1⟩
  intro hcase hnone
  obtain ⟨i, _, hlast, ⟨e, hie, hdq⟩, _⟩ := UpdateLastResult_ok rm r hnone
  rcases hcase with hno | ⟨j, e2, hlast2, hje, hdq2⟩
  · obtain ⟨⟨e1, he1, hk1⟩, _⟩ := hlast
    exact hno e1 (List.mem_iff_getElem?.mpr ⟨i, he1⟩) hk1
  · have hij := isLastMatch_unique rm.results r i j hlast hlast2
    subst hij
    rw [hie] at hje
    cases hje
    exact hdq hdq2

/-- C4: when `UpdateLastResult` succeeds, the entry at the highest index whose
name and discipline match the argument is replaced by the argument (with its
time recomputed); every other entry, earlier entries of the same participant
and discipline included, stays where it was, and the length is unchanged. -/
theorem C4_UpdateLastResult_frame (rm : ResultManager) (r : Result)
    (hok : (rm.UpdateLastResult r).2 = none) :
    ∃ i, i < rm.results.length ∧ isLastMatch rm.results r i
      ∧ (rm.UpdateLastResult r).1.results = rm.results.set i (recalcTime r)
      ∧ (rm.UpdateLastResult r).1.results.length = rm.results.length
      ∧ (∀ j, j ≠ i → (rm.UpdateLastResult r).1.results[j]? = rm.results[j]?)
      ∧ (rm.UpdateLastResult r).1.filePath = rm.filePath := by
  obtain ⟨i, hi, hlast, _, hset⟩ := UpdateLastResult_ok rm r hok
  refine ⟨i, hi, hlast, hset, ?_, ?_, rfl⟩
  · rw [hset, List.length_set]
  · intro j hj
    rw [hset, List.getElem?_set_ne (Ne.symm hj)]

/-- C4 on the store with two results of Alice and one of Bob: the update
succeeds, and only the most recent entry of Alice is replaced. -/
theorem C4_UpdateLastResult_frame_witness :
    ∃ i, i < exStore.results.length ∧ isLastMatch exStore.results exUpdate i
      ∧ (exStore.UpdateLastResult exUpdate).1.results = exStore.results.set i (recalcTime exUpdate)
      ∧ (exStore.UpdateLastResult exUpdate).1.results.length = exStore.results.length
      ∧ (∀ j, j ≠ i → (exStore.UpdateLastResult exUpdate).1.results[j]? = exStore.results[j]?)
      ∧ (exStore.UpdateLastResult exUpdate).1.filePath = exStore.filePath :=
  C4_UpdateLastResult_frame exStore exUpdate (by decide)

/-! ## Lemmas on digits and decimal text -/

theorem digitChar_toNat (d : Nat) (h : d < 10) : (digitChar d).toNat = 48 + d := by
  interval_cases d <;> rfl

theorem isDigit_digitChar (d : Nat) (h : d < 10) : isDigit (digitChar d) = true := by
  interval_cases d <;> rfl

theorem digitVal_digitChar (d : Nat) (h : d < 10) : digitVal (digitChar d) = d := by
  interval_cases d <;> rfl

theorem isDigit_iff (c : Char) : isDigit c = true ↔ 48 ≤ c.toNat ∧ c.toNat ≤ 57 := by
  simp [isDigit]

theorem digitVal_lt (c : Char) (h : isDigit c = true) : digitVal c < 10 := by
  rw [isDigit_iff] at h
  unfold digitVal
  omega

theorem digitChar_digitVal (c : Char) (h : isDigit c = true) : digitChar (digitVal c) = c := by
  rw [isDigit_iff] at h
  unfold digitChar digitVal
  have : 48 + (c.toNat - 48) = c.toNat := by omega
  rw [this]
  exact Char.ofNat_toNat c

theorem ne_of_isDigit (c x : Char) (h : isDigit c = true) (hx : isDigit x = false) : c ≠ x := by
  intro hc
  rw [hc, hx] at h
  cases h

theorem isSpace_of_isDigit (c : Char) (h : isDigit c = true) : isSpace c = false := by
  rw [isDigit_iff] at h
  simp only [isSpace]
  simp
  omega

theorem decDigitsRev_fuel (f1 : Nat) : ∀ f2 n, n < f1 → n < f2 →
    decDigitsRev f1 n = decDigitsRev f2 n := by
  induction f1 with
  | zero => intro f2 n h; omega
  | succ k ih =>
    intro f2 n h1 h2
    cases f2 with
    | zero => omega
    | succ m =>
      unfold decDigitsRev
      by_cases hz : n / 10 = 0
      · simp [hz]
      · simp only [hz, if_false]
        rw [ih m (n / 10) (by omega) (by omega)]

theorem natToDec_lt_ten (n : Nat) (h : n < 10) : natToDec n = [digitChar n] := by
  unfold natToDec decDigitsRev
  have h1 : n / 10 = 0 := by omega
  have h2 : n % 10 = n := by omega
  simp [h1, h2]

theorem natToDec_ge_ten (n : Nat) (h : 10 ≤ n) :
    natToDec n = natToDec (n / 10) ++ [digitChar (n % 10)] := by
  unfold natToDec
  rw [decDigitsRev]
  have h1 : ¬ n / 10 = 0 := by omega
  simp only [h1, if_false, List.reverse_cons]
  rw [decDigitsRev_fuel n (n / 10 + 1) (n / 10) (by omega) (by omega)]

theorem natToDec_two (n : Nat) (h1 : 10 ≤ n) (h2 : n < 100) :
    natToDec n = [digitChar (n / 10), digitChar (n % 10)] := by
  rw [natToDec_ge_ten n h1, natToDec_lt_ten (n / 10) (by omega)]
  rfl

theorem natToDec_three (n : Nat) (h1 : 100 ≤ n) (h2 : n < 1000) :
    natToDec n = [digitChar (n / 100), digitChar (n / 10 % 10), digitChar (n % 10)] := by
  rw [natToDec_ge_ten n (by omega), natToDec_two (n / 10) (by omega) (by omega)]
  have : n / 10 / 10 = n / 100 := by omega
  rw [this]
  rfl

theorem natToDec_four (n : Nat) (h1 : 1000 ≤ n) (h2 : n < 10000) :
    natToDec n =
      [digitChar (n / 1000), digitChar (n / 100 % 10), digitChar (n / 10 % 10),
        digitChar (n % 10)] := by
  rw [natToDec_ge_ten n (by omega), natToDec_three (n / 10) (by omega) (by omega)]
  have e1 : n / 10 / 100 = n / 1000 := by omega
  have e2 : n / 10 / 10 % 10 = n / 100 % 10 := by omega
  rw [e1, e2]
  rfl

theorem digitChar_zero : digitChar 0 = '0' := rfl

theorem fmtD0_two (n : Nat) (h : n < 100) :
    fmtD0 2 (n : Int) = [digitChar (n / 10), digitChar (n % 10)] := by
  unfold fmtD0
  have hneg : ¬ ((n : Int) < 0) := by omega
  simp only [hneg, if_false, Int.natAbs_ofNat]
  by_cases h10 : n < 10
  · rw [natToDec_lt_ten n h10]
    have e1 : n / 10 = 0 := by omega
    have e2 : n % 10 = n := by omega
    rw [e1, e2]
    rfl
  · rw [natToDec_two n (by omega) h]
    rfl

theorem fmtD0_four (n : Nat) (h : n < 10000) :
    fmtD0 4 (n : Int) =
      [digitChar (n / 1000), digitChar (n / 100 % 10), digitChar (n / 10 % 10),
        digitChar (n % 10)] := by
  unfold fmtD0
  have hneg : ¬ ((n : Int) < 0) := by omega
  simp only [hneg, if_false, Int.natAbs_ofNat]
  by_cases h10 : n < 10
  · rw [natToDec_lt_ten n h10]
    have e1 : n / 1000 = 0 := by omega
    have e2 : n / 100 % 10 = 0 := by omega
    have e3 : n / 10 % 10 = 0 := by omega
    have e4 : n % 10 = n := by omega
    rw [e1, e2, e3, e4]
    rfl
  · by_cases h100 : n < 100
    · rw [natToDec_two n (by omega) h100]
      have e1 : n / 1000 = 0 := by omega
      have e2 : n / 100 % 10 = 0 := by omega
      have e3 : n / 10 % 10 = n / 10 := by omega
      rw [e1, e2, e3]
      rfl
    · by_cases h1000 : n < 1000
      · rw [natToDec_three n (by omega) h1000]
        have e1 : n / 1000 = 0 := by omega
        have e2 : n / 100 % 10 = n / 100 := by omega
        rw [e1, e2]
        rfl
      · rw [natToDec_four n (by omega) h]
        rfl

theorem fmtD0_three_digits (n : Nat) (h1 : 100 ≤ n) (h2 : n < 1000) :
    fmtD0 2 (n : Int) = [digitChar (n / 100), digitChar (n / 10 % 10), digitChar (n % 10)] := by
  unfold fmtD0
  have hneg : ¬ ((n : Int) < 0) := by omega
  simp only [hneg, if_false, Int.natAbs_ofNat]
  rw [natToDec_three n h1 h2]
  rfl

theorem decFold_ge (ds : GoString) : ∀ n, n ≤ decFold ds n := by
  induction ds with
  | nil => intro n; exact Nat.le_refl n
  | cons c cs ih =>
    intro n
    have := ih (n * 10 + digitVal c)
    simp only [decFold, List.foldl_cons] at this ⊢
    omega

theorem decFold_cons (c : Char) (cs : GoString) (n : Nat) :
    decFold (c :: cs) n = decFold cs (n * 10 + digitVal c) := rfl

theorem decFold_append (xs ys : GoString) (n : Nat) :
    decFold (xs ++ ys) n = decFold ys (decFold xs n) := by
  simp [decFold, List.foldl_append]

theorem parseUintLoop_digits (ds : GoString) : ∀ (rest : GoString) (n : Nat),
    (∀ c ∈ ds, isDigit c = true) → decFold ds n ≤ maxUint64 →
    parseUintLoop (ds ++ rest) n = parseUintLoop rest (decFold ds n) := by
  induction ds with
  | nil => intro rest n _ _; rfl
  | cons c cs ih =>
    intro rest n hd hle
    have hc : isDigit c = true := hd c (List.mem_cons_self c cs)
    have hge := decFold_ge cs (n * 10 + digitVal c)
    rw [decFold_cons] at hle ⊢
    have hmax : maxUint64 = 18446744073709551615 := rfl
    rw [List.cons_append, parseUintLoop]
    have h1 : ¬ (n ≥ maxUint64 / 10 + 1) := by rw [hmax]; omega
    have h2 : ¬ (n * 10 + digitVal c > maxUint64) := by omega
    simp only [hc, Bool.not_true, Bool.false_eq_true, if_false, h1, h2]
    exact ih rest _ (fun x hx => hd x (List.mem_cons_of_mem c hx)) hle

theorem Atoi_digits (ds : GoString) (hne : ds ≠ []) (hd : ∀ c ∈ ds, isDigit c = true)
    (hle : (decFold ds 0 : Int) ≤ maxInt) : Atoi ds = (decFold ds 0 : Int) := by
  cases ds with
  | nil => exact absurd rfl hne
  | cons c cs =>
    have hc : isDigit c = true := hd c (List.mem_cons_self c cs)
    have hplus : c ≠ '+' := ne_of_isDigit c '+' hc (by decide)
    have hminus : c ≠ '-' := ne_of_isDigit c '-' hc (by decide)
    have hmaxI : maxInt = 9223372036854775807 := rfl
    have hmax : maxUint64 = 18446744073709551615 := rfl
    have hp : ParseUint (c :: cs) = NumResult.ok (decFold (c :: cs) 0) := by
      unfold ParseUint
      have := parseUintLoop_digits (c :: cs) [] 0 hd (by rw [hmax]; rw [hmaxI] at hle; omega)
      simpa using this
    unfold Atoi
    simp only [hplus, hminus, or_self, if_false, hp, beq_iff_eq]
    simp only [hmaxI] at hle ⊢
    simp
    rw [if_neg (by rintro ⟨_, h⟩; omega), if_neg (by rintro ⟨h, _⟩; exact hminus h)]

/-! ## Lemmas on the time codec -/

theorem TrimSpace_eq_self (a b : Char) (mid : GoString)
    (ha : isSpace a = false) (hb : isSpace b = false) :
    TrimSpace (a :: (mid ++ [b])) = a :: (mid ++ [b]) := by
  unfold TrimSpace
  rw [List.dropWhile_cons]
  simp only [ha, Bool.false_eq_true, if_false]
  have : (a :: (mid ++ [b])).reverse = b :: (mid.reverse ++ [a]) := by simp
  rw [this, List.dropWhile_cons]
  simp only [hb, Bool.false_eq_true, if_false]
  simp

theorem isCanonical_shape (t : GoString) (h : isCanonical t = true) :
    ∃ h1 h2 m1 m2 s1 s2 f1 f2 f3 f4 : Char,
      t = [h1, h2, ':', m1, m2, ':', s1, s2, '.', f1, f2, f3, f4] ∧
      isDigit h1 = true ∧ isDigit h2 = true ∧ isDigit m1 = true ∧ isDigit m2 = true ∧
      isDigit s1 = true ∧ isDigit s2 = true ∧ isDigit f1 = true ∧ isDigit f2 = true ∧
      isDigit f3 = true ∧ isDigit f4 = true := by
  unfold isCanonical at h
  split at h
  · rename_i h1 h2 c1 m1 m2 c2 s1 s2 d f1 f2 f3 f4
    simp only [Bool.and_eq_true, beq_iff_eq] at h
    obtain ⟨⟨⟨⟨⟨⟨⟨⟨⟨⟨⟨⟨a1, a2⟩, a3⟩, a4⟩, a5⟩, a6⟩, a7⟩, a8⟩, a9⟩, a10⟩, a11⟩, a12⟩, a13⟩ := h
    subst a3 a6 a9
    exact ⟨h1, h2, m1, m2, s1, s2, f1, f2, f3, f4, rfl, a1, a2, a4, a5, a7, a8, a10, a11, a12, a13⟩
  · cases h

theorem isDigit_colon : isDigit ':' = false := by decide
theorem isDigit_dot : isDigit '.' = false := by decide

theorem matchHMS_canonical (h1 h2 m1 m2 s1 s2 f1 f2 f3 f4 : Char)
    (a1 : isDigit h1 = true) (a2 : isDigit h2 = true) (a3 : isDigit m1 = true)
    (a4 : isDigit m2 = true) (a5 : isDigit s1 = true) (a6 : isDigit s2 = true)
    (a7 : isDigit f1 = true) (a8 : isDigit f2 = true) (a9 : isDigit f3 = true)
    (a10 : isDigit f4 = true) :
    matchHMS [h1, h2, ':', m1, m2, ':', s1, s2, '.', f1, f2, f3, f4]
      = some ([h1, h2], [m1, m2], [s1, s2], some [f1, f2, f3, f4]) := by
  simp [matchHMS, digitRun, expect, allDigits1, List.takeWhile_cons, List.dropWhile_cons,
    isDigit_colon, isDigit_dot, a1, a2, a3, a4, a5, a6, a7, a8, a9, a10]

theorem Atoi_two (a b : Char) (ha : isDigit a = true) (hb : isDigit b = true) :
    Atoi [a, b] = ((digitVal a * 10 + digitVal b : Nat) : Int) := by
  have va := digitVal_lt a ha
  have vb := digitVal_lt b hb
  have hf : decFold [a, b] 0 = digitVal a * 10 + digitVal b := by simp [decFold]
  rw [Atoi_digits [a, b] (by simp) (by simp [ha, hb]) (by rw [hf]; unfold maxInt; omega), hf]

theorem Atoi_four (a b c d : Char) (ha : isDigit a = true) (hb : isDigit b = true)
    (hc : isDigit c = true) (hd : isDigit d = true) :
    Atoi [a, b, c, d]
      = ((digitVal a * 1000 + digitVal b * 100 + digitVal c * 10 + digitVal d : Nat) : Int) := by
  have va := digitVal_lt a ha
  have vb := digitVal_lt b hb
  have vc := digitVal_lt c hc
  have vd := digitVal_lt d hd
  have hf : decFold [a, b, c, d] 0
      = digitVal a * 1000 + digitVal b * 100 + digitVal c * 10 + digitVal d := by
    simp [decFold]; ring
  rw [Atoi_digits [a, b, c, d] (by simp) (by simp [ha, hb, hc, hd])
    (by rw [hf]; unfold maxInt; omega), hf]

theorem TrimSpace_canonical (h1 h2 m1 m2 s1 s2 f1 f2 f3 f4 : Char)
    (a1 : isDigit h1 = true) (a10 : isDigit f4 = true) :
    TrimSpace [h1, h2, ':', m1, m2, ':', s1, s2, '.', f1, f2, f3, f4]
      = [h1, h2, ':', m1, m2, ':', s1, s2, '.', f1, f2, f3, f4] :=
  TrimSpace_eq_self h1 f4 [h2, ':', m1, m2, ':', s1, s2, '.', f1, f2, f3]
    (isSpace_of_isDigit h1 a1) (isSpace_of_isDigit f4 a10)

theorem canonical_ne_NaN (h1 h2 m1 m2 s1 s2 f1 f2 f3 f4 : Char) :
    [h1, h2, ':', m1, m2, ':', s1, s2, '.', f1, f2, f3, f4] ≠ NaN := by
  simp [NaN]

theorem ParseTimeForComparison_canonical (h1 h2 m1 m2 s1 s2 f1 f2 f3 f4 : Char)
    (a1 : isDigit h1 = true) (a2 : isDigit h2 = true) (a3 : isDigit m1 = true)
    (a4 : isDigit m2 = true) (a5 : isDigit s1 = true) (a6 : isDigit s2 = true)
    (a7 : isDigit f1 = true) (a8 : isDigit f2 = true) (a9 : isDigit f3 = true)
    (a10 : isDigit f4 = true) :
    ParseTimeForComparison [h1, h2, ':', m1, m2, ':', s1, s2, '.', f1, f2, f3, f4]
      = ((digitVal h1 * 10 + digitVal h2 : Nat) : Int) * 36000000
        + ((digitVal m1 * 10 + digitVal m2 : Nat) : Int) * 600000
        + ((digitVal s1 * 10 + digitVal s2 : Nat) : Int) * 10000
        + ((digitVal f1 * 1000 + digitVal f2 * 100 + digitVal f3 * 10 + digitVal f4 : Nat) : Int) := by
  unfold ParseTimeForComparison
  simp only [TrimSpace_canonical h1 h2 m1 m2 s1 s2 f1 f2 f3 f4 a1 a10,
    if_neg (canonical_ne_NaN h1 h2 m1 m2 s1 s2 f1 f2 f3 f4),
    matchHMS_canonical h1 h2 m1 m2 s1 s2 f1 f2 f3 f4 a1 a2 a3 a4 a5 a6 a7 a8 a9 a10]
  rw [Atoi_two h1 h2 a1 a2, Atoi_two m1 m2 a3 a4, Atoi_two s1 s2 a5 a6]
  have hpad : (if [f1, f2, f3, f4].length > 4 then [f1, f2, f3, f4].take 4
      else padFraction [f1, f2, f3, f4]) = [f1, f2, f3, f4] := by
    simp [padFraction]
  simp only [hpad, ne_eq, List.cons_ne_nil, not_false_eq_true, if_true]
  rw [Atoi_four f1 f2 f3 f4 a7 a8 a9 a10]

theorem ParseAndPadTimeString_canonical (h1 h2 m1 m2 s1 s2 f1 f2 f3 f4 : Char)
    (a1 : isDigit h1 = true) (a2 : isDigit h2 = true) (a3 : isDigit m1 = true)
    (a4 : isDigit m2 = true) (a5 : isDigit s1 = true) (a6 : isDigit s2 = true)
    (a7 : isDigit f1 = true) (a8 : isDigit f2 = true) (a9 : isDigit f3 = true)
    (a10 : isDigit f4 = true) :
    ParseAndPadTimeString [h1, h2, ':', m1, m2, ':', s1, s2, '.', f1, f2, f3, f4]
      = [h1, h2, ':', m1, m2, ':', s1, s2, '.', f1, f2, f3, f4] := by
  have hm := matchHMS_canonical h1 h2 m1 m2 s1 s2 f1 f2 f3 f4 a1 a2 a3 a4 a5 a6 a7 a8 a9 a10
  unfold ParseAndPadTimeString
  simp only [TrimSpace_canonical h1 h2 m1 m2 s1 s2 f1 f2 f3 f4 a1 a10,
    if_neg (canonical_ne_NaN h1 h2 m1 m2 s1 s2 f1 f2 f3 f4)]
  have hfrac : reHMSFrac [h1, h2, ':', m1, m2, ':', s1, s2, '.', f1, f2, f3, f4] = true := by
    simp [reHMSFrac, hm]
  have hfull : reFull [h1, h2, ':', m1, m2, ':', s1, s2, '.', f1, f2, f3, f4] = true := by
    simp [reFull, hm]
  have hany : patterns.any
      (fun pattern => pattern [h1, h2, ':', m1, m2, ':', s1, s2, '.', f1, f2, f3, f4]) = true := by
    simp [patterns, hfrac]
  rw [if_pos hany]
  unfold formatTimeString
  rw [if_pos hfull]

theorem digitRun_some (lo hi : Nat) (s ds rest : GoString)
    (h : digitRun lo hi s = some (ds, rest)) :
    ds = s.takeWhile isDigit ∧ rest = s.dropWhile isDigit ∧ lo ≤ ds.length ∧ ds.length ≤ hi := by
  unfold digitRun at h
  simp only at h
  split_ifs at h with hc
  simp only [Option.some.injEq, Prod.mk.injEq] at h
  obtain ⟨h1, h2⟩ := h
  subst h1 h2
  exact ⟨rfl, rfl, hc.1, hc.2⟩

theorem expect_some (c : Char) (s r : GoString) (h : expect c s = some r) : s = c :: r := by
  cases s with
  | nil => simp [expect] at h
  | cons d t =>
    simp only [expect] at h
    split_ifs at h with hd
    simp only [Option.some.injEq] at h
    rw [hd, h]

theorem takeWhile_all (p : Char → Bool) (s : GoString) : ∀ c ∈ s.takeWhile p, p c = true := by
  intro c hc
  exact List.mem_takeWhile_imp hc

theorem matchHMS_some (s g1 g2 g3 : GoString) (g4 : Option GoString)
    (h : matchHMS s = some (g1, g2, g3, g4)) :
    (∀ c ∈ g1, isDigit c = true) ∧ (∀ c ∈ g2, isDigit c = true) ∧ (∀ c ∈ g3, isDigit c = true)
      ∧ (∀ f, g4 = some f → f ≠ [] ∧ ∀ c ∈ f, isDigit c = true) ∧ ':' ∈ s := by
  unfold matchHMS at h
  split at h
  · cases h
  · rename_i h0 r1 e1
    split at h
    · cases h
    · rename_i r2 e2
      split at h
      · cases h
      · rename_i m r3 e3
        split at h
        · cases h
        · rename_i r4 e4
          split at h
          · cases h
          · rename_i sec r5 e5
            have d1 := digitRun_some _ _ _ _ _ e1
            have d3 := digitRun_some _ _ _ _ _ e3
            have d5 := digitRun_some _ _ _ _ _ e5
            have x2 := expect_some _ _ _ e2
            have hcolon : ':' ∈ s := by
              have : ':' ∈ s.dropWhile isDigit := by
                rw [← d1.2.1, x2]; exact List.mem_cons_self _ _
              exact (List.dropWhile_sublist isDigit).subset this
            have k1 : ∀ c ∈ h0, isDigit c = true := by rw [d1.1]; exact takeWhile_all _ _
            have k3 : ∀ c ∈ m, isDigit c = true := by rw [d3.1]; exact takeWhile_all _ _
            have k5 : ∀ c ∈ sec, isDigit c = true := by rw [d5.1]; exact takeWhile_all _ _
            split at h
            · simp only [Option.some.injEq, Prod.mk.injEq] at h
              obtain ⟨q1, q2, q3, q4⟩ := h
              subst q1 q2 q3 q4
              exact ⟨k1, k3, k5, fun f hf => (by cases hf), hcolon⟩
            · rename_i d f
              split_ifs at h with hc
              simp only [Option.some.injEq, Prod.mk.injEq] at h
              obtain ⟨q1, q2, q3, q4⟩ := h
              subst q1 q2 q3 q4
              refine ⟨k1, k3, k5, ?_, hcolon⟩
              intro f2 hf
              simp only [Option.some.injEq] at hf
              subst hf
              have ha := hc.2
              simp only [allDigits1, Bool.and_eq_true, Bool.not_eq_true', List.isEmpty_eq_false,
                List.all_eq_true] at ha
              exact ⟨by intro hnil; rw [hnil] at ha; simp at ha, ha.2⟩

theorem Atoi_nonneg (ds : GoString) (hd : ∀ c ∈ ds, isDigit c = true) : 0 ≤ Atoi ds := by
  cases ds with
  | nil => simp [Atoi]
  | cons c cs =>
    have hc : isDigit c = true := hd c (List.mem_cons_self c cs)
    have hminus : c ≠ '-' := ne_of_isDigit c '-' hc (by decide)
    have hb : (c == '-') = false := by simp [hminus]
    unfold Atoi
    simp only [hb]
    split
    · exact Int.le_refl 0
    · simp [maxInt]
    · simp only [Bool.not_false, Bool.true_and, Bool.false_and, decide_eq_true_eq,
        Bool.false_eq_true, if_false]
      split_ifs
      · simp [maxInt]
      · exact Int.ofNat_nonneg _

theorem ParseTimeForComparison_nonneg (y : GoString) (h : TrimSpace y ≠ NaN) :
    0 ≤ ParseTimeForComparison y := by
  unfold ParseTimeForComparison
  simp only [if_neg h]
  split
  · rename_i g1 g2 g3 g4 hm
    obtain ⟨k1, k2, k3, k4, _⟩ := matchHMS_some _ _ _ _ _ hm
    have n1 := Atoi_nonneg g1 k1
    have n2 := Atoi_nonneg g2 k2
    have n3 := Atoi_nonneg g3 k3
    have n4 : 0 ≤ (match g4 with
        | some ms =>
          if ms ≠ [] then Atoi (if ms.length > 4 then ms.take 4 else padFraction ms) else 0
        | none => (0 : Int)) := by
      cases g4 with
      | none => exact Int.le_refl 0
      | some ms =>
        obtain ⟨hne, kd⟩ := k4 ms rfl
        simp only
        rw [if_pos hne]
        apply Atoi_nonneg
        intro c hc
        split_ifs at hc
        · exact kd c (List.mem_of_mem_take hc)
        · simp only [padFraction, List.mem_append, List.mem_replicate] at hc
          rcases hc with hc | ⟨_, hc⟩
          · exact kd c hc
          · rw [hc]; decide
    positivity
  · exact Int.le_refl 0

theorem ParseTimeForComparison_of_NaN (y : GoString) (h : TrimSpace y = NaN) :
    ParseTimeForComparison y = -1 := by
  unfold ParseTimeForComparison
  simp only [if_pos h]

theorem formatTicks_digits (n : Nat) (h : n < 3600000000) :
    formatTicks (n : Int) =
      [digitChar (n / 36000000 / 10), digitChar (n / 36000000 % 10), ':',
        digitChar (n / 600000 % 60 / 10), digitChar (n / 600000 % 60 % 10), ':',
        digitChar (n / 10000 % 60 / 10), digitChar (n / 10000 % 60 % 10), '.',
        digitChar (n % 10000 / 1000), digitChar (n % 10000 / 100 % 10),
        digitChar (n % 10000 / 10 % 10), digitChar (n % 10000 % 10)] := by
  have e1 : (n : Int) / (60 * 60 * 10000) = ((n / 36000000 : Nat) : Int) := by omega
  have e2 : ((n : Int) / (60 * 10000)) % 60 = ((n / 600000 % 60 : Nat) : Int) := by omega
  have e3 : ((n : Int) / 10000) % 60 = ((n / 10000 % 60 : Nat) : Int) := by omega
  have e4 : (n : Int) % 10000 = ((n % 10000 : Nat) : Int) := by omega
  unfold formatTicks
  simp only [e1, e2, e3, e4]
  rw [fmtD0_two (n / 36000000) (by omega), fmtD0_two (n / 600000 % 60) (by omega),
    fmtD0_two (n / 10000 % 60) (by omega), fmtD0_four (n % 10000) (by omega)]
  rfl

theorem ParseTimeForComparison_formatTicks (n : Nat) (h : n < 3600000000) :
    ParseTimeForComparison (formatTicks (n : Int)) = (n : Int) := by
  rw [formatTicks_digits n h]
  rw [ParseTimeForComparison_canonical _ _ _ _ _ _ _ _ _ _
    (isDigit_digitChar _ (by omega)) (isDigit_digitChar _ (by omega))
    (isDigit_digitChar _ (by omega)) (isDigit_digitChar _ (by omega))
    (isDigit_digitChar _ (by omega)) (isDigit_digitChar _ (by omega))
    (isDigit_digitChar _ (by omega)) (isDigit_digitChar _ (by omega))
    (isDigit_digitChar _ (by omega)) (isDigit_digitChar _ (by omega))]
  rw [digitVal_digitChar _ (by omega : n / 36000000 / 10 < 10),
    digitVal_digitChar _ (by omega : n / 36000000 % 10 < 10),
    digitVal_digitChar _ (by omega : n / 600000 % 60 / 10 < 10),
    digitVal_digitChar _ (by omega : n / 600000 % 60 % 10 < 10),
    digitVal_digitChar _ (by omega : n / 10000 % 60 / 10 < 10),
    digitVal_digitChar _ (by omega : n / 10000 % 60 % 10 < 10),
    digitVal_digitChar _ (by omega : n % 10000 / 1000 < 10),
    digitVal_digitChar _ (by omega : n % 10000 / 100 % 10 < 10),
    digitVal_digitChar _ (by omega : n % 10000 / 10 % 10 < 10),
    digitVal_digitChar _ (by omega : n % 10000 % 10 < 10)]
  omega

theorem formatTicks_ParseTimeForComparison (h1 h2 m1 m2 s1 s2 f1 f2 f3 f4 : Char)
    (a1 : isDigit h1 = true) (a2 : isDigit h2 = true) (a3 : isDigit m1 = true)
    (a4 : isDigit m2 = true) (a5 : isDigit s1 = true) (a6 : isDigit s2 = true)
    (a7 : isDigit f1 = true) (a8 : isDigit f2 = true) (a9 : isDigit f3 = true)
    (a10 : isDigit f4 = true)
    (hm : digitVal m1 * 10 + digitVal m2 < 60) (hs : digitVal s1 * 10 + digitVal s2 < 60) :
    formatTicks (ParseTimeForComparison [h1, h2, ':', m1, m2, ':', s1, s2, '.', f1, f2, f3, f4])
      = [h1, h2, ':', m1, m2, ':', s1, s2, '.', f1, f2, f3, f4] := by
  have v1 := digitVal_lt h1 a1
  have v2 := digitVal_lt h2 a2
  have v3 := digitVal_lt m1 a3
  have v4 := digitVal_lt m2 a4
  have v5 := digitVal_lt s1 a5
  have v6 := digitVal_lt s2 a6
  have v7 := digitVal_lt f1 a7
  have v8 := digitVal_lt f2 a8
  have v9 := digitVal_lt f3 a9
  have v10 := digitVal_lt f4 a10
  rw [ParseTimeForComparison_canonical h1 h2 m1 m2 s1 s2 f1 f2 f3 f4 a1 a2 a3 a4 a5 a6 a7 a8 a9 a10]
  have hn : ((digitVal h1 * 10 + digitVal h2 : Nat) : Int) * 36000000
        + ((digitVal m1 * 10 + digitVal m2 : Nat) : Int) * 600000
        + ((digitVal s1 * 10 + digitVal s2 : Nat) : Int) * 10000
        + ((digitVal f1 * 1000 + digitVal f2 * 100 + digitVal f3 * 10 + digitVal f4 : Nat) : Int)
      = (((digitVal h1 * 10 + digitVal h2) * 36000000
          + (digitVal m1 * 10 + digitVal m2) * 600000
          + (digitVal s1 * 10 + digitVal s2) * 10000
          + (digitVal f1 * 1000 + digitVal f2 * 100 + digitVal f3 * 10 + digitVal f4) : Nat) : Int) := by
    push_cast; ring
  rw [hn, formatTicks_digits _ (by omega)]
  generalize hN : (digitVal h1 * 10 + digitVal h2) * 36000000
          + (digitVal m1 * 10 + digitVal m2) * 600000
          + (digitVal s1 * 10 + digitVal s2) * 10000
          + (digitVal f1 * 1000 + digitVal f2 * 100 + digitVal f3 * 10 + digitVal f4) = N
  have q1 : N / 36000000 / 10 = digitVal h1 := by omega
  have q2 : N / 36000000 % 10 = digitVal h2 := by omega
  have q3 : N / 600000 % 60 / 10 = digitVal m1 := by omega
  have q4 : N / 600000 % 60 % 10 = digitVal m2 := by omega
  have q5 : N / 10000 % 60 / 10 = digitVal s1 := by omega
  have q6 : N / 10000 % 60 % 10 = digitVal s2 := by omega
  have q7 : N % 10000 / 1000 = digitVal f1 := by omega
  have q8 : N % 10000 / 100 % 10 = digitVal f2 := by omega
  have q9 : N % 10000 / 10 % 10 = digitVal f3 := by omega
  have q10 : N % 10000 % 10 = digitVal f4 := by omega
  rw [q1, q2, q3, q4, q5, q6, q7, q8, q9, q10]
  rw [digitChar_digitVal h1 a1, digitChar_digitVal h2 a2, digitChar_digitVal m1 a3,
    digitChar_digitVal m2 a4, digitChar_digitVal s1 a5, digitChar_digitVal s2 a6,
    digitChar_digitVal f1 a7, digitChar_digitVal f2 a8, digitChar_digitVal f3 a9,
    digitChar_digitVal f4 a10]

theorem mem_dropWhile_of_false (p : Char → Bool) (c : Char) (hp : p c = false) :
    ∀ l : GoString, c ∈ l → c ∈ l.dropWhile p := by
  intro l
  induction l with
  | nil => intro h; cases h
  | cons a t ih =>
    intro h
    rw [List.dropWhile_cons]
    split_ifs with ha
    · rcases List.mem_cons.mp h with h | h
      · rw [h, ha] at hp; cases hp
      · exact ih h
    · exact h

theorem mem_TrimSpace_of_mem (c : Char) (s : GoString) (hc : c ∈ s) (hs : isSpace c = false) :
    c ∈ TrimSpace s := by
  unfold TrimSpace
  rw [List.mem_reverse]
  apply mem_dropWhile_of_false isSpace c hs
  rw [List.mem_reverse]
  exact mem_dropWhile_of_false isSpace c hs s hc

theorem TrimSpace_ne_NaN_of_sep (y : GoString) (h : ':' ∈ y ∨ '.' ∈ y) : TrimSpace y ≠ NaN := by
  intro hy
  rcases h with h | h
  · have := mem_TrimSpace_of_mem ':' y h (by decide)
    rw [hy] at this
    revert this
    decide
  · have := mem_TrimSpace_of_mem '.' y h (by decide)
    rw [hy] at this
    revert this
    decide

theorem mem_of_Contains (s : GoString) (c : Char) (h : Contains s c = true) : c ∈ s := by
  unfold Contains at h
  rw [List.any_eq_true] at h
  obtain ⟨x, hx, hxc⟩ := h
  rw [beq_iff_eq] at hxc
  rw [← hxc]
  exact hx

theorem mem_colon_of_reFull (s : GoString) (h : reFull s = true) : ':' ∈ s := by
  unfold reFull at h
  split at h
  · rename_i g1 g2 g3 f hm
    exact (matchHMS_some _ _ _ _ _ hm).2.2.2.2
  · cases h

theorem formatTimeString_sep (ts : GoString) :
    ':' ∈ formatTimeString ts ∨ '.' ∈ formatTimeString ts := by
  unfold formatTimeString
  split_ifs with hfull hcolon hdot
  · exact Or.inl (mem_colon_of_reFull ts hfull)
  · have hts := mem_of_Contains ts ':' hcolon
    split
    · left; simp
    · simp only
      split_ifs
      · split
        · left; simp
        · exact Or.inl hts
      · left; simp
    · exact Or.inl hts
  · have hts := mem_of_Contains ts '.' hdot
    split
    · left; simp
    · exact Or.inr hts
  · left; simp

theorem parseTicks_nonneg (a : GoString) (h : TrimSpace a ≠ NaN) : 0 ≤ parseTicks a := by
  unfold parseTicks ParseAndPadTimeString
  simp only [if_neg h]
  split_ifs
  · exact ParseTimeForComparison_nonneg _ (TrimSpace_ne_NaN_of_sep _ (formatTimeString_sep _))
  · decide

theorem parseTicks_of_NaN (a : GoString) (h : TrimSpace a = NaN) : parseTicks a = -1 := by
  unfold parseTicks ParseAndPadTimeString
  simp only [if_pos h]
  decide

theorem parseTicks_neg_iff (a : GoString) : parseTicks a < 0 ↔ TrimSpace a = NaN := by
  constructor
  · intro h
    by_contra hne
    have := parseTicks_nonneg a hne
    omega
  · intro h
    rw [parseTicks_of_NaN a h]
    decide

theorem validCanonical_shape (t : GoString) (h : validCanonical t = true) :
    ∃ h1 h2 m1 m2 s1 s2 f1 f2 f3 f4 : Char,
      t = [h1, h2, ':', m1, m2, ':', s1, s2, '.', f1, f2, f3, f4] ∧
      isDigit h1 = true ∧ isDigit h2 = true ∧ isDigit m1 = true ∧ isDigit m2 = true ∧
      isDigit s1 = true ∧ isDigit s2 = true ∧ isDigit f1 = true ∧ isDigit f2 = true ∧
      isDigit f3 = true ∧ isDigit f4 = true ∧
      digitVal m1 * 10 + digitVal m2 < 60 ∧ digitVal s1 * 10 + digitVal s2 < 60 := by
  unfold validCanonical at h
  split at h
  · rename_i h1 h2 c1 m1 m2 c2 s1 s2 d f1 f2 f3 f4
    simp only [Bool.and_eq_true, decide_eq_true_eq] at h
    obtain ⟨⟨hc, hm⟩, hs⟩ := h
    obtain ⟨x1, x2, y1, y2, z1, z2, w1, w2, w3, w4, heq, a⟩ := isCanonical_shape _ hc
    simp only [List.cons.injEq, and_true] at heq
    obtain ⟨e1, e2, e3, e4, e5, e6, e7, e8, e9, e10, e11, e12, e13⟩ := heq
    subst e1 e2 e3 e4 e5 e6 e7 e8 e9 e10 e11 e12 e13
    exact ⟨h1, h2, m1, m2, s1, s2, f1, f2, f3, f4, rfl, a.1, a.2.1, a.2.2.1, a.2.2.2.1,
      a.2.2.2.2.1, a.2.2.2.2.2.1, a.2.2.2.2.2.2.1, a.2.2.2.2.2.2.2.1, a.2.2.2.2.2.2.2.2.1,
      a.2.2.2.2.2.2.2.2.2, hm, hs⟩
  · cases h

theorem calcResultTime_Time (r : Result) :
    (calcResultTime r).Time =
      if parseTicks r.BaseTime < 0 ∨ parseTicks r.AdditionalTime < 0 then NaN
      else formatTicks (parseTicks r.BaseTime + parseTicks r.AdditionalTime) := by
  rw [calcResultTime_eq]

theorem parseTicks_nil : parseTicks [] = 0 := by decide

theorem parseTicks_canonical (t : GoString) (h : validCanonical t = true) :
    ParseAndPadTimeString t = t ∧ parseTicks t = ParseTimeForComparison t
      ∧ formatTicks (ParseTimeForComparison t) = t ∧ 0 ≤ ParseTimeForComparison t := by
  obtain ⟨h1, h2, m1, m2, s1, s2, f1, f2, f3, f4, ht, a1, a2, a3, a4, a5, a6, a7, a8, a9, a10,
    hm, hs⟩ := validCanonical_shape t h
  subst ht
  have hp := ParseAndPadTimeString_canonical h1 h2 m1 m2 s1 s2 f1 f2 f3 f4
    a1 a2 a3 a4 a5 a6 a7 a8 a9 a10
  refine ⟨hp, by unfold parseTicks; rw [hp],
    formatTicks_ParseTimeForComparison h1 h2 m1 m2 s1 s2 f1 f2 f3 f4
      a1 a2 a3 a4 a5 a6 a7 a8 a9 a10 hm hs, ?_⟩
  exact ParseTimeForComparison_nonneg _
    (by rw [TrimSpace_canonical h1 h2 m1 m2 s1 s2 f1 f2 f3 f4 a1 a10]
        exact canonical_ne_NaN h1 h2 m1 m2 s1 s2 f1 f2 f3 f4)

/-! ## Time codec: the properties -/

/-- C5: round trip.  For a valid canonical time text `HH:MM:SS.ffff` (minutes
and seconds below 60), `ParseAndPadTimeString` returns the text unchanged, and
its tick count `ParseTimeForComparison`, rendered back as hours, minutes,
seconds and fraction the way `calcResultTime` does, is the same text; so
`calcResultTime` with this base time and no additional time yields it. -/
theorem C5_canonical_round_trip (t : GoString) (r : Result)
    (hvalid : validCanonical t = true) :
    ParseAndPadTimeString t = t
      ∧ formatTicks (ParseTimeForComparison t) = t
      ∧ (calcResultTime { r with BaseTime := t, AdditionalTime := [] }).Time = t := by
  obtain ⟨hp, hticks, hfmt, hnn⟩ := parseTicks_canonical t hvalid
  refine ⟨hp, hfmt, ?_⟩
  rw [calcResultTime_Time]
  simp only [hticks, parseTicks_nil, add_zero]
  rw [if_neg (by omega), hfmt]

/-- C5 at the text `01:23:45.1000`. -/
theorem C5_canonical_round_trip_witness :
    ParseAndPadTimeString "01:23:45.1000".toList = "01:23:45.1000".toList
      ∧ formatTicks (ParseTimeForComparison "01:23:45.1000".toList) = "01:23:45.1000".toList
      ∧ (calcResultTime { exPass with BaseTime := "01:23:45.1000".toList, AdditionalTime := [] }).Time
        = "01:23:45.1000".toList :=
  C5_canonical_round_trip "01:23:45.1000".toList exPass (by decide)

/-- C6 as stated fails once the sum reaches 100 hours: `99:00:00.0000` plus
`01:00:00.0000` is rendered `100:00:00.0000`, a text with three hour digits
whose tick count under `ParseTimeForComparison` is 0, not 3,600,000,000. -/
theorem C6_counterexample :
    validCanonical "99:00:00.0000".toList = true
      ∧ validCanonical "01:00:00.0000".toList = true
      ∧ (calcResultTime exOverflow).Time = "100:00:00.0000".toList
      ∧ ParseTimeForComparison (calcResultTime exOverflow).Time = 0
      ∧ ParseTimeForComparison "99:00:00.0000".toList
          + ParseTimeForComparison "01:00:00.0000".toList = 3600000000 := by
  decide

/-- C7: `calcResultTime` is commutative in its two operands: for all texts `a`
and `b`, base `a` with additional `b` and base `b` with additional `a` produce
the same time (the special cases `""` and `"0"` of the additional time have
tick count 0 on the base side as well). -/
theorem C7_add_commutative (r : Result) (a b : GoString) :
    (calcResultTime { r with BaseTime := a, AdditionalTime := b }).Time
      = (calcResultTime { r with BaseTime := b, AdditionalTime := a }).Time := by
  rw [calcResultTime_Time, calcResultTime_Time]
  simp only
  rw [add_comm (parseTicks b) (parseTicks a)]
  exact if_congr or_comm rfl rfl

/-- C8: `NaN` is absorbing: for every text `x` (valid, empty or otherwise),
base `x` with additional `NaN`, and base `NaN` with additional `x`, both give
time `NaN`. -/
theorem C8_NaN_absorbing (r : Result) (x : GoString) :
    (calcResultTime { r with BaseTime := x, AdditionalTime := NaN }).Time = NaN
      ∧ (calcResultTime { r with BaseTime := NaN, AdditionalTime := x }).Time = NaN := by
  have hn : parseTicks NaN < 0 := by decide
  constructor
  · rw [calcResultTime_Time]
    exact if_pos (Or.inr hn)
  · rw [calcResultTime_Time]
    exact if_pos (Or.inl hn)

/-! ## Lemmas on the participant store -/

theorem natToDec_spec (n : Nat) :
    natToDec n ≠ [] ∧ (∀ c ∈ natToDec n, isDigit c = true) ∧ decFold (natToDec n) 0 = n := by
  induction n using Nat.strong_induction_on with
  | _ n ih =>
    by_cases h : n < 10
    · rw [natToDec_lt_ten n h]
      refine ⟨by simp, ?_, ?_⟩
      · intro c hc
        rw [List.mem_singleton] at hc
        rw [hc]
        exact isDigit_digitChar n h
      · simp [decFold, digitVal_digitChar n h]
    · rw [natToDec_ge_ten n (by omega)]
      obtain ⟨_, hd, hv⟩ := ih (n / 10) (by omega)
      refine ⟨by simp, ?_, ?_⟩
      · intro c hc
        rcases List.mem_append.mp hc with hc | hc
        · exact hd c hc
        · rw [List.mem_singleton] at hc
          rw [hc]
          exact isDigit_digitChar _ (by omega)
      · rw [decFold_append, hv]
        simp only [decFold, List.foldl_cons, List.foldl_nil]
        rw [digitVal_digitChar _ (by omega)]
        omega

theorem Atoi_Itoa (n : Int) (h0 : 0 ≤ n) (hmax : n ≤ maxInt) : Atoi (Itoa n) = n := by
  obtain ⟨m, hm⟩ := Int.eq_ofNat_of_zero_le h0
  subst hm
  obtain ⟨hne, hd, hv⟩ := natToDec_spec m
  have hI : Itoa (m : Int) = natToDec m := by
    unfold Itoa
    rw [if_neg (by omega)]
    rfl
  rw [hI, Atoi_digits (natToDec m) hne hd (by rw [hv]; exact hmax), hv]

theorem decrementTriesLoop_append (name discipline : GoString) (pre rest : List Participant)
    (hpre : ∀ q ∈ pre, q.Name ≠ name) :
    decrementTriesLoop name discipline (pre ++ rest)
      = (pre ++ (decrementTriesLoop name discipline rest).1,
          (decrementTriesLoop name discipline rest).2) := by
  induction pre with
  | nil => rfl
  | cons q qs ih =>
    have hq : q.Name ≠ name := hpre q (List.mem_cons_self q qs)
    have ih2 := ih (fun x hx => hpre x (List.mem_cons_of_mem q hx))
    rw [List.cons_append, decrementTriesLoop]
    simp only [hq, if_false, ih2, List.cons_append]

theorem decrementTriesLoop_hit (name discipline : GoString) (p : Participant)
    (post : List Participant) (c : GoString) (hp : p.Name = name)
    (hc : counter p discipline = some c) :
    decrementTriesLoop name discipline (p :: post)
      = (if Atoi c > 0 then setCounter p discipline (Itoa (Atoi c - 1)) :: post else p :: post,
          none) := by
  subst hp
  rw [decrementTriesLoop, if_pos rfl]
  unfold counter at hc
  unfold setCounter
  by_cases h1 : discipline = DisciplineBottle
  · simp only [h1, if_true, Option.some.injEq] at hc ⊢
    subst hc
    split_ifs <;> rfl
  · simp only [h1, if_false] at hc ⊢
    by_cases h2 : discipline = DisciplineHalfTankard
    · simp only [h2, if_true, Option.some.injEq] at hc ⊢
      subst hc
      split_ifs <;> rfl
    · simp only [h2, if_false] at hc ⊢
      by_cases h3 : discipline = DisciplineFullTankard
      · simp only [h3, if_true, Option.some.injEq] at hc ⊢
        subst hc
        split_ifs <;> rfl
      · simp only [h3, if_false] at hc
        cases hc

theorem dropWhile_head_false (p : Char → Bool) : ∀ (l : GoString) (j : Char) (rest : GoString),
    l.dropWhile p = j :: rest → p j = false := by
  intro l
  induction l with
  | nil => intro j rest h; cases h
  | cons a t ih =>
    intro j rest h
    rw [List.dropWhile_cons] at h
    split_ifs at h with ha
    · exact ih j rest h
    · simp only [List.cons.injEq] at h
      rw [← h.1]
      simpa using ha

theorem ParseUint_syntaxErr (body : GoString) (hnum : allDigits1 body = false)
    (hfit : decFold (body.takeWhile isDigit) 0 ≤ maxUint64) :
    ParseUint body = NumResult.syntaxErr := by
  cases hb : body with
  | nil => rfl
  | cons x xs =>
    rw [← hb]
    have hsplit : body = body.takeWhile isDigit ++ body.dropWhile isDigit :=
      (List.takeWhile_append_dropWhile isDigit body).symm
    have hloop : ParseUint body = parseUintLoop body 0 := by rw [hb]; rfl
    rw [hloop, hsplit, parseUintLoop_digits _ _ 0 (takeWhile_all isDigit body) hfit]
    cases hd : body.dropWhile isDigit with
    | nil =>
      exfalso
      have hall : body.takeWhile isDigit = body := by
        rw [hd, List.append_nil] at hsplit
        exact hsplit.symm
      have : allDigits1 body = true := by
        unfold allDigits1
        rw [Bool.and_eq_true]
        constructor
        · rw [hb]; rfl
        · rw [List.all_eq_true]
          intro c hc
          rw [← hall] at hc
          exact takeWhile_all isDigit body c hc
      rw [this] at hnum
      cases hnum
    | cons j rest =>
      have hj := dropWhile_head_false isDigit body j rest hd
      rw [parseUintLoop]
      simp [hj]

theorem Atoi_of_not_numeric (c : GoString) (hnum : isNumeric c = false)
    (hfit : decFold ((stripSign c).takeWhile isDigit) 0 ≤ maxUint64) : Atoi c = 0 := by
  cases c with
  | nil => rfl
  | cons x xs =>
    unfold isNumeric at hnum
    have hbody : stripSign (x :: xs) = if x = '+' ∨ x = '-' then xs else x :: xs := rfl
    rw [hbody] at hnum hfit
    unfold Atoi
    simp only [ParseUint_syntaxErr _ hnum hfit]

theorem decrementTriesLoop_miss (name discipline : GoString) (p : Participant)
    (post : List Participant) (hp : p.Name = name) (hc : counter p discipline = none) :
    decrementTriesLoop name discipline (p :: post) = (p :: post, none) := by
  subst hp
  rw [decrementTriesLoop, if_pos rfl]
  unfold counter at hc
  by_cases h1 : discipline = DisciplineBottle
  · rw [if_pos h1] at hc
    cases hc
  · by_cases h2 : discipline = DisciplineHalfTankard
    · rw [if_neg h1, if_pos h2] at hc
      cases hc
    · by_cases h3 : discipline = DisciplineFullTankard
      · rw [if_neg h1, if_neg h2, if_pos h3] at hc
        cases hc
      · simp only [h1, h2, h3, if_false]

theorem decrementTriesLoop_mem (name discipline : GoString) :
    ∀ (l : List Participant) (q : Participant),
      q ∈ (decrementTriesLoop name discipline l).1 →
      q ∈ l ∨ ∃ p ∈ l, ∃ k : Int, 0 ≤ k ∧ q = setCounter p discipline (Itoa k) := by
  intro l
  induction l with
  | nil =>
    intro q hq
    simp [decrementTriesLoop] at hq
  | cons p rest ih =>
    intro q hq
    by_cases hp : p.Name = name
    · cases hc : counter p discipline with
      | none =>
        rw [decrementTriesLoop_miss name discipline p rest hp hc] at hq
        exact Or.inl hq
      | some c =>
        rw [decrementTriesLoop_hit name discipline p rest c hp hc] at hq
        simp only at hq
        split_ifs at hq with hpos
        · rcases List.mem_cons.mp hq with h | h
          · exact Or.inr ⟨p, List.mem_cons_self p rest, Atoi c - 1, by omega, h⟩
          · exact Or.inl (List.mem_cons_of_mem p h)
        · exact Or.inl hq
    · rw [decrementTriesLoop] at hq
      simp only [hp, if_false] at hq
      rcases List.mem_cons.mp hq with h | h
      · exact Or.inl (by rw [h]; exact List.mem_cons_self p rest)
      · rcases ih q h with h2 | ⟨p2, hp2, k, hk, hq2⟩
        · exact Or.inl (List.mem_cons_of_mem p h2)
        · exact Or.inr ⟨p2, List.mem_cons_of_mem p hp2, k, hk, hq2⟩

/-! ## Participant store: the properties -/

/-- C9 as stated fails on a counter that is not a numeric string but starts
with a digit run beyond the 64-bit range: `strconv.Atoi` reports the range
error at the twentieth nine, before it reaches the letter, and returns the
largest `int`; the error is dropped, so the counter is rewritten. -/
theorem C9_counterexample :
    isNumeric exCarol.Bottle = false
      ∧ counter exCarol DisciplineBottle = some "99999999999999999999x".toList
      ∧ (exRoster.DecrementTries exCarol.Name DisciplineBottle).2 = none
      ∧ (exRoster.DecrementTries exCarol.Name DisciplineBottle).1.participants
          = [exAlice, exBobP, { exCarol with Bottle := "9223372036854775806".toList }, exDave]
      ∧ (exRoster.DecrementTries exCarol.Name DisciplineBottle).1 ≠ exRoster := by
  decide

/-- C9, amended: `DecrementTries` never produces a negative counter.  For an
existing participant (the first one of that name) whose counter for the given
discipline is `"0"`, or is not a numeric string and has no digit run beyond
the `uint64` range ahead of its first non-digit character, `DecrementTries`
returns success and leaves the whole manager, that counter included,
unchanged.  And in every call, each participant afterwards is one of the
participants before, or one of them with the counter of the discipline set to
the decimal text of an integer that is not negative. -/
theorem C9_DecrementTries_floor (pm : ParticipantManager) (name discipline : GoString)
    (pre post : List Participant) (p : Participant) (c : GoString)
    (hlist : pm.participants = pre ++ p :: post)
    (hfirst : ∀ q ∈ pre, q.Name ≠ name) (hname : p.Name = name)
    (hcounter : counter p discipline = some c)
    (hzero : c = ['0'] ∨
      (isNumeric c = false ∧ decFold ((stripSign c).takeWhile isDigit) 0 ≤ maxUint64)) :
    pm.DecrementTries name discipline = (pm, none)
      ∧ ∀ (pm2 : ParticipantManager) (name2 discipline2 : GoString) (q : Participant),
          q ∈ (pm2.DecrementTries name2 discipline2).1.participants →
          q ∈ pm2.participants ∨
            ∃ p2 ∈ pm2.participants, ∃ k : Int, 0 ≤ k ∧ q = setCounter p2 discipline2 (Itoa k) := by
  have hA : ¬ Atoi c > 0 := by
    rcases hzero with h | ⟨h1, h2⟩
    · rw [h]; decide
    · rw [Atoi_of_not_numeric c h1 h2]; decide
  constructor
  · unfold ParticipantManager.DecrementTries
    rw [hlist, decrementTriesLoop_append name discipline pre (p :: post) hfirst,
      decrementTriesLoop_hit name discipline p post c hname hcounter, if_neg hA]
    simp only [← hlist]
  · intro pm2 name2 discipline2 q hq
    exact decrementTriesLoop_mem name2 discipline2 pm2.participants q hq

/-- C9 on Bob, whose Bottle counter is `"0"`: success, nothing changes. -/
theorem C9_DecrementTries_floor_witness :
    exRoster.DecrementTries "Bob".toList DisciplineBottle = (exRoster, none) :=
  (C9_DecrementTries_floor exRoster "Bob".toList DisciplineBottle [exAlice] [exCarol, exDave]
    exBobP "0".toList (by decide) (by decide) (by decide) (by decide) (Or.inl (by decide))).1

/-- C10 as stated fails for n = 2^63: the counter `9223372036854775808` is
read by `strconv.Atoi` as the largest `int`, 2^63 - 1, the range error being
dropped, and is rewritten to `9223372036854775806`, which is n - 2. -/
theorem C10_counterexample :
    counter exDave DisciplineBottle = some (Itoa 9223372036854775808)
      ∧ (exRoster.DecrementTries exDave.Name DisciplineBottle).1.participants
          = [exAlice, exBobP, exCarol, { exDave with Bottle := "9223372036854775806".toList }]
      ∧ Itoa (9223372036854775808 - 1) = "9223372036854775807".toList
      ∧ (exRoster.DecrementTries exDave.Name DisciplineBottle).1.participants
          ≠ [exAlice, exBobP, exCarol,
              setCounter exDave DisciplineBottle (Itoa (9223372036854775808 - 1))] := by
  decide

/-- C10, amended: for an existing participant (the first one of that name)
whose counter for the given discipline (Bottle, Half Tankard or Full Tankard)
is the decimal text of an integer n with 0 < n ≤ 2^63 - 1, `DecrementTries`
succeeds and sets exactly that counter to the decimal text of n - 1: the other
two counters, name, program and team of the participant, all other
participants and the order of the list are unchanged. -/
theorem C10_DecrementTries_decrements (pm : ParticipantManager) (name discipline : GoString)
    (pre post : List Participant) (p : Participant) (n : Int)
    (hlist : pm.participants = pre ++ p :: post)
    (hfirst : ∀ q ∈ pre, q.Name ≠ name) (hname : p.Name = name)
    (hcounter : counter p discipline = some (Itoa n))
    (hpos : 0 < n) (hmax : n ≤ maxInt) :
    pm.DecrementTries name discipline
      = ({ pm with participants := pre ++ setCounter p discipline (Itoa (n - 1)) :: post },
          none) := by
  have hA : Atoi (Itoa n) = n := Atoi_Itoa n (Int.le_of_lt hpos) hmax
  unfold ParticipantManager.DecrementTries
  rw [hlist, decrementTriesLoop_append name discipline pre (p :: post) hfirst,
    decrementTriesLoop_hit name discipline p post (Itoa n) hname hcounter, hA, if_pos hpos]

/-- C10 on Alice, whose Bottle counter is `"3"`: it becomes `"2"`. -/
theorem C10_DecrementTries_decrements_witness :
    exRoster.DecrementTries "Alice".toList DisciplineBottle
      = ({ exRoster with participants :=
            [] ++ setCounter exAlice DisciplineBottle (Itoa (3 - 1)) :: [exBobP, exCarol, exDave] },
          none) :=
  C10_DecrementTries_decrements exRoster "Alice".toList DisciplineBottle [] [exBobP, exCarol, exDave]
    exAlice 3 (by decide) (by decide) (by decide) (by decide) (by decide) (by decide)

/-! ## Participant store: errors -/

theorem decrementTriesLoop_error_iff (name discipline : GoString) :
    ∀ l : List Participant,
      (decrementTriesLoop name discipline l).2 ≠ none ↔ ∀ q ∈ l, q.Name ≠ name := by
  intro l
  induction l with
  | nil => simp [decrementTriesLoop]
  | cons p rest ih =>
    by_cases hp : p.Name = name
    · have hnone : (decrementTriesLoop name discipline (p :: rest)).2 = none := by
        cases hc : counter p discipline with
        | none => rw [decrementTriesLoop_miss name discipline p rest hp hc]
        | some c => rw [decrementTriesLoop_hit name discipline p rest c hp hc]
      constructor
      · intro h; exact absurd hnone h
      · intro h; exact absurd hp (h p (List.mem_cons_self p rest))
    · rw [decrementTriesLoop]
      simp only [hp, if_false]
      rw [ih]
      constructor
      · intro h q hq
        rcases List.mem_cons.mp hq with hq | hq
        · rw [hq]; exact hp
        · exact h q hq
      · intro h q hq
        exact h q (List.mem_cons_of_mem p hq)

theorem decrementTriesLoop_no_counter (name discipline : GoString)
    (h1 : discipline ≠ DisciplineBottle) (h2 : discipline ≠ DisciplineHalfTankard)
    (h3 : discipline ≠ DisciplineFullTankard) :
    ∀ l : List Participant, (decrementTriesLoop name discipline l).1 = l := by
  intro l
  induction l with
  | nil => rfl
  | cons p rest ih =>
    by_cases hp : p.Name = name
    · have hc : counter p discipline = none := by
        unfold counter
        rw [if_neg h1, if_neg h2, if_neg h3]
      rw [decrementTriesLoop_miss name discipline p rest hp hc]
    · rw [decrementTriesLoop]
      simp only [hp, if_false, ih]

/-- C11: `DecrementTries` returns an error exactly when no stored participant
has the given name, whatever the discipline; and for a discipline other than
Bottle, Half Tankard and Full Tankard (Bier Staphette, Mega Medley, Team Clash
or any other text) it leaves the manager unchanged, with success when a
participant of that name exists. -/
theorem C11_DecrementTries_errors (pm : ParticipantManager) (name discipline : GoString) :
    ((pm.DecrementTries name discipline).2 ≠ none ↔ ∀ q ∈ pm.participants, q.Name ≠ name)
      ∧ (discipline ≠ DisciplineBottle → discipline ≠ DisciplineHalfTankard →
          discipline ≠ DisciplineFullTankard →
          (pm.DecrementTries name discipline).1 = pm
            ∧ ((∃ q ∈ pm.participants, q.Name = name) →
                pm.DecrementTries name discipline = (pm, none))) := by
  constructor
  · exact decrementTriesLoop_error_iff name discipline pm.participants
  · intro h1 h2 h3
    have hsame : (pm.DecrementTries name discipline).1 = pm := by
      unfold ParticipantManager.DecrementTries
      simp only [decrementTriesLoop_no_counter name discipline h1 h2 h3 pm.participants]
    refine ⟨hsame, ?_⟩
    rintro ⟨q, hq, hqn⟩
    have herr : (pm.DecrementTries name discipline).2 = none := by
      by_contra hne
      exact (decrementTriesLoop_error_iff name discipline pm.participants).mp hne q hq hqn
    exact Prod.ext hsame herr

/-! ## External clock feed: the property -/

theorem readLoopDeliverAll_one (c : Nat) (hc : 0 < c) (x : GoString) :
    ∀ (ts : List GoString), (∀ t ∈ ts, t ≠ []) →
      readLoopDeliverAll { pending := [x], capacity := c } ts
        = some { pending := [(x :: ts).getLast (List.cons_ne_nil x ts)], capacity := c } := by
  intro ts
  induction ts generalizing x with
  | nil => intro _; rfl
  | cons t rest ih =>
    intro h
    have ht : t ≠ [] := h t (List.mem_cons_self t rest)
    have hstep : readLoopDeliver { pending := [x], capacity := c } t
        = some { pending := [t], capacity := c } := by
      simp [readLoopDeliver, ht, StringChan.drainOne, StringChan.send, hc]
    rw [readLoopDeliverAll, hstep]
    simp only
    rw [ih t (fun u hu => h u (List.mem_cons_of_mem t hu))]
    simp [List.getLast_cons]

theorem readLoopDeliverAll_empty (c : Nat) (hc : 0 < c) (t : GoString) (rest : List GoString)
    (h : ∀ u ∈ t :: rest, u ≠ []) :
    readLoopDeliverAll { pending := [], capacity := c } (t :: rest)
      = some { pending := [(t :: rest).getLast (List.cons_ne_nil t rest)], capacity := c } := by
  have ht : t ≠ [] := h t (List.mem_cons_self t rest)
  have hstep : readLoopDeliver { pending := [], capacity := c } t
      = some { pending := [t], capacity := c } := by
    simp [readLoopDeliver, ht, StringChan.drainOne, StringChan.send, hc]
  rw [readLoopDeliverAll, hstep]
  simp only
  exact readLoopDeliverAll_one c hc t rest (fun u hu => h u (List.mem_cons_of_mem t hu))

/-- C12: latest value wins.  From the empty `TimeChan` and with no consumer,
after the reader loop has delivered a non-empty sequence of parsed time values
no send has blocked and the channel holds exactly one value, the last one
delivered, so that a single receive yields it and leaves the channel empty;
the same holds after every non-empty part of the sequence delivered so far, so
the channel never holds more than one value of its capacity of 256. -/
theorem C12_latest_value_wins (ts : List GoString) (hne : ts ≠ [])
    (hparsed : ∀ t ∈ ts, t ≠ []) :
    readLoopDeliverAll NewTimeChan ts
        = some { pending := [ts.getLast hne], capacity := 256 }
      ∧ StringChan.receive { pending := [ts.getLast hne], capacity := 256 }
        = some (ts.getLast hne, NewTimeChan)
      ∧ ∀ (done rest : List GoString) (hd : done ≠ []), ts = done ++ rest →
          readLoopDeliverAll NewTimeChan done
            = some { pending := [done.getLast hd], capacity := 256 } := by
  have key : ∀ (l : List GoString) (hl : l ≠ []), (∀ t ∈ l, t ≠ []) →
      readLoopDeliverAll NewTimeChan l = some { pending := [l.getLast hl], capacity := 256 } := by
    intro l hl hp
    cases l with
    | nil => exact absurd rfl hl
    | cons t rest => exact readLoopDeliverAll_empty 256 (by decide) t rest hp
  refine ⟨key ts hne hparsed, rfl, ?_⟩
  intro done rest hd hsplit
  exact key done hd (fun t ht => hparsed t (by rw [hsplit]; exact List.mem_append_left rest ht))

/-- C12 on three values delivered in a row: the channel holds the third. -/
theorem C12_latest_value_wins_witness :
    readLoopDeliverAll NewTimeChan
        ["0:00:01.5".toList, "0:00:02.5".toList, "0:00:03.5".toList]
      = some { pending := ["0:00:03.5".toList], capacity := 256 } :=
  (C12_latest_value_wins ["0:00:01.5".toList, "0:00:02.5".toList, "0:00:03.5".toList]
    (by decide) (by decide)).1

/-! ## Time codec: sentinels -/

theorem not_mem_sep_NoKey : ¬ (':' ∈ NoKey ∨ '.' ∈ NoKey) := by decide

theorem not_mem_sep_NaN : ¬ (':' ∈ NaN ∨ '.' ∈ NaN) := by decide

theorem formatTimeString_ne_NoKey (ts : GoString) : formatTimeString ts ≠ NoKey := by
  intro h
  have := formatTimeString_sep ts
  rw [h] at this
  exact not_mem_sep_NoKey this

theorem formatTimeString_ne_NaN (ts : GoString) : formatTimeString ts ≠ NaN := by
  intro h
  have := formatTimeString_sep ts
  rw [h] at this
  exact not_mem_sep_NaN this

theorem ParseAndPadTimeString_eq_NoKey_iff (s : GoString) :
    ParseAndPadTimeString s = NoKey ↔
      TrimSpace s ≠ NaN ∧ patterns.any (fun pattern => pattern (TrimSpace s)) = false := by
  unfold ParseAndPadTimeString
  simp only
  by_cases hn : TrimSpace s = NaN
  · rw [if_pos hn]
    constructor
    · intro h; exact absurd h (by decide)
    · intro h; exact absurd hn h.1
  · rw [if_neg hn]
    by_cases hany : patterns.any (fun pattern => pattern (TrimSpace s)) = true
    · rw [if_pos hany]
      constructor
      · intro h; exact absurd h (formatTimeString_ne_NoKey _)
      · intro h; rw [hany] at h; cases h.2
    · rw [if_neg hany]
      simp only [Bool.not_eq_true] at hany
      exact ⟨fun _ => ⟨hn, hany⟩, fun _ => rfl⟩

theorem ParseAndPadTimeString_eq_NaN_iff (s : GoString) :
    ParseAndPadTimeString s = NaN ↔ TrimSpace s = NaN := by
  unfold ParseAndPadTimeString
  simp only
  by_cases hn : TrimSpace s = NaN
  · rw [if_pos hn]
    exact ⟨fun _ => hn, fun _ => rfl⟩
  · rw [if_neg hn]
    constructor
    · intro h
      split_ifs at h
      · exact absurd h (formatTimeString_ne_NaN _)
      · exact absurd h (by decide)
    · intro h; exact absurd h hn

/-- C17: `ParseAndPadTimeString` is a total function with a text as its only
result, and that text is the Invalid sentinel `"No"` exactly when the input,
trimmed of white space, is not `NaN` and matches none of the five accepted
patterns (`H:MM:SS`, `H:MM:SS.f+`, `A:B`, `S.f+`, digits); `not-a-time`
gives `"No"`. -/
theorem C17_invalid_sentinel (s : GoString) :
    (ParseAndPadTimeString s = NoKey ↔
        TrimSpace s ≠ NaN ∧
          reHMS (TrimSpace s) = false ∧ reHMSFrac (TrimSpace s) = false ∧
          reHM (TrimSpace s) = false ∧ reSecFrac (TrimSpace s) = false ∧
          reDigits (TrimSpace s) = false)
      ∧ ParseAndPadTimeString "not-a-time".toList = "No".toList := by
  refine ⟨?_, by decide⟩
  rw [ParseAndPadTimeString_eq_NoKey_iff]
  simp [patterns]

/-- C18 as stated fails: the spellings `nan` and `NAN` are not passed through;
they match no pattern and come back as the Invalid sentinel `"No"`. -/
theorem C18_counterexample :
    isNaNSpelling "nan".toList = true
      ∧ ParseAndPadTimeString "nan".toList = "No".toList
      ∧ isNaNSpelling "NAN".toList = true
      ∧ ParseAndPadTimeString "NAN".toList = "No".toList := by
  decide

/-- C18, amended: of the upper and lower case spellings of NaN, only the
exact spelling `NaN` is passed through as the NaN sentinel; every other one
(`nan`, `NAN`, `Nan`, ...) yields the Invalid sentinel `"No"`.  In general
`ParseAndPadTimeString` answers `NaN` exactly for the texts that are `NaN`
once trimmed of white space. -/
theorem C18_NaN_exact_spelling (s : GoString) (hspelling : isNaNSpelling s = true) :
    (s = NaN → ParseAndPadTimeString s = NaN)
      ∧ (s ≠ NaN → ParseAndPadTimeString s = NoKey)
      ∧ ∀ t : GoString, ParseAndPadTimeString t = NaN ↔ TrimSpace t = NaN := by
  refine ⟨?_, ?_, ParseAndPadTimeString_eq_NaN_iff⟩
  · intro h; rw [h]; decide
  · unfold isNaNSpelling at hspelling
    split at hspelling
    · rename_i a b c
      simp only [Bool.and_eq_true, Bool.or_eq_true, beq_iff_eq] at hspelling
      obtain ⟨⟨ha, hb⟩, hc⟩ := hspelling
      rcases ha with ha | ha <;> rcases hb with hb | hb <;> rcases hc with hc | hc <;>
        subst ha hb hc <;> decide
    · cases hspelling

/-- C18 at the spelling `nan`, which comes back as `"No"`, while `NaN` is
passed through. -/
theorem C18_NaN_exact_spelling_witness :
    ParseAndPadTimeString "nan".toList = NoKey :=
  (C18_NaN_exact_spelling "nan".toList (by decide)).2.1 (by decide)

/-! ## Contest runner: the properties -/

theorem validateAndSaveResult_frame (cm : ChugManager) (env : Env) (status : GoString) :
    (cm.validateAndSaveResult env status).1.participantMgr = cm.participantMgr
      ∧ (cm.validateAndSaveResult env status).1.timerState = cm.timerState
      ∧ (cm.validateAndSaveResult env status).1.disciplineSelected = cm.disciplineSelected
      ∧ (cm.validateAndSaveResult env status).1.currentChugger = cm.currentChugger := by
  unfold ChugManager.validateAndSaveResult
  split
  · exact ⟨rfl, rfl, rfl, rfl⟩
  · simp only
    split
    · exact ⟨rfl, rfl, rfl, rfl⟩
    · split
      · exact ⟨rfl, rfl, rfl, rfl⟩
      · split <;> exact ⟨rfl, rfl, rfl, rfl⟩

theorem moveToNextParticipant_participantMgr (cm : ChugManager) :
    (ChugManager.moveToNextParticipant cm).participantMgr = cm.participantMgr := rfl

theorem stopTimerFunc_spec (cm : ChugManager) (chugger : Participant)
    (hloaded : cm.currentChugger = some chugger) :
    (cm.stopTimerFunc.timerState.Duration
        = if cm.useExternalClock = true ∧ cm.lastExternalTime ≠ [] then 1
          else cm.timerState.Duration)
      ∧ cm.stopTimerFunc.disciplineSelected = cm.disciplineSelected
      ∧ (∃ c, cm.stopTimerFunc.currentChugger = some c ∧ c.Name = chugger.Name)
      ∧ cm.stopTimerFunc.participantMgr
        = if cm.stopTimerFunc.timerState.Duration > 0 then
            (cm.participantMgr.DecrementTries chugger.Name cm.disciplineSelected).1
          else cm.participantMgr := by
  unfold ChugManager.stopTimerFunc
  simp only
  by_cases hext : cm.useExternalClock = true ∧ cm.lastExternalTime ≠ []
  · simp only [hext, and_self, ne_eq, not_false_eq_true, if_true, hloaded]
    have h1 : (1 : Int) > 0 := by decide
    simp only [h1, if_true]
    refine ⟨trivial, trivial, ?_, trivial⟩
    split
    · rename_i p hp
      have := List.find?_some hp
      exact ⟨p, rfl, by simpa using this⟩
    · exact ⟨chugger, rfl, rfl⟩
  · simp only [hext, if_false]
    by_cases hd : cm.timerState.Duration > 0
    · simp only [hd, if_true, hloaded]
      refine ⟨trivial, trivial, ?_, trivial⟩
      split
      · rename_i p hp
        have := List.find?_some hp
        exact ⟨p, rfl, by simpa using this⟩
      · exact ⟨chugger, rfl, rfl⟩
    · simp only [hd, if_false, hloaded]
      exact ⟨trivial, trivial, ⟨chugger, rfl, rfl⟩, trivial⟩

theorem enterResultManually_participantMgr (cm : ChugManager) (env : Env) (chugger : Participant)
    (hloaded : cm.currentChugger = some chugger)
    (hok : (cm.validateAndSaveResult env
      (if cm.statusSelected = StatusDisqualified then StatusDisqualified else StatusPass)).2
        = none) :
    (cm.enterResultManually env).participantMgr
      = if cm.timerState.Duration = 0 then
          (cm.participantMgr.DecrementTries chugger.Name cm.disciplineSelected).1
        else cm.participantMgr := by
  generalize hst :
    (if cm.statusSelected = StatusDisqualified then StatusDisqualified else StatusPass) = st
    at hok
  obtain ⟨f1, f2, f3, _⟩ := validateAndSaveResult_frame cm env st
  unfold ChugManager.enterResultManually
  simp only [hloaded, hst, hok, moveToNextParticipant_participantMgr, f1, f2, f3]
  split_ifs
  · rfl
  · exact f1

/-- C13 fails on the code: a disqualification entered with an empty result
form, and a Pass entered with the Time entry alone, both commit and store the
base time `"No"`, the Invalid sentinel, which is neither canonical nor `NaN`
nor empty. -/
theorem C13_stores_invalid_base_time :
    (exRunner.validateAndSaveResult exEnv StatusDisqualified).2 = none
      ∧ (exRunner.validateAndSaveResult exEnv StatusDisqualified).1.resultMgr.results
        = [{ Name := "Alice".toList, Discipline := DisciplineBottle, Time := "NaN".toList,
             BaseTime := "No".toList, AdditionalTime := [], Status := StatusDisqualified,
             Comment := [] }]
      ∧ (exRunnerTimeOnly.validateAndSaveResult exEnv StatusPass).2 = none
      ∧ (exRunnerTimeOnly.validateAndSaveResult exEnv StatusPass).1.resultMgr.results
        = [{ Name := "Alice".toList, Discipline := DisciplineBottle,
             Time := "00:00:00.0000".toList, BaseTime := "No".toList, AdditionalTime := [],
             Status := StatusPass, Comment := [] }]
      ∧ isCanonical "No".toList = false ∧ "No".toList ≠ NaN ∧ "No".toList ≠ [] := by
  decide

/-- C14 fails on the code: with Time `00:00:05.0000` and Base Time
`00:00:07.0000` entered, the commit succeeds and the stored time is
`00:00:07.0000`, recomputed by `AddResult` from base and additional time; the
time entered, a valid canonical text, is lost. -/
theorem C14_entered_time_is_overwritten :
    validCanonical (TrimSpace exRunnerTimeAndBase.realTimeEntry) = true
      ∧ ParseAndPadTimeString exRunnerTimeAndBase.realTimeEntry = "00:00:05.0000".toList
      ∧ (exRunnerTimeAndBase.validateAndSaveResult exEnv StatusPass).2 = none
      ∧ (exRunnerTimeAndBase.validateAndSaveResult exEnv StatusPass).1.resultMgr.results
        = [{ Name := "Alice".toList, Discipline := DisciplineBottle,
             Time := "00:00:07.0000".toList, BaseTime := "00:00:07.0000".toList,
             AdditionalTime := [], Status := StatusPass, Comment := [] }] := by
  decide

/-- C15 as stated fails when the Time entry is filled in: with Time
`00:00:05.0000`, Base Time `NaN` and a requested Pass, the commit succeeds
and stores status Pass with time `NaN`. -/
theorem C15_counterexample :
    (exRunnerTimeAndNaN.validateAndSaveResult exEnv StatusPass).2 = none
      ∧ (exRunnerTimeAndNaN.validateAndSaveResult exEnv StatusPass).1.resultMgr.results
        = [{ Name := "Alice".toList, Discipline := DisciplineBottle, Time := NaN,
             BaseTime := NaN, AdditionalTime := [], Status := StatusPass, Comment := [] }] := by
  decide

theorem recalcTime_Status (r : Result) : (recalcTime r).Status = r.Status := by
  unfold recalcTime
  rw [calcResultTime_eq]
  split_ifs <;> rfl

theorem formatTicks_ne_NaN (n : Int) : formatTicks n ≠ NaN := by
  intro h
  have hmem : ':' ∈ formatTicks n := by simp [formatTicks]
  rw [h] at hmem
  exact not_mem_sep_NaN (Or.inl hmem)

theorem recalcTime_mk_Status (n d t b a st c : GoString) :
    (recalcTime (Result.mk n d t b a st c)).Status = st :=
  recalcTime_Status _

theorem recalcTime_mk_Time (n d t b a st c : GoString) (hne : st ≠ StatusDisqualified) :
    (recalcTime (Result.mk n d t b a st c)).Time
      = if parseTicks b < 0 ∨ parseTicks a < 0 then NaN
        else formatTicks (parseTicks b + parseTicks a) := by
  rw [recalcTime_of_not_disqualified _ hne]

theorem recalcTime_mk_Time_disqualified (n d t b a c : GoString) :
    (recalcTime (Result.mk n d t b a StatusDisqualified c)).Time = NaN := by
  rw [recalcTime_of_disqualified _ rfl]

theorem SetFilePath_results (rm : ResultManager) (env : Env) :
    (if env.resultFile ≠ [] then rm.SetFilePath env.resultFile else rm).results = rm.results := by
  split_ifs <;> rfl

theorem validateAndSaveResult_ok (cm : ChugManager) (env : Env) (status : GoString)
    (hok : (cm.validateAndSaveResult env status).2 = none) :
    ∃ chugger finalTime status1,
      cm.currentChugger = some chugger
        ∧ determineFinalTime status (TrimSpace cm.realTimeEntry) (TrimSpace cm.baseTimeEntry)
            (TrimSpace cm.additionalTimeEntry) = Except.ok (finalTime, status1)
        ∧ (cm.validateAndSaveResult env status).1.resultMgr.results
          = cm.resultMgr.results ++
              [recalcTime
                { Name := chugger.Name
                  Discipline := cm.disciplineSelected
                  Time := ParseAndPadTimeString finalTime
                  BaseTime := ParseAndPadTimeString (TrimSpace cm.baseTimeEntry)
                  AdditionalTime := TrimSpace cm.additionalTimeEntry
                  Status := status1
                  Comment := TrimSpace cm.commentEntry }] := by
  unfold ChugManager.validateAndSaveResult at hok ⊢
  cases hcur : cm.currentChugger with
  | none => simp [hcur] at hok
  | some chugger =>
    simp only [hcur] at hok ⊢
    cases hdft : determineFinalTime status (TrimSpace cm.realTimeEntry)
        (TrimSpace cm.baseTimeEntry) (TrimSpace cm.additionalTimeEntry) with
    | error err => simp [hdft] at hok
    | ok pair =>
      obtain ⟨finalTime, status1⟩ := pair
      simp only [hdft] at hok ⊢
      refine ⟨chugger, finalTime, status1, rfl, rfl, ?_⟩
      split at hok
      · cases hok
      · rename_i hadd
        split at hok
        · cases hok
        · simp only
          rw [AddResult_results_of_ok _ _ hadd, SetFilePath_results]

theorem determineFinalTime_empty_time (status b a finalTime status1 : GoString)
    (h : determineFinalTime status [] b a = Except.ok (finalTime, status1)) :
    ((b = NaN ∨ a = NaN) → (status = StatusPass ∨ status = StatusDisqualified) →
        status1 = StatusDisqualified)
      ∧ (status1 = StatusPass →
          0 ≤ parseTicks (ParseAndPadTimeString b) ∧ 0 ≤ parseTicks a) := by
  unfold determineFinalTime at h
  rw [if_neg (by simp)] at h
  by_cases hb : b ≠ [] ∧ b ≠ NoKey
  · rw [if_pos hb] at h
    simp only at h
    by_cases h1 : ParseAndPadTimeString b = NoKey
    · rw [if_pos h1] at h; cases h
    · rw [if_neg h1] at h
      by_cases h2 : a ≠ [] ∧ ParseAndPadTimeString a = NoKey
      · rw [if_pos h2] at h; cases h
      · rw [if_neg h2] at h
        by_cases h3 : ParseTimeForComparison (ParseAndPadTimeString b) < 0 ∨
            ParseTimeForComparison
              (if a ≠ [] then ParseAndPadTimeString a else zeroAdditional) < 0
        · rw [if_pos h3] at h
          simp only [Except.ok.injEq, Prod.mk.injEq] at h
          obtain ⟨_, hs⟩ := h
          constructor
          · intro _ hst
            rcases hst with hst | hst
            · rw [← hs, if_pos hst]
            · rw [← hs, hst]; decide
          · intro hp
            exfalso
            rw [← hs] at hp
            split_ifs at hp with hq
            · revert hp; decide
            · exact hq hp
        · rw [if_neg h3] at h
          simp only [Except.ok.injEq, Prod.mk.injEq] at h
          obtain ⟨_, hs⟩ := h
          have hbn : 0 ≤ ParseTimeForComparison (ParseAndPadTimeString b) := by
            by_contra hc; exact h3 (Or.inl (by omega))
          have han : 0 ≤ ParseTimeForComparison
              (if a ≠ [] then ParseAndPadTimeString a else zeroAdditional) := by
            by_contra hc; exact h3 (Or.inr (by omega))
          constructor
          · intro hnan _
            exfalso
            rcases hnan with hnan | hnan
            · rw [hnan] at hbn; revert hbn; decide
            · rw [hnan] at han; revert han; decide
          · intro _
            constructor
            · apply parseTicks_nonneg
              intro hc
              rw [ParseTimeForComparison_of_NaN _ hc] at hbn
              omega
            · by_cases ha : a = []
              · rw [ha]; decide
              · rw [if_pos ha] at han
                exact han
  · rw [if_neg hb] at h
    by_cases hp : status = StatusPass
    · rw [if_pos hp] at h; cases h
    · rw [if_neg hp] at h
      simp only [Except.ok.injEq, Prod.mk.injEq] at h
      obtain ⟨_, hs⟩ := h
      constructor
      · intro _ hst
        rcases hst with hst | hst
        · exact absurd hst hp
        · rw [← hs]; exact hst
      · intro hp1
        rw [← hs] at hp1
        exact absurd hp1 hp

/-- C15, amended: when the Time entry is empty, so that the time is base plus
additional, and the requested status is Pass or Disqualified, every commit
that succeeds appends one result; if the base time or the additional time
entered is `NaN`, its status is Disqualified (a requested Pass is forced), and
in no case is it stored with status Pass and time `NaN`. -/
theorem C15_NaN_forces_disqualified (cm : ChugManager) (env : Env) (status : GoString)
    (htime : TrimSpace cm.realTimeEntry = [])
    (hstatus : status = StatusPass ∨ status = StatusDisqualified)
    (hok : (cm.validateAndSaveResult env status).2 = none) :
    ∃ e, (cm.validateAndSaveResult env status).1.resultMgr.results = cm.resultMgr.results ++ [e]
      ∧ ((TrimSpace cm.baseTimeEntry = NaN ∨ TrimSpace cm.additionalTimeEntry = NaN) →
          e.Status = StatusDisqualified ∧ e.Time = NaN)
      ∧ ¬ (e.Status = StatusPass ∧ e.Time = NaN) := by
  obtain ⟨chugger, finalTime, status1, _, hdft, hres⟩ := validateAndSaveResult_ok cm env status hok
  rw [htime] at hdft
  obtain ⟨hforce, hpass⟩ := determineFinalTime_empty_time status _ _ finalTime status1 hdft
  refine ⟨_, hres, ?_, ?_⟩
  · intro hnan
    have hdq := hforce hnan hstatus
    subst hdq
    exact ⟨recalcTime_mk_Status _ _ _ _ _ _ _, recalcTime_mk_Time_disqualified _ _ _ _ _ _⟩
  · rintro ⟨hs, ht⟩
    rw [recalcTime_mk_Status] at hs
    obtain ⟨hb, ha⟩ := hpass hs
    have hne : status1 ≠ StatusDisqualified := by rw [hs]; decide
    rw [recalcTime_mk_Time _ _ _ _ _ _ _ hne, if_neg (by omega)] at ht
    exact formatTicks_ne_NaN _ ht

/-- C15 with Base Time `NaN`, the Time entry empty and a requested Pass: the
commit succeeds and the result stored is Disqualified with time `NaN`. -/
theorem C15_NaN_forces_disqualified_witness :
    ∃ e, (exRunnerNaNBase.validateAndSaveResult exEnv StatusPass).1.resultMgr.results
          = exRunnerNaNBase.resultMgr.results ++ [e]
      ∧ ((TrimSpace exRunnerNaNBase.baseTimeEntry = NaN ∨
            TrimSpace exRunnerNaNBase.additionalTimeEntry = NaN) →
          e.Status = StatusDisqualified ∧ e.Time = NaN)
      ∧ ¬ (e.Status = StatusPass ∧ e.Time = NaN) :=
  C15_NaN_forces_disqualified exRunnerNaNBase exEnv StatusPass (by decide) (Or.inl rfl)
    (by decide)

/-! ## Time codec: texts that are not canonical -/

/-- C19 fails on the code: the accepted two-field input `5:30` comes back as
`00:5:30.0000` and the accepted digit string `123` as `00:00:123.0000`;
neither is `NaN`, `"No"` or a canonical text. -/
theorem C19_not_canonical :
    reHM "5:30".toList = true
      ∧ ParseAndPadTimeString "5:30".toList = "00:5:30.0000".toList
      ∧ isCanonical "00:5:30.0000".toList = false
      ∧ reDigits "123".toList = true
      ∧ ParseAndPadTimeString "123".toList = "00:00:123.0000".toList
      ∧ isCanonical "00:00:123.0000".toList = false := by
  decide

/-- C20 fails on the code: the digit string `123` is accepted, but with base
time `123` and additional time `0` the time computed is `00:00:00.0000`, of
tick count 0, where 123 seconds are 1,230,000 ticks; `3` is handled. -/
theorem C20_three_digit_seconds :
    reDigits "123".toList = true
      ∧ ParseAndPadTimeString "123".toList ≠ NoKey
      ∧ (calcResultTime exSeconds123).Time = "00:00:00.0000".toList
      ∧ ParseTimeForComparison (calcResultTime exSeconds123).Time = 0
      ∧ (calcResultTime { exPass with BaseTime := "3".toList, AdditionalTime := "0".toList }).Time
        = "00:00:03.0000".toList := by
  decide

/-! ## Lemmas on the participant store -/

theorem IsNullString_iff_isBlank (s : GoString) : IsNullString s = true ↔ isBlank s := by
  unfold IsNullString isBlank TrimSpace
  rw [decide_eq_true_iff, List.reverse_eq_nil_iff, List.dropWhile_eq_nil_iff]
  constructor
  · intro h
    have h2 : s.dropWhile isSpace = [] := by
      cases hd : s.dropWhile isSpace with
      | nil => rfl
      | cons j rest =>
        have h1 := dropWhile_head_false isSpace s j rest hd
        have h3 := h j (by rw [hd]; simp)
        rw [h1] at h3; cases h3
    exact List.dropWhile_eq_nil_iff.mp h2
  · intro h
    have h2 : s.dropWhile isSpace = [] := List.dropWhile_eq_nil_iff.mpr h
    rw [h2]; intro x hx; simp at hx

theorem IsNullString_false_iff (s : GoString) : IsNullString s = false ↔ ¬ isBlank s := by
  rw [← IsNullString_iff_isBlank]; simp

theorem IsStringValid_iff (s : GoString) : IsStringValid s = true ↔ 1 ≤ len s ∧ len s ≤ 255 := by
  unfold IsStringValid MaxStringLength
  simp only [Bool.and_eq_true, decide_eq_true_iff]
  omega

theorem AddParticipant_ok_iff (pm : ParticipantManager) (p : Participant) :
    (pm.AddParticipant p).2 = none ↔
      IsNullString p.Name = false ∧ IsStringValid p.Name = true ∧ IsStringValid p.Program = true
        ∧ IsStringValid p.Team = true ∧ ∀ e ∈ pm.participants, e.Name ≠ p.Name := by
  unfold ParticipantManager.AddParticipant
  by_cases h1 : IsNullString p.Name = true
  · rw [if_pos h1]; simp [h1]
  · rw [if_neg h1]
    by_cases h2 : (!IsStringValid p.Name || !IsStringValid p.Program
        || !IsStringValid p.Team) = true
    · rw [if_pos h2]
      simp only [Bool.or_eq_true, Bool.not_eq_true'] at h2
      constructor
      · intro h; cases h
      · rintro ⟨_, a, b, c, _⟩
        rcases h2 with (h2 | h2) | h2
        · rw [a] at h2; cases h2
        · rw [b] at h2; cases h2
        · rw [c] at h2; cases h2
    · rw [if_neg h2]
      simp only [Bool.or_eq_true, Bool.not_eq_true', not_or, Bool.not_eq_false] at h2
      by_cases h3 : pm.participants.any (fun existing => decide (existing.Name = p.Name)) = true
      · rw [if_pos h3]
        constructor
        · intro h; cases h
        · rintro ⟨_, _, _, _, h⟩
          rw [List.any_eq_true] at h3
          obtain ⟨e, he, hd⟩ := h3
          exact absurd (of_decide_eq_true hd) (h e he)
      · rw [if_neg h3]
        simp only [true_iff]
        refine ⟨by simpa using h1, h2.1.1, h2.1.2, h2.2, ?_⟩
        intro e he hn
        apply h3
        rw [List.any_eq_true]
        exact ⟨e, he, decide_eq_true hn⟩

theorem AddParticipant_of_ok (pm : ParticipantManager) (p : Participant)
    (h : (pm.AddParticipant p).2 = none) :
    (pm.AddParticipant p).1 = { pm with participants := pm.participants ++ [p] } := by
  unfold ParticipantManager.AddParticipant at h ⊢
  split_ifs at h ⊢
  rfl

theorem AddParticipant_of_err (pm : ParticipantManager) (p : Participant)
    (h : (pm.AddParticipant p).2 ≠ none) : (pm.AddParticipant p).1 = pm := by
  unfold ParticipantManager.AddParticipant at h ⊢
  split_ifs at h ⊢ <;> first | rfl | exact absurd rfl h


theorem removeParticipantLoop_none (name : GoString) : ∀ (l : List Participant),
    (∀ p ∈ l, p.Name ≠ name) → removeParticipantLoop name l = none := by
  intro l
  induction l with
  | nil => intro _; rfl
  | cons p rest ih =>
    intro h
    unfold removeParticipantLoop
    rw [if_neg (h p (List.mem_cons_self _ _)),
      ih (fun q hq => h q (List.mem_cons_of_mem _ hq))]

theorem removeParticipantLoop_some (name : GoString) : ∀ (before : List Participant)
    (p : Participant) (after : List Participant),
    (∀ q ∈ before, q.Name ≠ name) → p.Name = name →
    removeParticipantLoop name (before ++ p :: after) = some (before ++ after) := by
  intro before
  induction before with
  | nil =>
    intro p after _ hp
    simp only [List.nil_append]
    unfold removeParticipantLoop
    rw [if_pos hp]
  | cons q rest ih =>
    intro p after h hp
    simp only [List.cons_append]
    unfold removeParticipantLoop
    rw [if_neg (h q (List.mem_cons_self _ _)),
      ih p after (fun x hx => h x (List.mem_cons_of_mem _ hx)) hp]

theorem removeParticipantLoop_sublist (name : GoString) : ∀ (l l1 : List Participant),
    removeParticipantLoop name l = some l1 → l1.Sublist l := by
  intro l
  induction l with
  | nil => intro l1 h; cases h
  | cons p rest ih =>
    intro l1 h
    unfold removeParticipantLoop at h
    by_cases hp : p.Name = name
    · rw [if_pos hp] at h
      cases h
      exact List.sublist_cons_self _ _
    · rw [if_neg hp] at h
      cases hr : removeParticipantLoop name rest with
      | none => rw [hr] at h; cases h
      | some r1 =>
        rw [hr] at h
        cases h
        exact (ih r1 hr).cons₂ p

theorem decrementTriesLoop_names (name discipline : GoString) : ∀ (l : List Participant),
    (decrementTriesLoop name discipline l).1.map Participant.Name = l.map Participant.Name := by
  intro l
  induction l with
  | nil => rfl
  | cons p rest ih =>
    unfold decrementTriesLoop
    simp only []
    split_ifs <;> simp [ih]

theorem namesDistinct_iff (l : List Participant) :
    List.Pairwise (fun p q => p.Name ≠ q.Name) l ↔ (l.map Participant.Name).Nodup := by
  unfold List.Nodup
  rw [List.pairwise_map]

theorem applyCall_namesDistinct (pm : ParticipantManager) (c : StoreCall)
    (h : List.Pairwise (fun p q => p.Name ≠ q.Name) pm.participants) :
    List.Pairwise (fun p q => p.Name ≠ q.Name) (applyCall pm c).participants := by
  cases c with
  | add p =>
    change List.Pairwise _ (pm.AddParticipant p).1.participants
    by_cases hok : (pm.AddParticipant p).2 = none
    · rw [AddParticipant_of_ok pm p hok]
      have hn := ((AddParticipant_ok_iff pm p).mp hok).2.2.2.2
      rw [List.pairwise_append]
      exact ⟨h, List.pairwise_singleton _ _, fun a ha b hb => by
        rw [List.mem_singleton] at hb; subst hb; exact hn a ha⟩
    · rw [AddParticipant_of_err pm p hok]; exact h
  | remove name =>
    change List.Pairwise _ (pm.RemoveParticipant name).1.participants
    unfold ParticipantManager.RemoveParticipant
    cases hr : removeParticipantLoop name pm.participants with
    | none => exact h
    | some l1 => exact h.sublist (removeParticipantLoop_sublist name _ _ hr)
  | decrement name discipline =>
    change List.Pairwise _ (pm.DecrementTries name discipline).1.participants
    unfold ParticipantManager.DecrementTries
    rw [namesDistinct_iff] at h ⊢
    simp only
    rw [decrementTriesLoop_names]
    exact h

theorem applyCalls_namesDistinct (calls : List StoreCall) : ∀ (pm : ParticipantManager),
    List.Pairwise (fun p q => p.Name ≠ q.Name) pm.participants →
    List.Pairwise (fun p q => p.Name ≠ q.Name) (applyCalls pm calls).participants := by
  induction calls with
  | nil => intro pm h; exact h
  | cons c cs ih =>
    intro pm h
    unfold applyCalls
    rw [List.foldl_cons]
    exact ih (applyCall pm c) (applyCall_namesDistinct pm c h)

/-! ## Lemmas on the shape `H:MM:SS` -/

theorem decFold_lt_pow (ds : GoString) (hd : ∀ c ∈ ds, isDigit c = true) :
    ∀ n, decFold ds n < (n + 1) * 10 ^ ds.length := by
  induction ds with
  | nil => intro n; simp [decFold]
  | cons c cs ih =>
    intro n
    rw [decFold_cons]
    have hc := digitVal_lt c (hd c (List.mem_cons_self _ _))
    have h1 := ih (fun x hx => hd x (List.mem_cons_of_mem _ hx)) (n * 10 + digitVal c)
    have h2 : (n * 10 + digitVal c + 1) * 10 ^ cs.length ≤ (n + 1) * 10 ^ (c :: cs).length := by
      rw [List.length_cons, pow_succ]
      have : n * 10 + digitVal c + 1 ≤ (n + 1) * 10 := by omega
      calc (n * 10 + digitVal c + 1) * 10 ^ cs.length
          ≤ ((n + 1) * 10) * 10 ^ cs.length := Nat.mul_le_mul_right _ this
        _ = (n + 1) * (10 ^ cs.length * 10) := by ring
    omega

theorem Atoi_short (ds : GoString) (hne : ds ≠ []) (hd : ∀ c ∈ ds, isDigit c = true)
    (hl : ds.length ≤ 4) : Atoi ds = (decFold ds 0 : Int) := by
  apply Atoi_digits ds hne hd
  have h1 := decFold_lt_pow ds hd 0
  have h2 : 10 ^ ds.length ≤ 10 ^ 4 := Nat.pow_le_pow_right (by decide) hl
  have h3 : decFold ds 0 < 10000 := by omega
  unfold maxInt
  omega

theorem digitRun_append (lo hi : Nat) (ds : GoString) (c : Char) (rest : GoString)
    (hd : ∀ x ∈ ds, isDigit x = true) (hlo : lo ≤ ds.length) (hhi : ds.length ≤ hi)
    (hc : isDigit c = false) :
    digitRun lo hi (ds ++ c :: rest) = some (ds, c :: rest) := by
  have ht : (ds ++ c :: rest).takeWhile isDigit = ds := by
    rw [List.takeWhile_append_of_pos hd, List.takeWhile_cons, hc]; simp
  have hdr : (ds ++ c :: rest).dropWhile isDigit = c :: rest := by
    rw [List.dropWhile_append_of_pos hd, List.dropWhile_cons, hc]; simp
  unfold digitRun
  simp only [ht, hdr]
  rw [if_pos ⟨hlo, hhi⟩]

theorem digitRun_all (lo hi : Nat) (ds : GoString)
    (hd : ∀ x ∈ ds, isDigit x = true) (hlo : lo ≤ ds.length) (hhi : ds.length ≤ hi) :
    digitRun lo hi ds = some (ds, []) := by
  have ht : ds.takeWhile isDigit = ds := List.takeWhile_eq_self_iff.mpr hd
  have hdr : ds.dropWhile isDigit = [] := List.dropWhile_eq_nil_iff.mpr hd
  unfold digitRun
  simp only [ht, hdr]
  rw [if_pos ⟨hlo, hhi⟩]

theorem matchHMS_hmsText (h m s : GoString) (f : Option GoString)
    (hh : isDigitRun 1 2 h) (hm : isDigitRun 2 2 m) (hs : isDigitRun 2 2 s)
    (hf : isFraction f) : matchHMS (hmsText h m s f) = some (h, m, s, f) := by
  unfold matchHMS hmsText
  rw [digitRun_append 1 2 h ':' _ hh.1 hh.2.1 hh.2.2 isDigit_colon]
  simp only [expect, if_true]
  rw [digitRun_append 2 2 m ':' _ hm.1 hm.2.1 hm.2.2 isDigit_colon]
  simp only [expect, if_true]
  cases f with
  | none =>
    simp only [fracText, List.append_nil]
    rw [digitRun_all 2 2 s hs.1 hs.2.1 hs.2.2]
  | some fr =>
    simp only [fracText]
    rw [digitRun_append 2 2 s '.' _ hs.1 hs.2.1 hs.2.2 isDigit_dot]
    have ha : allDigits1 fr = true := by
      unfold allDigits1
      obtain ⟨hne, hd⟩ := hf
      cases fr with
      | nil => exact absurd rfl hne
      | cons a as => simpa using hd
    simp only [ha, and_self, if_true]

theorem matchHMS_shape (t h m s : GoString) (f : Option GoString)
    (hmt : matchHMS t = some (h, m, s, f)) :
    t = hmsText h m s f ∧ isDigitRun 1 2 h ∧ isDigitRun 2 2 m ∧ isDigitRun 2 2 s
      ∧ isFraction f := by
  obtain ⟨k1, k2, k3, k4, _⟩ := matchHMS_some _ _ _ _ _ hmt
  unfold matchHMS at hmt
  cases h1 : digitRun 1 2 t with
  | none => rw [h1] at hmt; cases hmt
  | some p1 =>
    obtain ⟨d1, r1⟩ := p1
    rw [h1] at hmt
    simp only at hmt
    cases h2 : expect ':' r1 with
    | none => rw [h2] at hmt; cases hmt
    | some r2 =>
      rw [h2] at hmt
      simp only at hmt
      cases h3 : digitRun 2 2 r2 with
      | none => rw [h3] at hmt; cases hmt
      | some p3 =>
        obtain ⟨d3, r3⟩ := p3
        rw [h3] at hmt
        simp only at hmt
        cases h4 : expect ':' r3 with
        | none => rw [h4] at hmt; cases hmt
        | some r4 =>
          rw [h4] at hmt
          simp only at hmt
          cases h5 : digitRun 2 2 r4 with
          | none => rw [h5] at hmt; cases hmt
          | some p5 =>
            obtain ⟨d5, r5⟩ := p5
            rw [h5] at hmt
            simp only at hmt
            obtain ⟨e1, e1r, l1, u1⟩ := digitRun_some _ _ _ _ _ h1
            obtain ⟨e3, e3r, l3, u3⟩ := digitRun_some _ _ _ _ _ h3
            obtain ⟨e5, e5r, l5, u5⟩ := digitRun_some _ _ _ _ _ h5
            have q2 := expect_some _ _ _ h2
            have q4 := expect_some _ _ _ h4
            have t1 : t = d1 ++ r1 := by rw [e1, e1r, List.takeWhile_append_dropWhile]
            have t3 : r2 = d3 ++ r3 := by rw [e3, e3r, List.takeWhile_append_dropWhile]
            have t5 : r4 = d5 ++ r5 := by rw [e5, e5r, List.takeWhile_append_dropWhile]
            cases r5 with
            | nil =>
              simp only [Option.some.injEq, Prod.mk.injEq] at hmt
              obtain ⟨rfl, rfl, rfl, rfl⟩ := hmt
              refine ⟨?_, ⟨k1, l1, u1⟩, ⟨k2, l3, u3⟩, ⟨k3, l5, u5⟩, trivial⟩
              rw [t1, q2, t3, q4, t5]; simp [hmsText, fracText]
            | cons d fr =>
              simp only at hmt
              split_ifs at hmt with hc
              simp only [Option.some.injEq, Prod.mk.injEq] at hmt
              obtain ⟨rfl, rfl, rfl, rfl⟩ := hmt
              refine ⟨?_, ⟨k1, l1, u1⟩, ⟨k2, l3, u3⟩, ⟨k3, l5, u5⟩, k4 fr rfl⟩
              rw [t1, q2, t3, q4, t5, hc.1]; simp [hmsText, fracText]

theorem isHMSShape_iff (t : GoString) : isHMSShape t ↔ (matchHMS t).isSome = true := by
  constructor
  · rintro ⟨h, m, s, f, rfl, hh, hm, hs, hf⟩
    rw [matchHMS_hmsText h m s f hh hm hs hf]; rfl
  · intro h
    cases hm : matchHMS t with
    | none => rw [hm] at h; cases h
    | some q =>
      obtain ⟨g1, g2, g3, g4⟩ := q
      obtain ⟨e, a, b, c, d⟩ := matchHMS_shape t g1 g2 g3 g4 hm
      exact ⟨g1, g2, g3, g4, e, a, b, c, d⟩

theorem Split_no_sep (sep : Char) : ∀ (ds : GoString), sep ∉ ds → Split sep ds = [ds] := by
  intro ds
  induction ds with
  | nil => intro _; rfl
  | cons c cs ih =>
    intro h
    have hc : c ≠ sep := fun e => h (by rw [e]; exact List.mem_cons_self _ _)
    have hcs : sep ∉ cs := fun e => h (List.mem_cons_of_mem _ e)
    unfold Split
    rw [if_neg hc, ih hcs]

theorem Split_append (sep : Char) (rest : GoString) : ∀ (ds : GoString), sep ∉ ds →
    Split sep (ds ++ sep :: rest) = ds :: Split sep rest := by
  intro ds
  induction ds with
  | nil =>
    intro _
    simp only [List.nil_append]
    rw [Split, if_pos rfl]
  | cons c cs ih =>
    intro h
    have hc : c ≠ sep := fun e => h (by rw [e]; exact List.mem_cons_self _ _)
    have hcs : sep ∉ cs := fun e => h (List.mem_cons_of_mem _ e)
    simp only [List.cons_append]
    rw [Split, if_neg hc, ih hcs]

theorem not_mem_of_digits (x : Char) (hx : isDigit x = false) (ds : GoString)
    (hd : ∀ c ∈ ds, isDigit c = true) : x ∉ ds := by
  intro h
  rw [hd x h] at hx
  cases hx

theorem digits_concat (ds : GoString) (hne : ds ≠ []) (hd : ∀ c ∈ ds, isDigit c = true) :
    ∃ init b, ds = init ++ [b] ∧ isDigit b = true := by
  refine ⟨ds.dropLast, ds.getLast hne, (List.dropLast_append_getLast hne).symm, ?_⟩
  exact hd _ (List.getLast_mem hne)

theorem TrimSpace_digit_ends (a b : Char) (mid : GoString) (ha : isDigit a = true)
    (hb : isDigit b = true) : TrimSpace (a :: (mid ++ [b])) = a :: (mid ++ [b]) :=
  TrimSpace_eq_self a b mid (isSpace_of_isDigit a ha) (isSpace_of_isDigit b hb)

theorem ne_nil_of_isDigitRun (lo hi : Nat) (ds : GoString) (h : isDigitRun (lo + 1) hi ds) :
    ds ≠ [] := by
  intro e
  have := h.2.1
  rw [e] at this
  simp at this

theorem TrimSpace_hmsText (h m s : GoString) (f : Option GoString)
    (hh : isDigitRun 1 2 h) (hs : isDigitRun 2 2 s) (hf : isFraction f) :
    TrimSpace (hmsText h m s f) = hmsText h m s f := by
  have hsne : s ≠ [] := ne_nil_of_isDigitRun 1 2 s hs
  have hhne : h ≠ [] := ne_nil_of_isDigitRun 0 2 h hh
  have hend : ∃ init b, s ++ fracText f = init ++ [b] ∧ isDigit b = true := by
    cases f with
    | none =>
      simp only [fracText, List.append_nil]
      exact digits_concat s hsne hs.1
    | some fr =>
      obtain ⟨i, b, e, hb⟩ := digits_concat fr hf.1 hf.2
      exact ⟨s ++ '.' :: i, b, by simp [fracText, e], hb⟩
  obtain ⟨init, b, e, hb⟩ := hend
  cases h with
  | nil => exact absurd rfl hhne
  | cons a h1 =>
    have ha : isDigit a = true := hh.1 a (List.mem_cons_self _ _)
    have ht : hmsText (a :: h1) m s f = a :: ((h1 ++ ':' :: (m ++ ':' :: init)) ++ [b]) := by
      unfold hmsText
      rw [e]
      simp
    rw [ht]
    exact TrimSpace_digit_ends a b _ ha hb

theorem hmsText_ne_NaN (h m s : GoString) (f : Option GoString) : hmsText h m s f ≠ NaN := by
  intro e
  have hc : ':' ∈ hmsText h m s f := by simp [hmsText]
  rw [e] at hc
  exact absurd hc (by decide)

theorem fraction_four (fr : GoString) (hd : ∀ c ∈ fr, isDigit c = true) :
    Atoi (if fr.length > 4 then fr.take 4 else padFraction fr)
      = ((fractionTicks (some fr) : Nat) : Int) := by
  change _ = ((decFold ((fr ++ List.replicate (4 - fr.length) '0').take 4) 0 : Nat) : Int)
  by_cases hl : fr.length > 4
  · rw [if_pos hl]
    have h0 : 4 - fr.length = 0 := by omega
    rw [h0, List.replicate_zero, List.append_nil]
    apply Atoi_short
    · intro e
      have := congrArg List.length e
      simp only [List.length_take, List.length_nil] at this
      omega
    · intro c hc; exact hd c (List.mem_of_mem_take hc)
    · rw [List.length_take]; omega
  · rw [if_neg hl]
    have hlen : (padFraction fr).length = 4 := by
      simp [padFraction]; omega
    have ht : (fr ++ List.replicate (4 - fr.length) '0').take 4 = padFraction fr := by
      unfold padFraction at hlen ⊢
      exact List.take_of_length_le (by rw [hlen])
    rw [ht]
    apply Atoi_short
    · intro e; rw [e] at hlen; cases hlen
    · intro c hc
      simp only [padFraction, List.mem_append, List.mem_replicate] at hc
      rcases hc with hc | ⟨_, hc⟩
      · exact hd c hc
      · rw [hc]; decide
    · omega

theorem ParseTimeForComparison_hmsText (h m s : GoString) (f : Option GoString)
    (hh : isDigitRun 1 2 h) (hm : isDigitRun 2 2 m) (hs : isDigitRun 2 2 s)
    (hf : isFraction f) :
    ParseTimeForComparison (hmsText h m s f)
      = ((decFold h 0 * 36000000 + decFold m 0 * 600000 + decFold s 0 * 10000
          + fractionTicks f : Nat) : Int) := by
  unfold ParseTimeForComparison
  simp only [TrimSpace_hmsText h m s f hh hs hf, if_neg (hmsText_ne_NaN h m s f),
    matchHMS_hmsText h m s f hh hm hs hf]
  rw [Atoi_short h (ne_nil_of_isDigitRun 0 2 h hh) hh.1 (by have := hh.2.2; omega),
    Atoi_short m (ne_nil_of_isDigitRun 1 2 m hm) hm.1 (by have := hm.2.2; omega),
    Atoi_short s (ne_nil_of_isDigitRun 1 2 s hs) hs.1 (by have := hs.2.2; omega)]
  cases f with
  | none => simp [fractionTicks]
  | some fr =>
    simp only
    rw [if_pos hf.1, fraction_four fr hf.2]
    push_cast
    rfl

theorem ParseTimeForComparison_of_no_match (t : GoString) (hn : TrimSpace t ≠ NaN)
    (hm : matchHMS (TrimSpace t) = none) : ParseTimeForComparison t = 0 := by
  unfold ParseTimeForComparison
  simp only [if_neg hn, hm]

theorem ParseTimeForComparison_neg_iff (t : GoString) :
    ParseTimeForComparison t = -1 ↔ TrimSpace t = NaN := by
  constructor
  · intro h
    by_contra hn
    have := ParseTimeForComparison_nonneg t hn
    omega
  · exact ParseTimeForComparison_of_NaN t

theorem ParseAndPadTimeString_two_fields (a b : GoString) (ha : isDigitRun 1 2 a)
    (hb : isDigitRun 2 2 b) :
    ParseAndPadTimeString (a ++ ':' :: b)
      = ['0', '0', ':'] ++ (a ++ ':' :: b) ++ ['.', '0', '0', '0', '0'] := by
  have hane : a ≠ [] := ne_nil_of_isDigitRun 0 2 a ha
  have hbne : b ≠ [] := ne_nil_of_isDigitRun 1 2 b hb
  have htrim : TrimSpace (a ++ ':' :: b) = a ++ ':' :: b := by
    obtain ⟨init, y, e, hy⟩ := digits_concat b hbne hb.1
    cases a with
    | nil => exact absurd rfl hane
    | cons x a1 =>
      have hx : isDigit x = true := ha.1 x (List.mem_cons_self _ _)
      have ht : (x :: a1) ++ ':' :: b = x :: ((a1 ++ ':' :: init) ++ [y]) := by
        rw [e]; simp
      rw [ht]
      exact TrimSpace_digit_ends x y _ hx hy
  have hnan : a ++ ':' :: b ≠ NaN := by
    intro e
    have hc : ':' ∈ a ++ ':' :: b := by simp
    rw [e] at hc
    exact absurd hc (by decide)
  have hHM : reHM (a ++ ':' :: b) = true := by
    unfold reHM
    rw [digitRun_append 1 2 a ':' b ha.1 ha.2.1 ha.2.2 isDigit_colon]
    simp only [expect, if_true]
    rw [digitRun_all 2 2 b hb.1 hb.2.1 hb.2.2]
  have hfull : reFull (a ++ ':' :: b) = false := by
    unfold reFull matchHMS
    rw [digitRun_append 1 2 a ':' b ha.1 ha.2.1 ha.2.2 isDigit_colon]
    simp only [expect, if_true]
    rw [digitRun_all 2 2 b hb.1 hb.2.1 hb.2.2]
  have hany : patterns.any (fun pattern => pattern (a ++ ':' :: b)) = true := by
    simp [patterns, hHM]
  have hcont : Contains (a ++ ':' :: b) ':' = true := by
    simp [Contains]
  have hsplit : Split ':' (a ++ ':' :: b) = [a, b] := by
    rw [Split_append ':' b a (not_mem_of_digits ':' isDigit_colon a ha.1),
      Split_no_sep ':' b (not_mem_of_digits ':' isDigit_colon b hb.1)]
  unfold ParseAndPadTimeString
  simp only [htrim, if_neg hnan]
  rw [if_pos hany]
  unfold formatTimeString
  rw [hfull, hcont, hsplit]
  simp

/-! ## Lemmas on the eligible list -/

theorem strLess_asymm : ∀ (a b : GoString), strLess a b = true → strLess b a = false := by
  intro a
  induction a with
  | nil =>
    intro b _
    cases b <;> rfl
  | cons x as ih =>
    intro b h
    cases b with
    | nil => simp [strLess] at h
    | cons y bs =>
      unfold strLess at h ⊢
      split_ifs at h ⊢ <;> first | rfl | omega | exact ih bs h

theorem strLess_negtrans : ∀ (a b c : GoString), strLess b a = false → strLess c b = false →
    strLess c a = false := by
  intro a
  induction a with
  | nil =>
    intro b c _ h2
    cases c with
    | nil => rfl
    | cons z cs => rfl
  | cons x as ih =>
    intro b c h1 h2
    cases b with
    | nil => simp [strLess] at h1
    | cons y bs =>
      cases c with
      | nil => simp [strLess] at h2
      | cons z cs =>
        unfold strLess at h1 h2 ⊢
        split_ifs at h1 h2 ⊢ <;> first | rfl | omega | exact ih bs cs h1 h2

theorem includeParticipant_eq_hasTries (discipline : GoString) (p : Participant) :
    includeParticipant discipline p = hasTries discipline p := by
  unfold includeParticipant hasTries counter
  split_ifs <;> rfl

theorem triesOf_eq_counterValue (discipline : GoString) (p : Participant) :
    triesOf discipline p = counterValue discipline p := by
  unfold triesOf counterValue counter
  split_ifs <;> rfl

theorem lessAvailable_false_iff (discipline : GoString) (p q : Participant) :
    lessAvailable discipline q p = false ↔
      counterValue discipline p > counterValue discipline q
        ∨ (counterValue discipline p = counterValue discipline q
            ∧ strLess q.Name p.Name = false) := by
  unfold lessAvailable
  rw [triesOf_eq_counterValue, triesOf_eq_counterValue]
  by_cases h : counterValue discipline q = counterValue discipline p
  · rw [if_neg (not_not.mpr h)]
    constructor
    · intro hs; exact Or.inr ⟨h.symm, hs⟩
    · rintro (hgt | ⟨_, hs⟩)
      · omega
      · exact hs
  · rw [if_pos h]
    simp only [decide_eq_false_iff_not]
    constructor
    · intro hn; left; omega
    · rintro (hgt | ⟨he, _⟩)
      · omega
      · exact absurd he.symm h

theorem lessAvailable_total (discipline : GoString) (p q : Participant) :
    lessAvailable discipline q p = false ∨ lessAvailable discipline p q = false := by
  rw [lessAvailable_false_iff, lessAvailable_false_iff]
  rcases lt_trichotomy (counterValue discipline p) (counterValue discipline q) with h | h | h
  · right; left; exact h
  · cases hs : strLess q.Name p.Name with
    | false => left; right; exact ⟨h, rfl⟩
    | true => right; right; exact ⟨h.symm, strLess_asymm _ _ hs⟩
  · left; left; exact h

theorem lessAvailable_trans (discipline : GoString) (p q r : Participant)
    (h1 : lessAvailable discipline q p = false) (h2 : lessAvailable discipline r q = false) :
    lessAvailable discipline r p = false := by
  rw [lessAvailable_false_iff] at h1 h2 ⊢
  rcases h1 with h1 | ⟨e1, s1⟩
  · rcases h2 with h2 | ⟨e2, _⟩
    · left; omega
    · left; omega
  · rcases h2 with h2 | ⟨e2, s2⟩
    · left; omega
    · right; exact ⟨e1.trans e2, strLess_negtrans _ _ _ s1 s2⟩

theorem sortSlice_perm {α : Type} (less : α → α → Bool) (list : List α) :
    List.Perm (sortSlice less list) list := by
  unfold sortSlice
  exact List.perm_insertionSort _ _

theorem loadAvailableParticipants_sorted (discipline : GoString) (all : List Participant) :
    List.Pairwise (fun p q => lessAvailable discipline q p = false)
      (loadAvailableParticipants discipline all) := by
  unfold loadAvailableParticipants sortSlice
  exact @List.sorted_insertionSort _ (fun p q => lessAvailable discipline q p = false) _
    ⟨fun p q => lessAvailable_total discipline p q⟩
    ⟨fun p q r => lessAvailable_trans discipline p q r⟩ _

theorem hasTries_iff (discipline : GoString) (p : Participant) :
    hasTries discipline p = true ↔
      ∃ c, counter p discipline = some c ∧ c ≠ [] ∧ c ≠ ['0'] := by
  unfold hasTries
  cases counter p discipline with
  | none => simp
  | some c => simp

/-! ## Claims C21 to C30 -/

/-- C21: for every two-field input `A:B`, with `A` of one or two digits and `B`
of two digits, `ParseAndPadTimeString` returns the text `00:` followed by
`A:B` followed by `.0000`. -/
theorem C21_two_field_input (a b : GoString) (ha : isDigitRun 1 2 a) (hb : isDigitRun 2 2 b) :
    ParseAndPadTimeString (a ++ ':' :: b)
      = "00:".toList ++ (a ++ ':' :: b) ++ ".0000".toList :=
  ParseAndPadTimeString_two_fields a b ha hb

/-- C21 at the input `00:05`, which gives `00:00:05.0000`. -/
theorem C21_two_field_input_witness :
    isDigitRun 1 2 "00".toList ∧ isDigitRun 2 2 "05".toList
      ∧ ParseAndPadTimeString "00:05".toList = "00:00:05.0000".toList :=
  ⟨by decide, by decide, C21_two_field_input "00".toList "05".toList (by decide) (by decide)⟩

/-- C22: for every text of shape `H:MM:SS` or `H:MM:SS.f+` (one or two hour
digits, two minute digits, two second digits, optionally a dot and one or more
fraction digits), `ParseTimeForComparison` returns
hours × 36,000,000 + minutes × 600,000 + seconds × 10,000 + fraction, where the
fraction is the value of the fraction digits padded with zeros on the right or
cut to exactly four digits, and 0 without fraction. -/
theorem C22_tick_count (h m s : GoString) (f : Option GoString)
    (hh : isDigitRun 1 2 h) (hm : isDigitRun 2 2 m) (hs : isDigitRun 2 2 s)
    (hf : isFraction f) :
    ParseTimeForComparison (hmsText h m s f)
      = ((decFold h 0 * 36000000 + decFold m 0 * 600000 + decFold s 0 * 10000
          + fractionTicks f : Nat) : Int) :=
  ParseTimeForComparison_hmsText h m s f hh hm hs hf

/-- C22 at `01:23:45.1000`, which gives 50,251,000, and at `00:00:03.500`, which
gives 35,000. -/
theorem C22_tick_count_witness :
    ParseTimeForComparison "01:23:45.1000".toList = 50251000
      ∧ ParseTimeForComparison "00:00:03.500".toList = 35000 :=
  ⟨C22_tick_count "01".toList "23".toList "45".toList (some "1000".toList)
      (by decide) (by decide) (by decide) (by decide),
    C22_tick_count "00".toList "00".toList "03".toList (some "500".toList)
      (by decide) (by decide) (by decide) (by decide)⟩

/-- C23: `ParseTimeForComparison` returns -1 exactly when its input, trimmed of
white space, is `NaN`; for every other input whose trimmed text is not of the
shape `H:MM:SS` or `H:MM:SS.f+` it returns 0, as it does for the Invalid text
`No` and for the empty text; and for no input other than `NaN` is the result
negative. -/
theorem C23_sentinel_values (t : GoString) :
    (ParseTimeForComparison t = -1 ↔ TrimSpace t = NaN)
      ∧ (TrimSpace t ≠ NaN → ¬ isHMSShape (TrimSpace t) → ParseTimeForComparison t = 0)
      ∧ (TrimSpace t ≠ NaN → 0 ≤ ParseTimeForComparison t)
      ∧ ParseTimeForComparison "No".toList = 0 ∧ ParseTimeForComparison [] = 0 := by
  refine ⟨ParseTimeForComparison_neg_iff t, ?_, ParseTimeForComparison_nonneg t,
    by decide, by decide⟩
  intro hn hs
  apply ParseTimeForComparison_of_no_match t hn
  cases hm : matchHMS (TrimSpace t) with
  | none => rfl
  | some q =>
    exact absurd ((isHMSShape_iff _).mpr (by rw [hm]; rfl)) hs

/-- C24: `AddParticipant` returns an error and leaves the store unchanged
whenever the name of the participant is empty or white space only, is longer
than 255 bytes, or is the name of a participant already in the store. -/
theorem C24_AddParticipant_rejects (pm : ParticipantManager) (p : Participant)
    (h : isBlank p.Name ∨ 255 < len p.Name ∨ ∃ e ∈ pm.participants, e.Name = p.Name) :
    (pm.AddParticipant p).2 ≠ none ∧ (pm.AddParticipant p).1 = pm := by
  have herr : (pm.AddParticipant p).2 ≠ none := by
    intro hok
    obtain ⟨h1, h2, _, _, h5⟩ := (AddParticipant_ok_iff pm p).mp hok
    rcases h with h | h | ⟨e, he, hn⟩
    · exact (IsNullString_false_iff _).mp h1 h
    · have := ((IsStringValid_iff _).mp h2).2
      omega
    · exact h5 e he hn
  exact ⟨herr, AddParticipant_of_err pm p herr⟩

/-- C24 at the store of Alice, Bob, Carol and Dave, to which a second Alice is
added. -/
theorem C24_AddParticipant_rejects_witness :
    (exRoster.AddParticipant exAlice).2 ≠ none ∧ (exRoster.AddParticipant exAlice).1 = exRoster :=
  C24_AddParticipant_rejects exRoster exAlice
    (Or.inr (Or.inr ⟨exAlice, List.mem_cons_self _ _, rfl⟩))

/-- C25: starting from a new, empty participant store, after any finite
sequence of `AddParticipant`, `RemoveParticipant` and `DecrementTries` calls,
each succeeding or failing, the names of the stored participants are pairwise
distinct. -/
theorem C25_names_unique (calls : List StoreCall) :
    List.Pairwise (fun p q => p.Name ≠ q.Name)
        (applyCalls NewParticipantManager calls).participants
      ∧ ((applyCalls NewParticipantManager calls).participants.map Participant.Name).Nodup := by
  have h := applyCalls_namesDistinct calls NewParticipantManager List.Pairwise.nil
  exact ⟨h, (namesDistinct_iff _).mp h⟩

/-- C26: `RemoveParticipant` returns an error and leaves the store unchanged
when no stored participant has the name; otherwise it succeeds, removes the
first participant of that name and keeps every other one in the original
order; removing `B` from A, B, C, D leaves A, C, D. -/
theorem C26_RemoveParticipant (pm : ParticipantManager) (name : GoString) :
    ((∀ p ∈ pm.participants, p.Name ≠ name) →
        (pm.RemoveParticipant name).2 = some (GoError.participantNotFound name)
          ∧ (pm.RemoveParticipant name).1 = pm)
      ∧ (∀ before p after, pm.participants = before ++ p :: after →
          (∀ q ∈ before, q.Name ≠ name) → p.Name = name →
          (pm.RemoveParticipant name).2 = none
            ∧ (pm.RemoveParticipant name).1 = { pm with participants := before ++ after })
      ∧ (exLetters.RemoveParticipant ['B']).2 = none
      ∧ (exLetters.RemoveParticipant ['B']).1.participants
          = [exNamed ['A'], exNamed ['C'], exNamed ['D']] := by
  refine ⟨?_, ?_, by decide, by decide⟩
  · intro h
    unfold ParticipantManager.RemoveParticipant
    rw [removeParticipantLoop_none name _ h]
    exact ⟨rfl, rfl⟩
  · intro before p after hl hb hp
    unfold ParticipantManager.RemoveParticipant
    rw [hl, removeParticipantLoop_some name before p after hb hp]
    exact ⟨rfl, rfl⟩

/-- C27: `AddResult` fails exactly when the name or the discipline of the
result is empty or white space only; on failure the store is unchanged; on
success exactly one entry is appended at the end and the entries stored before
are unchanged. -/
theorem C27_AddResult_append_only (rm : ResultManager) (r : Result) :
    ((rm.AddResult r).2 ≠ none ↔ isBlank r.Name ∨ isBlank r.Discipline)
      ∧ ((rm.AddResult r).2 ≠ none → (rm.AddResult r).1 = rm)
      ∧ ((rm.AddResult r).2 = none →
          (rm.AddResult r).1.results = rm.results ++ [recalcTime r]
            ∧ (rm.AddResult r).1.results.length = rm.results.length + 1
            ∧ ∀ (i : Nat) (e : Result), rm.results[i]? = some e →
                (rm.AddResult r).1.results[i]? = some e) := by
  refine ⟨?_, ?_, ?_⟩
  · rw [Ne, AddResult_ok_iff, IsNullString_false_iff, IsNullString_false_iff]
    tauto
  · intro h
    unfold ResultManager.AddResult at h ⊢
    split_ifs at h ⊢
    · rfl
    · exact absurd rfl h
  · intro h
    have hr := AddResult_results_of_ok rm r h
    refine ⟨hr, by rw [hr]; simp, ?_⟩
    intro i e hi
    rw [hr, List.getElem?_append_left (getElem?_lt_length_of_some _ _ _ hi)]
    exact hi

/-- C28: for Bottle, Half Tankard and Full Tankard, as for every discipline,
the eligible list computed by `loadAvailableParticipants` holds exactly the
participants whose counter for the discipline is non-empty and not `"0"`, each
as often as the roster does, and it is ordered by counter value descending with
the name ascending as the tiebreak: of two neighbours, and of any two entries,
the earlier has the larger counter, or an equal counter and a name that is not
greater. -/
theorem C28_eligible_list (discipline : GoString) (allParticipants : List Participant) :
    List.Perm (loadAvailableParticipants discipline allParticipants)
        (allParticipants.filter (hasTries discipline))
      ∧ (∀ p, p ∈ loadAvailableParticipants discipline allParticipants ↔
          p ∈ allParticipants ∧ ∃ c, counter p discipline = some c ∧ c ≠ [] ∧ c ≠ ['0'])
      ∧ List.Chain' (fun p q =>
          counterValue discipline p > counterValue discipline q
            ∨ (counterValue discipline p = counterValue discipline q
                ∧ strLess q.Name p.Name = false))
          (loadAvailableParticipants discipline allParticipants)
      ∧ List.Pairwise (fun p q =>
          counterValue discipline p > counterValue discipline q
            ∨ (counterValue discipline p = counterValue discipline q
                ∧ strLess q.Name p.Name = false))
          (loadAvailableParticipants discipline allParticipants)
      ∧ loadAvailableParticipants DisciplineBottle [exBobP, exAlice, exNamed ['A']]
          = [exNamed ['A'], exAlice] := by
  have hperm : List.Perm (loadAvailableParticipants discipline allParticipants)
      (allParticipants.filter (hasTries discipline)) := by
    have hf : allParticipants.filter (includeParticipant discipline)
        = allParticipants.filter (hasTries discipline) := by
      congr 1
      funext p
      exact includeParticipant_eq_hasTries discipline p
    rw [← hf]
    exact sortSlice_perm _ _
  have hsorted : List.Pairwise (fun p q =>
      counterValue discipline p > counterValue discipline q
        ∨ (counterValue discipline p = counterValue discipline q
            ∧ strLess q.Name p.Name = false))
      (loadAvailableParticipants discipline allParticipants) :=
    (loadAvailableParticipants_sorted discipline allParticipants).imp
      (fun h => (lessAvailable_false_iff discipline _ _).mp h)
  refine ⟨hperm, ?_, hsorted.chain', hsorted, by decide⟩
  intro p
  rw [hperm.mem_iff, List.mem_filter, hasTries_iff]

/-- C29 fails in the code: a base time or an additional time that
`ParseAndPadTimeString` rejects as Invalid counts as zero ticks, and the time
of the result is the other operand, not `NaN`. -/
theorem C29_unparseable_counts_as_zero :
    ParseAndPadTimeString exGarbageBase.BaseTime = NoKey
      ∧ (calcResultTime exGarbageBase).Time = "00:00:02.0000".toList
      ∧ ParseAndPadTimeString exGarbageAdditional.AdditionalTime = NoKey
      ∧ (calcResultTime exGarbageAdditional).Time = "00:00:07.0000".toList := by
  decide

/-- C30: `AddParticipant` succeeds exactly when the name, the program and the
team are each between 1 and 255 bytes long, the name is not white space only
and no stored participant has the name; on success the participant is
appended as the last element and nothing else changes, on failure the store is
unchanged; a participant with an empty program or an empty team is rejected,
as Eve and Frank are, whose names are valid and new. -/
theorem C30_AddParticipant_accepts (pm : ParticipantManager) (p : Participant) :
    ((pm.AddParticipant p).2 = none ↔
        (1 ≤ len p.Name ∧ len p.Name ≤ 255) ∧ (1 ≤ len p.Program ∧ len p.Program ≤ 255)
          ∧ (1 ≤ len p.Team ∧ len p.Team ≤ 255) ∧ ¬ isBlank p.Name
          ∧ ∀ e ∈ pm.participants, e.Name ≠ p.Name)
      ∧ ((pm.AddParticipant p).2 = none →
          (pm.AddParticipant p).1 = { pm with participants := pm.participants ++ [p] })
      ∧ ((pm.AddParticipant p).2 ≠ none → (pm.AddParticipant p).1 = pm)
      ∧ (p.Program = [] ∨ p.Team = [] →
          (pm.AddParticipant p).2 ≠ none ∧ (pm.AddParticipant p).1 = pm)
      ∧ (exRoster.AddParticipant exEve).2 = some GoError.participantTooLong
      ∧ (exRoster.AddParticipant exEve).1 = exRoster
      ∧ (exRoster.AddParticipant exFrank).2 = some GoError.participantTooLong
      ∧ (exRoster.AddParticipant exFrank).1 = exRoster := by
  have hiff : (pm.AddParticipant p).2 = none ↔
      (1 ≤ len p.Name ∧ len p.Name ≤ 255) ∧ (1 ≤ len p.Program ∧ len p.Program ≤ 255)
        ∧ (1 ≤ len p.Team ∧ len p.Team ≤ 255) ∧ ¬ isBlank p.Name
        ∧ ∀ e ∈ pm.participants, e.Name ≠ p.Name := by
    rw [AddParticipant_ok_iff, IsNullString_false_iff, IsStringValid_iff, IsStringValid_iff,
      IsStringValid_iff]
    tauto
  refine ⟨hiff, AddParticipant_of_ok pm p, AddParticipant_of_err pm p, ?_,
    by decide, by decide, by decide, by decide⟩
  intro he
  have herr : (pm.AddParticipant p).2 ≠ none := by
    intro hok
    obtain ⟨_, h2, h3, _⟩ := hiff.mp hok
    rcases he with he | he
    · rw [he] at h2
      exact absurd h2.1 (by decide)
    · rw [he] at h3
      exact absurd h3.1 (by decide)
  exact ⟨herr, AddParticipant_of_err pm p herr⟩

/-! ## Sums of time texts of the shape `H:MM:SS` -/

theorem decFold_lt_hundred (ds : GoString) (hd : isDigitRun 1 2 ds) : decFold ds 0 < 100 := by
  have h1 := decFold_lt_pow ds hd.1 0
  have h2 : 10 ^ ds.length ≤ 10 ^ 2 := Nat.pow_le_pow_right (by decide) hd.2.2
  omega

theorem decFold_lt_hundred_two (ds : GoString) (hd : isDigitRun 2 2 ds) : decFold ds 0 < 100 :=
  decFold_lt_hundred ds ⟨hd.1, by have := hd.2.1; omega, hd.2.2⟩

theorem fractionTicks_lt (f : Option GoString) (hf : isFraction f) : fractionTicks f < 10000 := by
  cases f with
  | none => decide
  | some fr =>
    change decFold ((fr ++ List.replicate (4 - fr.length) '0').take 4) 0 < 10000
    have hd : ∀ c ∈ (fr ++ List.replicate (4 - fr.length) '0').take 4, isDigit c = true := by
      intro c hc
      have hc1 := List.mem_of_mem_take hc
      simp only [List.mem_append, List.mem_replicate] at hc1
      rcases hc1 with hc1 | ⟨_, hc1⟩
      · exact hf.2 c hc1
      · rw [hc1]; decide
    have h1 := decFold_lt_pow _ hd 0
    have hl : ((fr ++ List.replicate (4 - fr.length) '0').take 4).length ≤ 4 := by
      rw [List.length_take]; omega
    have h2 := Nat.pow_le_pow_right (show 0 < 10 by decide) hl
    omega

theorem ParseTimeForComparison_rendered (H M S F : Nat) (hH : H < 100) (hM : M < 100)
    (hS : S < 100) (hF : F < 10000) :
    ParseTimeForComparison (fmtD0 2 (H : Int) ++ [':'] ++ fmtD0 2 (M : Int) ++ [':']
        ++ fmtD0 2 (S : Int) ++ ['.'] ++ fmtD0 4 (F : Int))
      = ((H * 36000000 + M * 600000 + S * 10000 + F : Nat) : Int) := by
  rw [fmtD0_two H hH, fmtD0_two M hM, fmtD0_two S hS, fmtD0_four F hF]
  simp only [List.cons_append, List.nil_append, List.append_assoc]
  rw [ParseTimeForComparison_canonical _ _ _ _ _ _ _ _ _ _
    (isDigit_digitChar _ (by omega)) (isDigit_digitChar _ (by omega))
    (isDigit_digitChar _ (by omega)) (isDigit_digitChar _ (by omega))
    (isDigit_digitChar _ (by omega)) (isDigit_digitChar _ (by omega))
    (isDigit_digitChar _ (by omega)) (isDigit_digitChar _ (by omega))
    (isDigit_digitChar _ (by omega)) (isDigit_digitChar _ (by omega))]
  rw [digitVal_digitChar _ (show H / 10 < 10 by omega),
    digitVal_digitChar _ (show H % 10 < 10 by omega),
    digitVal_digitChar _ (show M / 10 < 10 by omega),
    digitVal_digitChar _ (show M % 10 < 10 by omega),
    digitVal_digitChar _ (show S / 10 < 10 by omega),
    digitVal_digitChar _ (show S % 10 < 10 by omega),
    digitVal_digitChar _ (show F / 1000 < 10 by omega),
    digitVal_digitChar _ (show F / 100 % 10 < 10 by omega),
    digitVal_digitChar _ (show F / 10 % 10 < 10 by omega),
    digitVal_digitChar _ (show F % 10 < 10 by omega)]
  omega

theorem Split_hmsText (h m s : GoString) (f : Option GoString)
    (hh : isDigitRun 1 2 h) (hm : isDigitRun 2 2 m) (hs : isDigitRun 2 2 s)
    (hf : isFraction f) : Split ':' (hmsText h m s f) = [h, m, s ++ fracText f] := by
  have hlast : ':' ∉ s ++ fracText f := by
    intro hc
    rw [List.mem_append] at hc
    rcases hc with hc | hc
    · exact not_mem_of_digits ':' isDigit_colon s hs.1 hc
    · cases f with
      | none => simp [fracText] at hc
      | some fr =>
        simp only [fracText, List.mem_cons] at hc
        rcases hc with hc | hc
        · exact absurd hc (by decide)
        · exact not_mem_of_digits ':' isDigit_colon fr hf.2 hc
  unfold hmsText
  rw [Split_append ':' _ h (not_mem_of_digits ':' isDigit_colon h hh.1),
    Split_append ':' _ m (not_mem_of_digits ':' isDigit_colon m hm.1),
    Split_no_sep ':' _ hlast]

theorem SplitN2_seconds (s fr : GoString) (hs : ∀ c ∈ s, isDigit c = true) :
    SplitN2 '.' (s ++ '.' :: fr) = [s, fr] := by
  have hc : Contains (s ++ '.' :: fr) '.' = true := by simp [Contains]
  have hp : ∀ c ∈ s, (fun c => c != '.') c = true := by
    intro c hcs
    have := ne_of_isDigit c '.' (hs c hcs) isDigit_dot
    simpa using this
  unfold SplitN2
  rw [if_pos hc, List.takeWhile_append_of_pos hp, List.dropWhile_append_of_pos hp]
  simp

theorem Contains_dot_digits (s : GoString) (hs : ∀ c ∈ s, isDigit c = true) :
    Contains s '.' = false := by
  unfold Contains
  rw [List.any_eq_false]
  intro c hc
  have := ne_of_isDigit c '.' (hs c hc) isDigit_dot
  simpa using this

theorem padded_fraction (fr : GoString) :
    (if (padFraction fr).length > 4 then (padFraction fr).take 4 else padFraction fr)
      = (if fr.length > 4 then fr.take 4 else padFraction fr) := by
  by_cases hl : fr.length > 4
  · have h0 : 4 - fr.length = 0 := by omega
    have hp : padFraction fr = fr := by
      unfold padFraction; rw [h0, List.replicate_zero, List.append_nil]
    rw [hp, if_pos hl]
  · have hlen : (padFraction fr).length = 4 := by
      simp [padFraction]; omega
    rw [if_neg (by omega), if_neg hl]

theorem ParseTimeForComparison_formatTimeString_hmsText (h m s : GoString)
    (f : Option GoString) (hh : isDigitRun 1 2 h) (hm : isDigitRun 2 2 m)
    (hs : isDigitRun 2 2 s) (hf : isFraction f) :
    ParseTimeForComparison (formatTimeString (hmsText h m s f))
      = ParseTimeForComparison (hmsText h m s f) := by
  by_cases hfull : reFull (hmsText h m s f) = true
  · unfold formatTimeString
    rw [if_pos hfull]
  · have hcont : Contains (hmsText h m s f) ':' = true := by simp [Contains, hmsText]
    have eh := Atoi_short h (ne_nil_of_isDigitRun 0 2 h hh) hh.1 (by have := hh.2.2; omega)
    have em := Atoi_short m (ne_nil_of_isDigitRun 1 2 m hm) hm.1 (by have := hm.2.2; omega)
    have es := Atoi_short s (ne_nil_of_isDigitRun 1 2 s hs) hs.1 (by have := hs.2.2; omega)
    rw [ParseTimeForComparison_hmsText h m s f hh hm hs hf]
    unfold formatTimeString
    rw [if_neg hfull, if_pos hcont, Split_hmsText h m s f hh hm hs hf]
    simp only
    cases f with
    | none =>
      simp only [fracText, List.append_nil]
      rw [Contains_dot_digits s hs.1]
      simp only [Bool.false_eq_true, if_false]
      rw [eh, em, es]
      have h4 : ['.', '0', '0', '0', '0'] = ['.'] ++ fmtD0 4 ((0 : Nat) : Int) := by decide
      rw [h4, ← List.append_assoc]
      rw [ParseTimeForComparison_rendered _ _ _ 0 (decFold_lt_hundred h hh)
        (decFold_lt_hundred_two m hm) (decFold_lt_hundred_two s hs) (by decide)]
      rfl
    | some fr =>
      have hc2 : Contains (s ++ fracText (some fr)) '.' = true := by simp [Contains, fracText]
      rw [if_pos hc2]
      simp only [fracText]
      rw [SplitN2_seconds s fr hs.1]
      simp only
      rw [padded_fraction, fraction_four fr hf.2, eh, em, es]
      exact ParseTimeForComparison_rendered _ _ _ _ (decFold_lt_hundred h hh)
        (decFold_lt_hundred_two m hm) (decFold_lt_hundred_two s hs)
        (fractionTicks_lt (some fr) hf)

theorem parseTicks_hmsText (h m s : GoString) (f : Option GoString)
    (hh : isDigitRun 1 2 h) (hm : isDigitRun 2 2 m) (hs : isDigitRun 2 2 s)
    (hf : isFraction f) :
    parseTicks (hmsText h m s f) = ParseTimeForComparison (hmsText h m s f) := by
  have hre : reHMS (hmsText h m s f) = true ∨ reHMSFrac (hmsText h m s f) = true := by
    unfold reHMS reHMSFrac
    rw [matchHMS_hmsText h m s f hh hm hs hf]
    cases f with
    | none => left; rfl
    | some fr => right; rfl
  have hany : patterns.any (fun pattern => pattern (hmsText h m s f)) = true := by
    rcases hre with hre | hre <;> simp [patterns, hre]
  unfold parseTicks ParseAndPadTimeString
  simp only [TrimSpace_hmsText h m s f hh hs hf, if_neg (hmsText_ne_NaN h m s f)]
  rw [if_pos hany]
  exact ParseTimeForComparison_formatTimeString_hmsText h m s f hh hm hs hf

theorem parseTicks_of_isHMSShape (t : GoString) (ht : isHMSShape t) :
    parseTicks t = ParseTimeForComparison t ∧ 0 ≤ ParseTimeForComparison t := by
  obtain ⟨h, m, s, f, rfl, hh, hm, hs, hf⟩ := ht
  refine ⟨parseTicks_hmsText h m s f hh hm hs hf, ?_⟩
  rw [ParseTimeForComparison_hmsText h m s f hh hm hs hf]
  exact Int.ofNat_nonneg _

theorem validCanonical_formatTicks (n : Nat) (h : n < 3600000000) :
    validCanonical (formatTicks (n : Int)) = true := by
  rw [formatTicks_digits n h]
  simp only [validCanonical, isCanonical, Bool.and_eq_true, beq_self_eq_true, and_true,
    decide_eq_true_iff]
  rw [digitVal_digitChar _ (show n / 600000 % 60 / 10 < 10 by omega),
    digitVal_digitChar _ (show n / 600000 % 60 % 10 < 10 by omega),
    digitVal_digitChar _ (show n / 10000 % 60 / 10 < 10 by omega),
    digitVal_digitChar _ (show n / 10000 % 60 % 10 < 10 by omega)]
  repeat' apply And.intro
  all_goals first | exact isDigit_digitChar _ (by omega) | omega

/-- C1 fails on the code: `AddResult` accepts the `Pass` result with base time
`123`, a digit string that the codec accepts as seconds, and additional time
`0`, and stores it with time `00:00:00.0000`, where base plus additional is 123
seconds, `00:02:03.0000`.  What holds for every result is that the stored
entry does not depend on the `Time` supplied, and that an accepted result is
appended with only its `Time` replaced, the status kept. -/
theorem C1_AddResult_bare_seconds_lost :
    exSeconds123.Status ≠ StatusDisqualified
      ∧ (NewResultManager.AddResult exSeconds123).2 = none
      ∧ exSeconds123.BaseTime = "123".toList ∧ exSeconds123.AdditionalTime = "0".toList
      ∧ ParseAndPadTimeString exSeconds123.BaseTime ≠ NoKey
      ∧ (NewResultManager.AddResult exSeconds123).1.results
          = [{ exSeconds123 with Time := "00:00:00.0000".toList }]
      ∧ formatTicks (123 * 10000) = "00:02:03.0000".toList
      ∧ (∀ (rm : ResultManager) (r : Result) (t : GoString),
          rm.AddResult { r with Time := t } = rm.AddResult r)
      ∧ (∀ (rm : ResultManager) (r : Result), (rm.AddResult r).2 = none →
          ∃ t, (rm.AddResult r).1.results = rm.results ++ [{ r with Time := t }]) := by
  refine ⟨by decide, by decide, rfl, rfl, by decide, by decide, by decide, ?_, ?_⟩
  · intro rm r t
    unfold ResultManager.AddResult
    simp only [recalcTime_ignores_Time]
  · intro rm r hok
    refine ⟨(recalcTime r).Time, ?_⟩
    rw [AddResult_results_of_ok rm r hok]
    congr 2
    unfold recalcTime
    rw [calcResultTime_eq]
    split_ifs <;> rfl

/-- C6, amended: for all valid time texts `a` and `b`, of the shape `H:MM:SS`
or `H:MM:SS.f+` and so neither of them `NaN`, whose tick counts add up to less
than 100 hours (3,600,000,000 ticks), `calcResultTime` with base `a` and
additional `b` produces a valid canonical time text whose tick count
(`ParseTimeForComparison`) is the tick count of `a` plus the tick count of
`b`, which is the sum of the numbers that the digits of `a` and `b` stand
for. -/
theorem C6_add_is_tick_addition (r : Result) (h1 m1 s1 h2 m2 s2 : GoString)
    (f1 f2 : Option GoString)
    (hh1 : isDigitRun 1 2 h1) (hm1 : isDigitRun 2 2 m1) (hs1 : isDigitRun 2 2 s1)
    (hf1 : isFraction f1)
    (hh2 : isDigitRun 1 2 h2) (hm2 : isDigitRun 2 2 m2) (hs2 : isDigitRun 2 2 s2)
    (hf2 : isFraction f2)
    (hsum : hmsTicks h1 m1 s1 f1 + hmsTicks h2 m2 s2 f2 < 3600000000) :
    ParseTimeForComparison (calcResultTime
        { r with BaseTime := hmsText h1 m1 s1 f1, AdditionalTime := hmsText h2 m2 s2 f2 }).Time
        = ParseTimeForComparison (hmsText h1 m1 s1 f1)
          + ParseTimeForComparison (hmsText h2 m2 s2 f2)
      ∧ ParseTimeForComparison (calcResultTime
        { r with BaseTime := hmsText h1 m1 s1 f1, AdditionalTime := hmsText h2 m2 s2 f2 }).Time
        = ((hmsTicks h1 m1 s1 f1 + hmsTicks h2 m2 s2 f2 : Nat) : Int)
      ∧ validCanonical (calcResultTime
        { r with BaseTime := hmsText h1 m1 s1 f1, AdditionalTime := hmsText h2 m2 s2 f2 }).Time
        = true := by
  have e1 := ParseTimeForComparison_hmsText h1 m1 s1 f1 hh1 hm1 hs1 hf1
  have e2 := ParseTimeForComparison_hmsText h2 m2 s2 f2 hh2 hm2 hs2 hf2
  have p1 := parseTicks_hmsText h1 m1 s1 f1 hh1 hm1 hs1 hf1
  have p2 := parseTicks_hmsText h2 m2 s2 f2 hh2 hm2 hs2 hf2
  have ht : (calcResultTime
      { r with BaseTime := hmsText h1 m1 s1 f1, AdditionalTime := hmsText h2 m2 s2 f2 }).Time
      = formatTicks ((hmsTicks h1 m1 s1 f1 + hmsTicks h2 m2 s2 f2 : Nat) : Int) := by
    rw [calcResultTime_Time]
    simp only
    rw [p1, p2, e1, e2]
    rw [if_neg (by omega)]
    unfold hmsTicks
    push_cast
    rfl
  rw [ht, e1, e2, ParseTimeForComparison_formatTicks _ hsum]
  refine ⟨?_, rfl, validCanonical_formatTicks _ hsum⟩
  unfold hmsTicks
  push_cast
  rfl

/-- C6 at the carry across the minute boundary: `00:00:58.0000` plus
`00:00:05.0000` gives `00:01:03.0000`, of tick count 630,000. -/
theorem C6_add_is_tick_addition_witness :
    (calcResultTime { exPass with BaseTime := "00:00:58.0000".toList,
                                  AdditionalTime := "00:00:05.0000".toList }).Time
        = "00:01:03.0000".toList
      ∧ ParseTimeForComparison (calcResultTime
          { exPass with BaseTime := "00:00:58.0000".toList,
                        AdditionalTime := "00:00:05.0000".toList }).Time
        = ParseTimeForComparison "00:00:58.0000".toList
          + ParseTimeForComparison "00:00:05.0000".toList
      ∧ ParseTimeForComparison (calcResultTime
          { exPass with BaseTime := "00:00:58.0000".toList,
                        AdditionalTime := "00:00:05.0000".toList }).Time
        = 630000 :=
  ⟨by decide,
    (C6_add_is_tick_addition exPass "00".toList "00".toList "58".toList "00".toList
      "00".toList "05".toList (some "0000".toList) (some "0000".toList)
      (by decide) (by decide) (by decide) (by decide) (by decide) (by decide) (by decide)
      (by decide) (by decide)).1,
    (C6_add_is_tick_addition exPass "00".toList "00".toList "58".toList "00".toList
      "00".toList "05".toList (some "0000".toList) (some "0000".toList)
      (by decide) (by decide) (by decide) (by decide) (by decide) (by decide) (by decide)
      (by decide) (by decide)).2.1⟩

/-! ## The decrement at Stop and at the manual entry -/

/-- C16 as stated fails in external clock mode: with the reading
`00:00:00.0000` received from the clock, a measurement of zero ticks, and a
timer duration of zero, `stopTimerFunc` sets the duration to the sentinel 1 and
decrements the counter of the chugger, Alice's Bottle tries going from 3 to
2. -/
theorem C16_counterexample :
    exRunnerExternalZero.currentChugger = some exAlice
      ∧ exRunnerExternalZero.useExternalClock = true
      ∧ exRunnerExternalZero.timerState.Duration = 0
      ∧ ParseTimeForComparison exRunnerExternalZero.lastExternalTime = 0
      ∧ exRunnerExternalZero.stopTimerFunc.baseTimeEntry = "00:00:00.0000".toList
      ∧ exRunnerExternalZero.stopTimerFunc.timerState.Duration = 1
      ∧ exRunnerExternalZero.participantMgr.participants
          = [exAlice, exBobP, exCarol, exDave]
      ∧ exRunnerExternalZero.stopTimerFunc.participantMgr.participants
          = [{ exAlice with Bottle := "2".toList }, exBobP, exCarol, exDave] := by
  decide

/-- C16, amended: with a chugger loaded and a measured duration that is not
negative, `stopTimerFunc` calls `DecrementTries` for that chugger and the
selected discipline, once, exactly when the duration measured by the timer is
not zero or, in external clock mode, a reading has been received from the
clock, whatever its value; a successful `enterResultManually` after it makes
the call exactly in the other case; so one Stop followed by a successful manual
result entry leaves the participant store as one single call of
`DecrementTries` leaves it. -/
theorem C16_one_decrement_per_heat (cm : ChugManager) (env : Env) (chugger : Participant)
    (hloaded : cm.currentChugger = some chugger)
    (hduration : 0 ≤ cm.timerState.Duration)
    (hentry : (cm.stopTimerFunc.validateAndSaveResult env
      (if cm.stopTimerFunc.statusSelected = StatusDisqualified then StatusDisqualified
        else StatusPass)).2 = none) :
    (cm.stopTimerFunc.participantMgr
        = if cm.timerState.Duration ≠ 0
              ∨ (cm.useExternalClock = true ∧ cm.lastExternalTime ≠ []) then
            (cm.participantMgr.DecrementTries chugger.Name cm.disciplineSelected).1
          else cm.participantMgr)
      ∧ ((cm.stopTimerFunc.enterResultManually env).participantMgr
        = if cm.timerState.Duration ≠ 0
              ∨ (cm.useExternalClock = true ∧ cm.lastExternalTime ≠ []) then
            cm.stopTimerFunc.participantMgr
          else
            (cm.stopTimerFunc.participantMgr.DecrementTries chugger.Name
              cm.disciplineSelected).1)
      ∧ (cm.stopTimerFunc.enterResultManually env).participantMgr
        = (cm.participantMgr.DecrementTries chugger.Name cm.disciplineSelected).1 := by
  obtain ⟨hd, hdisc, ⟨c, hc, hcn⟩, hpm⟩ := stopTimerFunc_spec cm chugger hloaded
  have henter := enterResultManually_participantMgr cm.stopTimerFunc env c hc hentry
  rw [hcn, hdisc] at henter
  by_cases hext : cm.useExternalClock = true ∧ cm.lastExternalTime ≠ []
  · rw [if_pos hext] at hd
    have hpos : cm.stopTimerFunc.timerState.Duration > 0 := by rw [hd]; decide
    have hnz : ¬ cm.stopTimerFunc.timerState.Duration = 0 := by omega
    rw [if_pos hpos] at hpm
    rw [if_neg hnz] at henter
    rw [if_pos (Or.inr hext), if_pos (Or.inr hext)]
    exact ⟨hpm, henter, by rw [henter, hpm]⟩
  · rw [if_neg hext] at hd
    by_cases hz : cm.timerState.Duration = 0
    · have hnot : ¬ cm.stopTimerFunc.timerState.Duration > 0 := by rw [hd]; omega
      have hz1 : cm.stopTimerFunc.timerState.Duration = 0 := by rw [hd]; exact hz
      rw [if_neg hnot] at hpm
      rw [if_pos hz1] at henter
      have hcond : ¬ (cm.timerState.Duration ≠ 0
          ∨ (cm.useExternalClock = true ∧ cm.lastExternalTime ≠ [])) := by
        rintro (h | h)
        · exact h hz
        · exact hext h
      rw [if_neg hcond, if_neg hcond]
      exact ⟨hpm, henter, by rw [henter, hpm]⟩
    · have hpos : cm.stopTimerFunc.timerState.Duration > 0 := by rw [hd]; omega
      have hnz : ¬ cm.stopTimerFunc.timerState.Duration = 0 := by rw [hd]; exact hz
      rw [if_pos hpos] at hpm
      rw [if_neg hnz] at henter
      rw [if_pos (Or.inl hz), if_pos (Or.inl hz)]
      exact ⟨hpm, henter, by rw [henter, hpm]⟩

/-- C16 on two heats of Alice in Bottle.  After a timer run of 3.2 seconds Stop
takes her counter from 3 to 2 and the manual entry leaves it at 2; with the
timer never run and a time typed in, Stop leaves the counter at 3 and the
manual entry takes it to 2. -/
theorem C16_one_decrement_per_heat_witness :
    (exRunnerTimed.stopTimerFunc.participantMgr.participants
        = [{ exAlice with Bottle := "2".toList }, exBobP, exCarol, exDave]
      ∧ (exRunnerTimed.stopTimerFunc.enterResultManually exEnv).participantMgr.participants
        = [{ exAlice with Bottle := "2".toList }, exBobP, exCarol, exDave])
      ∧ (exRunnerTimeOnly.stopTimerFunc.participantMgr.participants
        = [exAlice, exBobP, exCarol, exDave]
      ∧ (exRunnerTimeOnly.stopTimerFunc.enterResultManually exEnv).participantMgr.participants
        = [{ exAlice with Bottle := "2".toList }, exBobP, exCarol, exDave]) := by
  have h1 := C16_one_decrement_per_heat exRunnerTimed exEnv exAlice
    (by decide) (by decide) (by decide)
  have h2 := C16_one_decrement_per_heat exRunnerTimeOnly exEnv exAlice
    (by decide) (by decide) (by decide)
  refine ⟨⟨?_, ?_⟩, ?_, ?_⟩
  · rw [h1.1]; decide
  · rw [h1.2.2]; decide
  · rw [h2.1]; decide
  · rw [h2.2.2]; decide

end ChugWare
